import Mathlib

/-!
# Shopping console application: embedding and verified properties

A shallow embedding of `Inteprog-Exercise-Shopping.cpp`.

Conventions of the embedding.

* A C string (`char*`, `char[n]`) is the list of the characters stored in the buffer; the end of
  the list stands for the terminating NUL, and a NUL character inside the list is treated the way
  the source treats it (as the end of the string), so every test `!= 0` of the source is kept.
* `int` is `Int`; every `int` addition and multiplication of the source that can leave the 32-bit
  range is wrapped by `wrapInt` (two's complement). Counters that are bounded by a constant of the
  program (`itemCount`, `orderCount`, `productCount`, loop indices) are `Nat`.
* `double` amounts are exact rationals.
* A fixed-size array is a list together with the count the class keeps next to it; reading a slot
  is `getD` with the default-constructed element, writing a slot is `List.set`.
* Functions that may throw return a value of `Except Exn _`, paired with the state at the point
  where they return or throw.
* The console is a list of output events; standard input is the list of lines that the
  successive `cin.getline` calls store in the input buffer. `getline` gives the buffer that one
  such call fills from a line of any length.
-/

namespace Shopping

/-! ## Constants and machine arithmetic -/

def MAX_PRODUCTS : Nat := 150
def MAX_ORDERS : Nat := 50
def MAX_INPUT_LENGTH : Nat := 100
def MAX_CART_ITEMS : Nat := 100

/-- Largest value of a 32-bit `int`. -/
def INT_MAX : Int := 2147483647

/-- Reduction of an integer to the 32-bit two's complement range, the value an `int` holds after
an operation whose mathematical result is `x`. -/
def wrapInt (x : Int) : Int := (x + 2147483648) % 4294967296 - 2147483648

/-- The terminating character of a C string. -/
def NUL : Char := Char.ofNat 0

/-- The character `input[0]` of a buffer: its first character, NUL for the empty string. -/
def firstChar : List Char → Char
  | [] => NUL
  | c :: _ => c

/-- `tolower` of the C library (C locale). -/
def tolower (c : Char) : Char := c.toLower

/-- `toupper` of the C library (C locale). -/
def toupper (c : Char) : Char := c.toUpper

/-! ## Data model -/

/-- Class `Prod`: identifier, display name and unit price. -/
structure Prod where
  id : String
  name : String
  price : ℚ
deriving DecidableEq

/-- The default constructor `Prod()`. -/
instance : Inhabited Prod := ⟨⟨"", "", 0⟩⟩

/-- Class `CartItem`: a product and a quantity. -/
structure CartItem where
  product : Prod
  quantity : Int
deriving DecidableEq

/-- The default constructor `CartItem()`. -/
instance : Inhabited CartItem := ⟨⟨default, 0⟩⟩

/-- `CartItem::getTotalPrice`. -/
def CartItem.getTotalPrice (it : CartItem) : ℚ := it.product.price * it.quantity

/-- The three concrete payment strategies. -/
inductive PaymentStrategy where
  | CashPayment
  | CardPayment
  | GCashPayment
deriving DecidableEq

/-- `PaymentStrategy::getMethodName`. -/
def PaymentStrategy.getMethodName : PaymentStrategy → String
  | .CashPayment => "Cash"
  | .CardPayment => "Credit / Debit"
  | .GCashPayment => "GCash"

/-- Class `Order`. -/
structure Order where
  id : Nat
  items : List CartItem
  itemCount : Nat
  totalAmount : ℚ
  paymentMethod : Option PaymentStrategy
  paymentMethodName : String
deriving DecidableEq

/-- The default constructor `Order()`. -/
instance : Inhabited Order :=
  ⟨⟨0, List.replicate MAX_CART_ITEMS default, 0, 0, none, ""⟩⟩

/-- One iteration of the copy loop of the `Order` constructor. -/
def Order.copyStep (cartItems : List CartItem) (o : Order) (i : Nat) : Order :=
  { o with
    items := o.items.set i (cartItems.getD i default)
    itemCount := o.itemCount + 1
    totalAmount := o.totalAmount + (cartItems.getD i default).getTotalPrice }

/-- The constructor `Order(orderId, cartItems, count, payment)`. -/
def Order.new (orderId : Nat) (cartItems : List CartItem) (count : Nat)
    (payment : Option PaymentStrategy) : Order :=
  let o0 : Order :=
    { id := orderId, items := List.replicate MAX_CART_ITEMS default, itemCount := 0,
      totalAmount := 0, paymentMethod := none, paymentMethodName := "" }
  let o1 := (List.range (min count MAX_CART_ITEMS)).foldl (Order.copyStep cartItems) o0
  match payment with
  | some p => { o1 with paymentMethod := some p, paymentMethodName := p.getMethodName }
  | none => { o1 with paymentMethodName := "Unknown" }

/-- The visible line items of an order: the first `getItemCount()` entries of `getItems()`. -/
def Order.lines (o : Order) : List CartItem := o.items.take o.itemCount

/-! ## String helpers -/

/-- The free function `strcasecmp`. -/
def strcasecmp : List Char → List Char → Int
  | c1 :: s1, c2 :: s2 =>
    if c1 ≠ NUL ∧ c2 ≠ NUL then
      if tolower c1 ≠ tolower c2 then ((tolower c1).toNat : Int) - ((tolower c2).toNat : Int)
      else strcasecmp s1 s2
    else ((tolower c1).toNat : Int) - ((tolower c2).toNat : Int)
  | s1, s2 => ((tolower (firstChar s1)).toNat : Int) - ((tolower (firstChar s2)).toNat : Int)

/-- The free function `isWhitespace`. -/
def isWhitespace (c : Char) : Bool :=
  c == ' ' || c == '\t' || c == '\n' || c == '\r'

/-- The test `c >= '0' && c <= '9'`. -/
def isDigit (c : Char) : Bool := decide ('0' ≤ c) && decide (c ≤ '9')

/-- The loop `while (input[i] != 0 && isWhitespace(input[i])) i++`: the rest of the string from
the position where the loop stops. -/
def skipWhitespace : List Char → List Char
  | [] => []
  | c :: cs => if c != NUL && isWhitespace c then skipWhitespace cs else c :: cs

/-- The digit loop of `parseFirstInteger`: `result = result * 10 + (input[i] - 48)` in `int`
arithmetic; returns the result and the rest of the string. -/
def digitLoop (result : Int) : List Char → Int × List Char
  | [] => (result, [])
  | c :: cs =>
    if isDigit c then digitLoop (wrapInt (result * 10 + ((c.toNat : Int) - 48))) cs
    else (result, c :: cs)

/-- The trailing loop of `parseFirstInteger`: only whitespace may follow the digits. -/
def trailingLoop (result : Int) : List Char → Int
  | [] => result
  | c :: cs =>
    if c = NUL then result
    else if !isWhitespace c then -1
    else trailingLoop result cs

/-- The free function `parseFirstInteger`. -/
def parseFirstInteger (input : List Char) : Int :=
  let rest := skipWhitespace input
  if isDigit (firstChar rest) then
    let r := digitLoop 0 rest
    trailingLoop r.1 r.2
  else -1

/-- The scan `while (*end)` of `trimString`: the index of the last non-whitespace character
before the terminator, starting at index `i` with the current candidate `last`. -/
def lastNonSpace : List Char → Nat → Nat → Nat
  | [], _, last => last
  | c :: cs, i, last =>
    if c = NUL then last
    else lastNonSpace cs (i + 1) (if !isWhitespace c then i else last)

/-- The free function `trimString`: the string left in the buffer. -/
def trimString (str : List Char) : List Char :=
  let start := skipWhitespace str
  if firstChar start = NUL then []
  else start.take (lastNonSpace start 0 0 + 1)

/-- The character returned by `getYesNoResponse` for the line read. -/
def getYesNoResponse (input : List Char) : Char :=
  let rest := skipWhitespace input
  if firstChar rest ≠ NUL then toupper (firstChar rest) else 'N'

/-- The string a `strncpy` of at most `n` characters leaves in a NUL-terminated buffer. -/
def strncpy (src : List Char) (n : Nat) : List Char :=
  (src.takeWhile (fun c => c != NUL)).take n

/-- `strlen`. -/
def strlen (s : List Char) : Nat := (s.takeWhile (fun c => c != NUL)).length

/-- `cin.getline(input, MAX_INPUT_LENGTH)` when the next line of standard input is `line`:
the C string left in the buffer `input`. It is the line itself when the line has at most
`MAX_INPUT_LENGTH - 1` characters; of a longer line only the first `MAX_INPUT_LENGTH - 1`
characters are stored (the call then sets `failbit` and leaves the rest unread). -/
def getline (line : List Char) : List Char := line.take (MAX_INPUT_LENGTH - 1)

/-- The free function `isValidProductId`. -/
def isValidProductId (input : List Char) : Bool :=
  let trimmedInput := trimString (strncpy input (MAX_INPUT_LENGTH - 1))
  if strlen trimmedInput ≠ 1 then false
  else
    let c := toupper (firstChar trimmedInput)
    decide ('A' ≤ c) && decide (c ≤ 'J')

/-! ## Product catalog -/

/-- Class `ProductCatalog`: the array `products` and `productCount`. -/
structure ProductCatalog where
  products : List Prod
  productCount : Nat
deriving DecidableEq

/-- `ProductCatalog::addProduct` (the message of the full catalog goes to the console). -/
def ProductCatalog.addProduct (c : ProductCatalog) (product : Prod) : ProductCatalog :=
  if c.productCount < MAX_PRODUCTS then
    { products := c.products.set c.productCount product, productCount := c.productCount + 1 }
  else c

/-- The private constructor of `ProductCatalog`, which seeds the ten products. -/
def ProductCatalog.getInstance : ProductCatalog :=
  let c0 : ProductCatalog := { products := List.replicate MAX_PRODUCTS default, productCount := 0 }
  ((((((((((c0.addProduct ⟨"A", "Lipstick", 159⟩).addProduct ⟨"B", "Blush", 299⟩).addProduct
    ⟨"C", "Mascara", 149⟩).addProduct ⟨"D", "Eye Shadow Palette", 399⟩).addProduct
    ⟨"E", "Brush for Blush", 79⟩).addProduct ⟨"F", "Lip Gloss", 88⟩).addProduct
    ⟨"G", "Highligter", 115⟩).addProduct ⟨"H", "Eyebrow Pencil", 129⟩).addProduct
    ⟨"I", "Eyeliner", 69⟩).addProduct ⟨"J", "Foundation Liquid", 599⟩)

/-- `ProductCatalog::findProductById`: the first product whose identifier compares equal. -/
def ProductCatalog.findProductById (c : ProductCatalog) (id : List Char) : Option Prod :=
  ((List.range c.productCount).find?
    (fun i => strcasecmp (c.products.getD i default).id.toList id == 0)).map
    (fun i => c.products.getD i default)

/-! ## Shopping cart -/

/-- Class `ShoppingCart`: the array `items` and `itemCount`. -/
structure ShoppingCart where
  items : List CartItem
  itemCount : Nat
deriving DecidableEq

/-- The constructor `ShoppingCart()`. -/
def ShoppingCart.new : ShoppingCart :=
  { items := List.replicate MAX_CART_ITEMS default, itemCount := 0 }

/-- The search loop of `ShoppingCart::addProduct`: the first index below `itemCount` whose
product identifier compares equal to the identifier of `product`. -/
def ShoppingCart.findLine (c : ShoppingCart) (product : Prod) : Option Nat :=
  (List.range c.itemCount).find?
    (fun i => strcasecmp (c.items.getD i default).product.id.toList product.id.toList == 0)

/-- `ShoppingCart::addProduct`: the cart after the call. -/
def ShoppingCart.addProduct (c : ShoppingCart) (product : Prod) (quantity : Int) :
    ShoppingCart :=
  match c.findLine product with
  | some i =>
    let it := c.items.getD i default
    { c with items := c.items.set i { it with quantity := wrapInt (it.quantity + quantity) } }
  | none =>
    if c.itemCount < MAX_CART_ITEMS then
      { items := c.items.set c.itemCount ⟨product, quantity⟩, itemCount := c.itemCount + 1 }
    else c

/-- `ShoppingCart::addProduct`: whether the call prints the message of the full cart. -/
def ShoppingCart.addProductFull (c : ShoppingCart) (product : Prod) : Bool :=
  (c.findLine product).isNone && !decide (c.itemCount < MAX_CART_ITEMS)

/-- `ShoppingCart::getItems`. -/
def ShoppingCart.getItems (c : ShoppingCart) : List CartItem := c.items

/-- `ShoppingCart::getItemCount`. -/
def ShoppingCart.getItemCount (c : ShoppingCart) : Nat := c.itemCount

/-- `ShoppingCart::getTotalAmount`. -/
def ShoppingCart.getTotalAmount (c : ShoppingCart) : ℚ :=
  (List.range c.itemCount).foldl (fun total i => total + (c.items.getD i default).getTotalPrice) 0

/-- `ShoppingCart::clear`. -/
def ShoppingCart.clear (c : ShoppingCart) : ShoppingCart := { c with itemCount := 0 }

/-- The visible lines of a cart: the first `getItemCount()` entries of `getItems()`. -/
def ShoppingCart.lines (c : ShoppingCart) : List CartItem := c.getItems.take c.getItemCount

/-- The array of a cart has its declared size and the count is within it. -/
def ShoppingCart.WF (c : ShoppingCart) : Prop :=
  c.items.length = MAX_CART_ITEMS ∧ c.itemCount ≤ MAX_CART_ITEMS

instance (c : ShoppingCart) : Decidable c.WF := by
  unfold ShoppingCart.WF; exact inferInstance

/-! ## Exceptions -/

/-- The exception objects the program throws; all three classes derive from `std::exception`. -/
inductive Exn where
  | runtime_error (what : String)
  | InvalidInputException (what : String)
  | InvalidProductException (what : String)
deriving DecidableEq

/-- `exception::what`. -/
def Exn.what : Exn → String
  | .runtime_error w => w
  | .InvalidInputException w => w
  | .InvalidProductException w => w

/-! ## Order manager -/

/-- Class `OrderManager`: the array `orders` and `orderCount`. -/
structure OrderManager where
  orders : List Order
  orderCount : Nat
deriving DecidableEq

/-- The private constructor of `OrderManager`. -/
def OrderManager.getInstance : OrderManager :=
  { orders := List.replicate MAX_ORDERS default, orderCount := 0 }

/-- The orders of the ledger: the first `orderCount` entries of `orders`. -/
def OrderManager.placed (m : OrderManager) : List Order := m.orders.take m.orderCount

/-- The array of the ledger has its declared size. -/
def OrderManager.WF (m : OrderManager) : Prop := m.orders.length = MAX_ORDERS

instance (m : OrderManager) : Decidable m.WF := by
  unfold OrderManager.WF; exact inferInstance

/-- The line `createOrder` writes to `order_log.txt`. -/
def logLine (newOrderId : Nat) (paymentMethod : PaymentStrategy) : String :=
  "[LOG] -> Order ID: " ++ toString newOrderId ++
    " has been successfully checked out and paid using " ++ paymentMethod.getMethodName ++ "."

/-- What a call of `createOrder` leaves behind: the value returned or the exception thrown, the
ledger, the log file and the text written to `cerr`. -/
structure CreateResult where
  result : Except Exn Nat
  manager : OrderManager
  log : List String
  warnings : List String

/-- `OrderManager::createOrder`. `logOpen` tells whether `order_log.txt` can be opened for
appending; `log` is the content of that file, one entry per line. -/
def OrderManager.createOrder (m : OrderManager) (log : List String) (logOpen : Bool)
    (cart : ShoppingCart) (paymentMethod : PaymentStrategy) : CreateResult :=
  if m.orderCount ≥ MAX_ORDERS then
    { result := .error (.runtime_error "Error: Maximum number of orders reached!"),
      manager := m, log := log, warnings := [] }
  else
    let newOrderId := m.orderCount + 1
    let orders := m.orders.set m.orderCount
      (Order.new newOrderId cart.getItems cart.getItemCount (some paymentMethod))
    let log1 := if logOpen then log ++ [logLine newOrderId paymentMethod] else log
    let warn := if logOpen then [] else ["Warning: Could not open log file!"]
    { result := .ok newOrderId,
      manager := { orders := orders, orderCount := m.orderCount + 1 },
      log := log1, warnings := warn }

/-! ## Application controller -/

/-- What the program writes to the console. Amounts are kept as numbers; the layout of the
tables is not modelled. -/
inductive Out where
  | text (s : String)
  | paid (amount : ℚ) (how : String)
  | orderId (id : Nat)
  | cart (lines : List CartItem) (total : ℚ)
  | products (ps : List Prod)
  | orders (os : List Order)
deriving DecidableEq

/-- `PaymentStrategy::pay`: the confirmation written to the console. -/
def PaymentStrategy.pay (p : PaymentStrategy) (amount : ℚ) : Out :=
  match p with
  | .CashPayment => .paid amount "Cash"
  | .CardPayment => .paid amount "the payment method of Credit/Debit Card"
  | .GCashPayment => .paid amount "the payment method of GCash"

/-- `ShoppingCart::displayCart`. -/
def ShoppingCart.displayCart (c : ShoppingCart) : Out :=
  if c.itemCount = 0 then .text "Your shopping cart is currently empty."
  else .cart c.lines c.getTotalAmount

/-- `ProductCatalog::displayProducts`. -/
def ProductCatalog.displayProducts (c : ProductCatalog) : Out :=
  .products (c.products.take c.productCount)

/-- `OrderManager::displayOrders`. -/
def OrderManager.displayOrders (m : OrderManager) : Out :=
  if m.orderCount = 0 then .text "No orders have been placed yet."
  else .orders m.placed

/-- The objects the application works on: the cart of `ShoppingApplication`, the `OrderManager`
singleton, the file `order_log.txt`, and the text written to `cout` and `cerr`. -/
structure AppState where
  cart : ShoppingCart
  orderManager : OrderManager
  log : List String
  out : List Out
  err : List String
deriving DecidableEq

/-- Writing one item to `cout`. -/
def AppState.print (st : AppState) (o : Out) : AppState := { st with out := st.out ++ [o] }

/-- The state at program start. -/
def AppState.init : AppState :=
  { cart := ShoppingCart.new, orderManager := OrderManager.getInstance, log := [], out := [],
    err := [] }

/-- The `switch (paymentChoice)` of `checkout`. -/
def paymentOfChoice (paymentChoice : Int) : Option PaymentStrategy :=
  if paymentChoice = 1 then some .CashPayment
  else if paymentChoice = 2 then some .CardPayment
  else if paymentChoice = 3 then some .GCashPayment
  else none

/-- The program points of the `try` block of `checkout` once `createOrder` has returned: the
state in which `pay` is invoked, the value of the local variable `orderId`, the amount passed
to `pay`, and the states after `pay`, after the two lines written to `cout` and after
`cart.clear()`. -/
structure CheckoutStages where
  atPay : AppState
  orderId : Nat
  payAmount : ℚ
  afterPay : AppState
  afterReport : AppState
  afterClear : AppState

/-- The statements of the `try` block of `checkout` that follow the `switch`, executed one
after the other, each on the state the statement before it has left:
`int orderId = orderManager.createOrder(cart, paymentMethod)`,
`paymentMethod->pay(cart.getTotalAmount())`, the two lines written to `cout`, `cart.clear()`.
When `createOrder` throws, the statements after it are not executed: the result is the
exception and the state at the throw. -/
def checkoutStages (st : AppState) (paymentMethod : PaymentStrategy) (logOpen : Bool) :
    Except (Exn × AppState) CheckoutStages :=
  let r := st.orderManager.createOrder st.log logOpen st.cart paymentMethod
  let s1 : AppState :=
    { st with orderManager := r.manager, log := r.log, err := st.err ++ r.warnings }
  match r.result with
  | .error e => .error (e, s1)
  | .ok orderId =>
    let amount := s1.cart.getTotalAmount
    let s2 := s1.print (paymentMethod.pay amount)
    let s3 := (s2.print (.text "You have successfully checked out the products!")).print
      (.orderId orderId)
    let s4 : AppState := { s3 with cart := s3.cart.clear }
    .ok ⟨s1, orderId, amount, s2, s3, s4⟩

/-- The `try` block of `ShoppingApplication::checkout`: the exception thrown, if any, and the
state at that point. After the range test the `switch` always selects a payment method, so the
case without one is never taken; the statements after the `switch` are those of
`checkoutStages`, and the block ends in the state after the last of them. -/
def checkoutTry (st : AppState) (paymentChoice : Int) (logOpen : Bool) :
    Except Exn Unit × AppState :=
  if paymentChoice < 1 ∨ paymentChoice > 3 then
    (.error (.InvalidInputException "Error: Invalid payment method selected!"), st)
  else
    match paymentOfChoice paymentChoice with
    | none => (.ok (), st)
    | some paymentMethod =>
      match checkoutStages st paymentMethod logOpen with
      | .error (e, st1) => (.error e, st1)
      | .ok stages => (.ok (), stages.afterClear)

/-- `ShoppingApplication::checkout` from the point where the payment line `input` has been
read: the `try` block and its handler `catch (const exception& e)`, which takes every
exception of the program since all of them derive from `std::exception`. An exception leaving
`checkout` would be the `error` case of the result. -/
def checkout (st : AppState) (input : List Char) (logOpen : Bool) : Except Exn AppState :=
  let paymentChoice := parseFirstInteger input
  match checkoutTry st paymentChoice logOpen with
  | (.ok _, st1) => .ok st1
  | (.error e, st1) => .ok (st1.print (.text e.what))

/-- The part of `checkout` before the payment line is read. -/
def checkoutPrompt (st : AppState) : AppState :=
  ((st.print (.text "Items for Checkout")).print st.cart.displayCart).print
    (.text "Select payment method: 1. Cash 2. Credit/Debit Card 3. GCash")

/-- The prompt at which the program waits for the next line of input. -/
inductive Mode where
  | menu
  | askProductId
  | askQuantity (product : Prod)
  | askAnother
  | askCheckout
  | askPayment
  | finished
deriving DecidableEq

/-- The program between two reads of a line: the prompt it waits at and its data. -/
structure Config where
  mode : Mode
  st : AppState
deriving DecidableEq

/-- The menu choice `run` computes from the line read: `trimString`, then
`parseFirstInteger`. -/
def menuChoice (input : List Char) : Int := parseFirstInteger (trimString input)

/-- One iteration of the loop of `ShoppingApplication::run` up to the next read. -/
def runStep (st : AppState) (input : List Char) : Config :=
  let choice := menuChoice input
  if choice = -1 then ⟨.menu, st.print (.text "Invalid input. Please enter a number.")⟩
  else if choice = 1 then ⟨.askProductId, st.print ProductCatalog.getInstance.displayProducts⟩
  else if choice = 2 then
    let st1 := st.print st.cart.displayCart
    if st.cart.getItemCount = 0 then ⟨.menu, st1⟩ else ⟨.askCheckout, st1⟩
  else if choice = 3 then ⟨.menu, st.print st.orderManager.displayOrders⟩
  else if choice = 4 then
    ⟨.finished, st.print (.text "Thank you for using our Shopping System!")⟩
  else ⟨.menu, st.print (.text "Invalid choice. Please try again.")⟩

/-- The product-identifier prompt of `viewProducts`. -/
def productIdStep (st : AppState) (input : List Char) : Config :=
  if !isValidProductId input then
    ⟨.askProductId,
      st.print (.text "Invalid product ID. Please enter a single letter from A to J.")⟩
  else
    let productId : List Char := [toupper (firstChar input)]
    match ProductCatalog.getInstance.findProductById productId with
    | none => ⟨.askProductId, st.print (.text ("Product with ID '" ++ String.mk productId ++
        "' not found."))⟩
    | some product => ⟨.askQuantity product, st⟩

/-- The quantity read at the quantity prompt of `viewProducts`, when the line is accepted. -/
def acceptedQuantity (input : List Char) : Option Int :=
  let quantity := parseFirstInteger input
  if quantity ≤ 0 then none else some quantity

/-- The quantity prompt of `viewProducts`. -/
def quantityStep (st : AppState) (product : Prod) (input : List Char) : Config :=
  match acceptedQuantity input with
  | none => ⟨.askQuantity product, st.print (.text "Quantity must be a positive number.")⟩
  | some quantity =>
    let st1 : AppState := { st with cart := st.cart.addProduct product quantity }
    let st2 := if st.cart.addProductFull product then
      st1.print (.text "Error: Shopping cart is full!") else st1
    ⟨.askAnother, st2.print (.text "Product added successfully!")⟩

/-- One step of the program: the line `input` is the one the pending `cin.getline` stores.
An exception leaving the step is the `error` case. -/
def step (cfg : Config) (input : List Char) (logOpen : Bool) : Except Exn Config :=
  match cfg.mode with
  | .menu => .ok (runStep cfg.st input)
  | .askProductId => .ok (productIdStep cfg.st input)
  | .askQuantity product => .ok (quantityStep cfg.st product input)
  | .askAnother =>
    if getYesNoResponse input = 'Y' then .ok ⟨.askProductId, cfg.st⟩ else .ok ⟨.menu, cfg.st⟩
  | .askCheckout =>
    if getYesNoResponse input = 'Y' then .ok ⟨.askPayment, checkoutPrompt cfg.st⟩
    else .ok ⟨.menu, cfg.st⟩
  | .askPayment =>
    match checkout cfg.st input logOpen with
    | .ok st1 => .ok ⟨.menu, st1⟩
    | .error e => .error e
  | .finished => .ok cfg

/-- The program run on the lines of standard input, from a configuration on. -/
def exec (cfg : Config) (logOpen : Bool) : List (List Char) → Except Exn Config
  | [] => .ok cfg
  | input :: rest =>
    match step cfg input logOpen with
    | .ok cfg1 => exec cfg1 logOpen rest
    | .error e => .error e

/-- The exit code of `main` on the given lines of standard input: 1 when an exception reaches
the handler of `main`, 0 when `run` returns, and no exit code when the lines end while the
program still waits for input that lets it proceed. -/
def mainExit (logOpen : Bool) (stdin : List (List Char)) : Option Nat :=
  match exec ⟨.menu, AppState.init⟩ logOpen stdin with
  | .error _ => some 1
  | .ok cfg => if cfg.mode = .finished then some 0 else none

/-! ## Sequences of calls, reachable ledgers and sample data -/

/-- A sequence of `createOrder` calls, each with its cart, payment method and the availability
of the log file: the identifiers returned, the ledger and the log after the last call, or `none`
as soon as one call throws. -/
def createOrders (m : OrderManager) (log : List String) :
    List (Bool × ShoppingCart × PaymentStrategy) → Option (List Nat × OrderManager × List String)
  | [] => some ([], m, log)
  | call :: rest =>
    match (m.createOrder log call.1 call.2.1 call.2.2).result with
    | .error _ => none
    | .ok newOrderId =>
      (createOrders (m.createOrder log call.1 call.2.1 call.2.2).manager
        (m.createOrder log call.1 call.2.1 call.2.2).log rest).map
        (fun x => (newOrderId :: x.1, x.2))

/-- The ledgers the program can be in: the empty ledger and what `createOrder` calls, whether
they return or throw, make of it. -/
inductive OrderManager.Reachable : OrderManager → Prop where
  | init : OrderManager.Reachable OrderManager.getInstance
  | create (m : OrderManager) (log : List String) (logOpen : Bool) (cart : ShoppingCart)
      (p : PaymentStrategy) :
      OrderManager.Reachable m →
      OrderManager.Reachable (m.createOrder log logOpen cart p).manager

/-- The seeded product "A". -/
def productA : Prod := ⟨"A", "Lipstick", 159⟩

/-- The cart of the scenario: two units of product "A" added to the empty cart. -/
def sampleCart : ShoppingCart := ShoppingCart.new.addProduct productA 2

/-- The program state of the scenario: the sample cart and the empty ledger. -/
def sampleState : AppState := { AppState.init with cart := sampleCart }

/-- A ledger filled by `n` successive `createOrder` calls for the sample cart, paid in cash. -/
def filledLedger : Nat → OrderManager
  | 0 => OrderManager.getInstance
  | n + 1 => ((filledLedger n).createOrder [] true sampleCart .CashPayment).manager

/-- The program state with the sample cart and a ledger holding `MAX_ORDERS` orders. -/
def fullState : AppState := { sampleState with orderManager := filledLedger MAX_ORDERS }

/-- The lines a user types to buy two units of product "A" and pay in cash: menu 1, product A,
quantity 2, no further product, menu 2, confirm checkout, payment 1. -/
def purchaseLines : List (List Char) :=
  ["1".toList, "A".toList, "2".toList, "N".toList, "2".toList, "Y".toList, "1".toList]

/-- The lines of `n` such purchases in a row. -/
def purchaseScript (n : Nat) : List (List Char) :=
  (List.replicate n purchaseLines).flatten

/-! ## Specification vocabulary for the input lines -/

/-- The number a string of decimal digits denotes. -/
def decimalValue (ds : List Char) : Nat :=
  ds.foldl (fun n c => 10 * n + (c.toNat - 48)) 0

/-- A line that is optional whitespace, then one or more decimal digits, then optional
whitespace. -/
def IsNumeral (line : List Char) : Prop :=
  ∃ ws1 ds ws2, line = ws1 ++ ds ++ ws2 ∧ (∀ c ∈ ws1, isWhitespace c = true) ∧ ds ≠ [] ∧
    (∀ c ∈ ds, isDigit c = true) ∧ (∀ c ∈ ws2, isWhitespace c = true)

/-- A line that is optional whitespace, then one to nine decimal digits, then optional
whitespace. -/
def IsShortNumeral (line : List Char) : Prop :=
  ∃ ws1 ds ws2, line = ws1 ++ ds ++ ws2 ∧ (∀ c ∈ ws1, isWhitespace c = true) ∧ ds ≠ [] ∧
    ds.length ≤ 9 ∧ (∀ c ∈ ds, isDigit c = true) ∧ (∀ c ∈ ws2, isWhitespace c = true)

/-- The value the digit loop of `parseFirstInteger` accumulates over a string of digits,
starting from `result`. -/
def digitsValue (result : Int) (ds : List Char) : Int :=
  ds.foldl (fun r c => wrapInt (r * 10 + ((c.toNat : Int) - 48))) result

/-- The C string in a buffer without its trailing whitespace: the characters before the
terminator up to the last one that is not whitespace. -/
def trimEnd : List Char → List Char
  | [] => []
  | c :: cs =>
    if c = NUL then []
    else if trimEnd cs = [] ∧ isWhitespace c = true then [] else c :: trimEnd cs

/-! ## Specification vocabulary for the cart -/

/-- The C string in a buffer, lower-cased: what `strcasecmp` compares. -/
def lowerKey (s : List Char) : List Char :=
  (s.takeWhile (fun c => c != NUL)).map tolower

/-- The lines of a cart whose product identifier compares equal to `id`. -/
def ShoppingCart.linesFor (c : ShoppingCart) (id : List Char) : List CartItem :=
  c.lines.filter (fun it => strcasecmp it.product.id.toList id == 0)

/-- No two lines of the cart have identifiers that compare equal. -/
def ShoppingCart.Distinct (c : ShoppingCart) : Prop :=
  (c.lines.map (fun it => it.product.id.toList)).Pairwise (fun a b => strcasecmp a b ≠ 0)

/-- The carts the program can be in: the empty cart and what `addProduct` and `clear` make
of it. -/
inductive ShoppingCart.Reachable : ShoppingCart → Prop where
  | new : ShoppingCart.Reachable ShoppingCart.new
  | addProduct (c : ShoppingCart) (product : Prod) (quantity : Int) :
      ShoppingCart.Reachable c → ShoppingCart.Reachable (c.addProduct product quantity)
  | clear (c : ShoppingCart) : ShoppingCart.Reachable c → ShoppingCart.Reachable c.clear

/-- The seeded product "A" with its identifier in lower case. -/
def productALower : Prod := ⟨"a", "Lipstick", 159⟩

/-! ## Specification vocabulary for the product identifier and the answers -/

/-- One of the letters A..J or a..j. -/
def isLetterAJ (c : Char) : Bool :=
  (decide ('A' ≤ c) && decide (c ≤ 'J')) || (decide ('a' ≤ c) && decide (c ≤ 'j'))

/-- A line that, with its leading and trailing whitespace removed, is exactly the one
character `c`: optional whitespace, the character `c`, which is no whitespace, optional
whitespace. -/
def IsSingle (line : List Char) (c : Char) : Prop :=
  ∃ ws1 ws2, line = ws1 ++ [c] ++ ws2 ∧ (∀ d ∈ ws1, isWhitespace d = true) ∧
    isWhitespace c = false ∧ (∀ d ∈ ws2, isWhitespace d = true)

/-- A line whose first character that is no whitespace is `c`. -/
def FirstNonSpace (line : List Char) (c : Char) : Prop :=
  ∃ ws rest, line = ws ++ c :: rest ∧ (∀ d ∈ ws, isWhitespace d = true) ∧
    isWhitespace c = false

/-- The seeded product "B". -/
def productB : Prod := ⟨"B", "Blush", 299⟩

/-- A product with a three-character identifier made from the number `i` below 100. -/
def numberedProduct (i : Nat) : Prod :=
  ⟨String.mk ['P', Char.ofNat (48 + i / 10), Char.ofNat (48 + i % 10)], "Item", 1⟩

/-- The cart after adding the first `n` numbered products, one unit each. -/
def crowdedCart (n : Nat) : ShoppingCart :=
  (List.range n).foldl (fun c i => c.addProduct (numberedProduct i) 1) ShoppingCart.new

/-! ## Specification vocabulary for the ledger and the checkout -/

/-- The ledger `m1` holds every order of the ledger `m`, unchanged and at the same
position. -/
def OrderManager.Extends (m m1 : OrderManager) : Prop :=
  m.orderCount ≤ m1.orderCount ∧
    ∀ k, k < m.orderCount → m1.orders.getD k default = m.orders.getD k default

/-- What holds between two reads of a line in every run of the program: the arrays have their
declared sizes, every order of the ledger has at least one line item, and the cart is not
empty while the program asks for the checkout or for the payment. -/
def Config.Inv (cfg : Config) : Prop :=
  cfg.st.cart.WF ∧ cfg.st.orderManager.WF ∧
    (∀ o ∈ cfg.st.orderManager.placed, 1 ≤ o.itemCount ∧ o.lines ≠ []) ∧
    ((cfg.mode = .askCheckout ∨ cfg.mode = .askPayment) → 1 ≤ cfg.st.cart.itemCount)

/-- A line of 100 characters: 99 blanks and the letter y. -/
def longYesLine : List Char := List.replicate 99 ' ' ++ ['y']

/-- A line of 101 characters: 100 blanks and the digit 5. -/
def longQuantityLine : List Char := List.replicate 100 ' ' ++ ['5']

/-! ## Specification vocabulary for the total of the cart -/

/-- The products of a catalog: the first `productCount` entries of `products`. -/
def ProductCatalog.listed (c : ProductCatalog) : List Prod := c.products.take c.productCount

/-- The carts the program can be in when only products of the seeded catalog are added, each
in a positive quantity: the empty cart and what `addProduct` with such arguments and `clear`
make of it. -/
inductive ShoppingCart.Seeded : ShoppingCart → Prop where
  | new : ShoppingCart.Seeded ShoppingCart.new
  | addProduct (c : ShoppingCart) (product : Prod) (quantity : Int) :
      product ∈ ProductCatalog.getInstance.listed → 0 < quantity →
      ShoppingCart.Seeded c → ShoppingCart.Seeded (c.addProduct product quantity)
  | clear (c : ShoppingCart) : ShoppingCart.Seeded c → ShoppingCart.Seeded c.clear

/-- The cart with the one line of the seeded product "A" in the largest quantity an `int`
holds. -/
def largestCart : ShoppingCart := ShoppingCart.new.addProduct productA 2147483647

/-! ## Auxiliary lemmas: arrays, totals and the order constructor -/

/-- The summation loop over the first `n` slots of an array adds up the values of these slots. -/
theorem foldl_range_getD_sum (f : CartItem → ℚ) (l : List CartItem) :
    ∀ (n : Nat) (a : ℚ), n ≤ l.length →
      (List.range n).foldl (fun total i => total + f (l.getD i default)) a
        = a + ((l.take n).map f).sum := by
  intro n
  induction n with
  | zero => intro a _; simp
  | succ k ih =>
    intro a hk
    have hk1 : k < l.length := hk
    rw [List.range_succ, List.foldl_append, ih a (Nat.le_of_lt hk1)]
    have hg : l.getD k default = l[k] := by
      rw [List.getD_eq_getElem?_getD, List.getElem?_eq_getElem hk1]; rfl
    rw [List.take_succ, List.getElem?_eq_getElem hk1]
    simp only [List.foldl_cons, List.foldl_nil, hg, Option.toList_some, List.map_append,
      List.map_cons, List.map_nil, List.sum_append, List.sum_cons, List.sum_nil, add_zero,
      add_assoc]

/-- The total of a well-formed cart is the sum of the totals of its lines. -/
theorem getTotalAmount_eq_sum (c : ShoppingCart) (h : c.WF) :
    c.getTotalAmount = (c.lines.map CartItem.getTotalPrice).sum := by
  unfold ShoppingCart.getTotalAmount ShoppingCart.lines ShoppingCart.getItems
    ShoppingCart.getItemCount
  rw [foldl_range_getD_sum CartItem.getTotalPrice c.items c.itemCount 0 (by rw [h.1]; exact h.2)]
  simp

/-- Writing slot `n` and cutting after it appends the written element to the first `n`. -/
theorem take_set_succ {α : Type} (l : List α) (n : Nat) (a : α) (h : n < l.length) :
    (l.set n a).take (n + 1) = l.take n ++ [a] := by
  induction l generalizing n with
  | nil => simp at h
  | cons x xs ih =>
    cases n with
    | zero => simp
    | succ k =>
      simp only [List.length_cons, Nat.add_lt_add_iff_right] at h
      simp [ih k h]


/-- The state of the copy loop of the `Order` constructor after `k` iterations. -/
theorem copyLoop_spec (cartItems : List CartItem) (o0 : Order) :
    ∀ k : Nat, k ≤ o0.items.length → k ≤ cartItems.length →
      let o := (List.range k).foldl (Order.copyStep cartItems) o0
      o.id = o0.id ∧ o.itemCount = o0.itemCount + k ∧
      o.totalAmount = o0.totalAmount + ((cartItems.take k).map CartItem.getTotalPrice).sum ∧
      o.paymentMethod = o0.paymentMethod ∧ o.paymentMethodName = o0.paymentMethodName ∧
      o.items.length = o0.items.length ∧ o.items.take k = cartItems.take k := by
  intro k
  induction k with
  | zero => intro _ _; simp
  | succ k ih =>
    intro h1 h2
    have hk1 : k < o0.items.length := h1
    have hk2 : k < cartItems.length := h2
    obtain ⟨a1, a2, a3, a4, a5, a6, a7⟩ := ih (Nat.le_of_lt hk1) (Nat.le_of_lt hk2)
    have hg : cartItems.getD k default = cartItems[k] := by
      rw [List.getD_eq_getElem?_getD, List.getElem?_eq_getElem hk2]; rfl
    simp only [List.range_succ, List.foldl_append, List.foldl_cons, List.foldl_nil]
    refine ⟨a1, ?_, ?_, a4, a5, ?_, ?_⟩
    · simp only [Order.copyStep, a2]; omega
    · simp only [Order.copyStep, a3, hg]
      rw [List.take_succ, List.getElem?_eq_getElem hk2]
      simp only [Option.toList_some, List.map_append, List.map_cons, List.map_nil,
        List.sum_append, List.sum_cons, List.sum_nil, add_zero, add_assoc]
    · simp only [Order.copyStep, List.length_set, a6]
    · simp only [Order.copyStep, hg]
      rw [take_set_succ _ _ _ (by rw [a6]; exact hk1), a7, List.take_succ,
        List.getElem?_eq_getElem hk2]
      simp

/-- What the `Order` constructor builds from the array of a well-formed cart. -/
theorem Order_new_spec (orderId : Nat) (c : ShoppingCart) (h : c.WF) (p : PaymentStrategy) :
    let o := Order.new orderId c.getItems c.getItemCount (some p)
    o.id = orderId ∧ o.lines = c.lines ∧ o.totalAmount = c.getTotalAmount ∧
      o.paymentMethodName = p.getMethodName ∧ o.itemCount = c.itemCount := by
  have hmin : min c.itemCount MAX_CART_ITEMS = c.itemCount := Nat.min_eq_left h.2
  have hlen : c.itemCount ≤ c.items.length := by rw [h.1]; exact h.2
  have hs := copyLoop_spec c.items
    { id := orderId, items := List.replicate MAX_CART_ITEMS default, itemCount := 0,
      totalAmount := 0, paymentMethod := none, paymentMethodName := "" }
    c.itemCount (by simpa using h.2) hlen
  obtain ⟨a1, a2, a3, -, -, -, a7⟩ := hs
  simp only [Order.new, ShoppingCart.getItems, ShoppingCart.getItemCount, hmin, Order.lines,
    ShoppingCart.lines]
  refine ⟨a1, ?_, ?_, trivial, ?_⟩
  · rw [a2, Nat.zero_add]; exact a7
  · rw [a3, getTotalAmount_eq_sum c h]; simp [ShoppingCart.lines, ShoppingCart.getItems,
      ShoppingCart.getItemCount]
  · rw [a2, Nat.zero_add]

/-- A call of `createOrder` on a ledger that is not full. -/
theorem createOrder_ok (m : OrderManager) (log : List String) (logOpen : Bool)
    (cart : ShoppingCart) (p : PaymentStrategy) (hwf : m.WF)
    (hroom : m.orderCount < MAX_ORDERS) :
    let r := m.createOrder log logOpen cart p
    r.result = .ok (m.orderCount + 1) ∧ r.manager.orderCount = m.orderCount + 1 ∧
      r.manager.placed =
        m.placed ++ [Order.new (m.orderCount + 1) cart.getItems cart.getItemCount (some p)] ∧
      r.manager.WF := by
  have hn : ¬ m.orderCount ≥ MAX_ORDERS := Nat.not_le.mpr hroom
  simp only [OrderManager.createOrder, hn, if_false, OrderManager.placed, OrderManager.WF,
    List.length_set]
  refine ⟨trivial, trivial, ?_, hwf⟩
  exact take_set_succ _ _ _ (by rw [hwf]; exact hroom)

/-- A call of `createOrder` on a full ledger throws and changes nothing. -/
theorem createOrder_full (m : OrderManager) (log : List String) (logOpen : Bool)
    (cart : ShoppingCart) (p : PaymentStrategy) (hfull : MAX_ORDERS ≤ m.orderCount) :
    m.createOrder log logOpen cart p =
      { result := .error (.runtime_error "Error: Maximum number of orders reached!"),
        manager := m, log := log, warnings := [] } := by
  have hn : m.orderCount ≥ MAX_ORDERS := hfull
  simp only [OrderManager.createOrder, hn, if_true]

/-- The state a checkout with a valid payment choice returns when the ledger is not full. -/
theorem checkout_valid_eq (st : AppState) (input : List Char) (logOpen : Bool)
    (p : PaymentStrategy) (hp : paymentOfChoice (parseFirstInteger input) = some p)
    (hwf : st.orderManager.WF) (hroom : st.orderManager.orderCount < MAX_ORDERS) :
    checkout st input logOpen = .ok
      { cart := st.cart.clear,
        orderManager := (st.orderManager.createOrder st.log logOpen st.cart p).manager,
        log := (st.orderManager.createOrder st.log logOpen st.cart p).log,
        out := st.out ++ [p.pay st.cart.getTotalAmount] ++
          [.text "You have successfully checked out the products!"] ++
          [.orderId (st.orderManager.orderCount + 1)],
        err := st.err ++ (st.orderManager.createOrder st.log logOpen st.cart p).warnings } := by
  have hrange : ¬ (parseFirstInteger input < 1 ∨ parseFirstInteger input > 3) := by
    unfold paymentOfChoice at hp
    split_ifs at hp <;> omega
  obtain ⟨r1, -⟩ := createOrder_ok st.orderManager st.log logOpen st.cart p hwf hroom
  simp only [checkout, checkoutTry, checkoutStages, hrange, if_false, hp, r1, AppState.print]

/-- The effect of a checkout with a valid payment choice on a ledger that is not full. -/
theorem checkout_valid (st : AppState) (input : List Char) (logOpen : Bool)
    (p : PaymentStrategy) (hp : paymentOfChoice (parseFirstInteger input) = some p)
    (hcart : st.cart.WF) (hwf : st.orderManager.WF)
    (hroom : st.orderManager.orderCount < MAX_ORDERS) :
    ∃ st1 o, checkout st input logOpen = .ok st1 ∧
      st1.orderManager.placed = st.orderManager.placed ++ [o] ∧
      st1.orderManager.orderCount = st.orderManager.orderCount + 1 ∧
      o.id = st.orderManager.orderCount + 1 ∧
      o.totalAmount = st.cart.getTotalAmount ∧ o.lines = st.cart.lines ∧
      o.paymentMethodName = p.getMethodName ∧
      st1.cart.lines = [] ∧ st1.cart.getItemCount = 0 := by
  obtain ⟨-, r2, r3, -⟩ := createOrder_ok st.orderManager st.log logOpen st.cart p hwf hroom
  obtain ⟨o1, o2, o3, o4, -⟩ := Order_new_spec (st.orderManager.orderCount + 1) st.cart hcart p
  exact ⟨_, _, checkout_valid_eq st input logOpen p hp hwf hroom, r3, r2, o1, o3, o2, o4,
    by simp [ShoppingCart.lines, ShoppingCart.clear, ShoppingCart.getItemCount], rfl⟩

/-! ## Auxiliary lemmas: the sample data, reachable ledgers and the controller -/

/-- Adding a product to the empty cart. -/
theorem addProduct_new (p : Prod) (q : Int) :
    (ShoppingCart.new.addProduct p q).lines = [⟨p, q⟩] ∧
      (ShoppingCart.new.addProduct p q).getTotalAmount = q * p.price ∧
      (ShoppingCart.new.addProduct p q).WF := by
  refine ⟨rfl, ?_, ?_⟩
  · show (0 : ℚ) + p.price * q = q * p.price
    rw [zero_add, mul_comm]
  · constructor
    · show ((List.replicate MAX_CART_ITEMS (default : CartItem)).set 0 ⟨p, q⟩).length = _
      simp
    · show 1 ≤ MAX_CART_ITEMS
      decide

/-- The total of the sample cart. -/
theorem sampleCart_total : sampleCart.getTotalAmount = 318 := by
  rw [sampleCart, (addProduct_new productA 2).2.1]
  norm_num [productA]

/-- The sample state is well formed and its ledger is empty. -/
theorem sampleState_facts :
    sampleState.cart.WF ∧ 1 ≤ sampleState.cart.getItemCount ∧ sampleState.orderManager.WF ∧
      sampleState.orderManager.orderCount = 0 ∧ sampleState.orderManager.placed = [] := by
  refine ⟨(addProduct_new productA 2).2.2, ?_, ?_, rfl, rfl⟩
  · decide
  · show (List.replicate MAX_ORDERS (default : Order)).length = MAX_ORDERS
    simp

/-- The state a checkout with an invalid payment choice returns. -/
theorem checkout_invalid_eq (st : AppState) (input : List Char) (logOpen : Bool)
    (h1 : parseFirstInteger input ≠ 1) (h2 : parseFirstInteger input ≠ 2)
    (h3 : parseFirstInteger input ≠ 3) :
    checkout st input logOpen =
      .ok (st.print (.text "Error: Invalid payment method selected!")) := by
  have hrange : parseFirstInteger input < 1 ∨ parseFirstInteger input > 3 := by omega
  simp only [checkout, checkoutTry, hrange, if_true, Exn.what]

/-- Every reachable ledger has its array and at most `MAX_ORDERS` orders. -/
theorem reachable_inv (m : OrderManager) (h : m.Reachable) :
    m.WF ∧ m.orderCount ≤ MAX_ORDERS := by
  induction h with
  | init => exact ⟨by simp [OrderManager.WF, OrderManager.getInstance], by decide⟩
  | create m log logOpen cart p _ ih =>
    by_cases hfull : MAX_ORDERS ≤ m.orderCount
    · rw [createOrder_full m log logOpen cart p hfull]; exact ih
    · have hroom : m.orderCount < MAX_ORDERS := Nat.lt_of_not_le hfull
      obtain ⟨-, r2, -, r4⟩ := createOrder_ok m log logOpen cart p ih.1 hroom
      exact ⟨r4, by rw [r2]; exact hroom⟩

/-- Every filled ledger is reachable. -/
theorem filledLedger_reachable : ∀ n : Nat, (filledLedger n).Reachable
  | 0 => OrderManager.Reachable.init
  | n + 1 => OrderManager.Reachable.create _ [] true sampleCart .CashPayment
      (filledLedger_reachable n)

/-- A ledger filled by at most `MAX_ORDERS` calls holds that many orders. -/
theorem filledLedger_count : ∀ n : Nat, n ≤ MAX_ORDERS → (filledLedger n).orderCount = n
  | 0, _ => rfl
  | n + 1, h => by
    have hn : (filledLedger n).orderCount = n := filledLedger_count n (Nat.le_of_succ_le h)
    have hwf := (reachable_inv _ (filledLedger_reachable n)).1
    have hroom : (filledLedger n).orderCount < MAX_ORDERS := by rw [hn]; exact h
    rw [filledLedger,
      (createOrder_ok (filledLedger n) [] true sampleCart .CashPayment hwf hroom).2.1, hn]

/-- The ledger of the full state is reachable and holds `MAX_ORDERS` orders. -/
theorem fullState_facts :
    fullState.orderManager.Reachable ∧ fullState.orderManager.orderCount = MAX_ORDERS := by
  have h : fullState.orderManager = filledLedger MAX_ORDERS := by simp only [fullState]
  rw [h]
  exact ⟨filledLedger_reachable MAX_ORDERS, filledLedger_count MAX_ORDERS (Nat.le_refl _)⟩

/-- The handler of `checkout` takes every exception: `checkout` always returns. -/
theorem checkout_returns (st : AppState) (input : List Char) (logOpen : Bool) :
    ∃ st1, checkout st input logOpen = .ok st1 := by
  simp only [checkout]
  generalize checkoutTry st (parseFirstInteger input) logOpen = r
  obtain ⟨r, st1⟩ := r
  cases r with
  | ok u => exact ⟨_, rfl⟩
  | error e => exact ⟨_, rfl⟩

/-- No step of the program lets an exception out. -/
theorem step_returns (cfg : Config) (input : List Char) (logOpen : Bool) :
    ∃ cfg1, step cfg input logOpen = .ok cfg1 := by
  obtain ⟨mode, st⟩ := cfg
  cases mode with
  | menu => exact ⟨_, rfl⟩
  | askProductId => exact ⟨_, rfl⟩
  | askQuantity product => exact ⟨_, rfl⟩
  | askAnother =>
    simp only [step]
    split_ifs <;> exact ⟨_, rfl⟩
  | askCheckout =>
    simp only [step]
    split_ifs <;> exact ⟨_, rfl⟩
  | askPayment =>
    obtain ⟨st1, h⟩ := checkout_returns st input logOpen
    exact ⟨⟨.menu, st1⟩, by simp only [step, h]⟩
  | finished => exact ⟨_, rfl⟩

/-- No run of the program lets an exception out. -/
theorem exec_returns (logOpen : Bool) (stdin : List (List Char)) :
    ∀ cfg : Config, ∃ cfg1, exec cfg logOpen stdin = .ok cfg1 := by
  induction stdin with
  | nil => intro cfg; exact ⟨cfg, rfl⟩
  | cons input rest ih =>
    intro cfg
    obtain ⟨cfg1, h1⟩ := step_returns cfg input logOpen
    obtain ⟨cfg2, h2⟩ := ih cfg1
    exact ⟨cfg2, by simp only [exec, h1, h2]⟩

/-- The state a checkout with a valid payment choice returns when the ledger is full. -/
theorem checkout_full_eq (st : AppState) (input : List Char) (logOpen : Bool)
    (p : PaymentStrategy) (hp : paymentOfChoice (parseFirstInteger input) = some p)
    (hfull : MAX_ORDERS ≤ st.orderManager.orderCount) :
    checkout st input logOpen =
      .ok (st.print (.text "Error: Maximum number of orders reached!")) := by
  have hrange : ¬ (parseFirstInteger input < 1 ∨ parseFirstInteger input > 3) := by
    unfold paymentOfChoice at hp
    split_ifs at hp <;> omega
  have hr := createOrder_full st.orderManager st.log logOpen st.cart p hfull
  simp only [checkout, checkoutTry, checkoutStages, hrange, if_false, hp, hr, List.append_nil,
    Exn.what]

/-- The identifier of an order is not touched by the copy loop of its constructor. -/
theorem copyLoop_id (cartItems : List CartItem) (l : List Nat) :
    ∀ o : Order, (l.foldl (Order.copyStep cartItems) o).id = o.id := by
  induction l with
  | nil => intro o; rfl
  | cons i rest ih => intro o; rw [List.foldl_cons, ih]; rfl

/-- The identifier of a constructed order is the one given to the constructor. -/
theorem Order_new_id (orderId : Nat) (cartItems : List CartItem) (count : Nat)
    (payment : Option PaymentStrategy) :
    (Order.new orderId cartItems count payment).id = orderId := by
  unfold Order.new
  cases payment <;> exact copyLoop_id cartItems _ _

/-- A sequence of `createOrder` calls from a well-formed ledger: it goes through when the
ledger has room for all of them, and the identifiers continue the numbering. -/
theorem createOrders_spec (calls : List (Bool × ShoppingCart × PaymentStrategy)) :
    ∀ (m : OrderManager) (log : List String), m.WF →
      (calls.length + m.orderCount ≤ MAX_ORDERS → ∃ r, createOrders m log calls = some r) ∧
      ∀ ids m1 log1, createOrders m log calls = some (ids, m1, log1) →
        ids = List.range' (m.orderCount + 1) calls.length ∧
        m1.orderCount = m.orderCount + calls.length ∧
        m1.placed.map Order.id =
          m.placed.map Order.id ++ List.range' (m.orderCount + 1) calls.length ∧
        m1.WF := by
  induction calls with
  | nil =>
    intro m log hwf
    refine ⟨fun _ => ⟨_, rfl⟩, ?_⟩
    intro ids m1 log1 h
    simp only [createOrders, Option.some.injEq] at h
    cases h
    simp [hwf]
  | cons call rest ih =>
    intro m log hwf
    by_cases hfull : MAX_ORDERS ≤ m.orderCount
    · have hr := createOrder_full m log call.1 call.2.1 call.2.2 hfull
      constructor
      · intro hlen; simp only [List.length_cons] at hlen; omega
      · intro ids m1 log1 h
        simp only [createOrders, hr] at h
        cases h
    · have hroom : m.orderCount < MAX_ORDERS := Nat.lt_of_not_le hfull
      obtain ⟨r1, r2, r3, r4⟩ := createOrder_ok m log call.1 call.2.1 call.2.2 hwf hroom
      obtain ⟨ih1, ih2⟩ := ih (m.createOrder log call.1 call.2.1 call.2.2).manager
        (m.createOrder log call.1 call.2.1 call.2.2).log r4
      constructor
      · intro hlen
        simp only [List.length_cons] at hlen
        obtain ⟨r, hr⟩ := ih1 (by rw [r2]; omega)
        refine ⟨((m.orderCount + 1) :: r.1, r.2), ?_⟩
        simp only [createOrders, r1, hr, Option.map_some']
      · intro ids m1 log1 h
        simp only [createOrders, r1, Option.map_eq_some'] at h
        obtain ⟨⟨ids0, m0, log0⟩, hrest, heq⟩ := h
        cases heq
        obtain ⟨i1, i2, i3, i4⟩ := ih2 ids0 m1 log1 hrest
        rw [r2] at i1 i2 i3
        refine ⟨?_, ?_, ?_, i4⟩
        · rw [i1, List.length_cons, List.range'_succ]
        · rw [i2, List.length_cons]; omega
        · rw [i3, r3, List.map_append, List.map_cons, List.map_nil, Order_new_id,
            List.length_cons, List.range'_succ, List.append_assoc]; rfl

/-! ## Checkout, the ledger and the cart: claims C1, C2, C4 to C8 -/

/-- C1. For every well-formed cart with at least one line, every ledger holding fewer than
`MAX_ORDERS` orders and every payment line whose parsed choice `c` is 1, 2 or 3, `checkout`
returns and appends exactly one order to the ledger; the total of that order is the total of
the cart before checkout, its line items are the lines of the cart before checkout, its
payment-method name is "Cash", "Credit / Debit" or "GCash" for `c` = 1, 2, 3; afterwards the
cart has no line. -/
theorem checkout_appends_order (st : AppState) (input : List Char) (logOpen : Bool) (c : Int)
    (hcart : st.cart.WF) (_hline : 1 ≤ st.cart.getItemCount) (hwf : st.orderManager.WF)
    (hroom : st.orderManager.orderCount < MAX_ORDERS)
    (hparse : parseFirstInteger input = c) (hc : c = 1 ∨ c = 2 ∨ c = 3) :
    ∃ st1 o, checkout st input logOpen = .ok st1 ∧
      st1.orderManager.placed = st.orderManager.placed ++ [o] ∧
      st1.orderManager.orderCount = st.orderManager.orderCount + 1 ∧
      o.id = st.orderManager.orderCount + 1 ∧
      o.totalAmount = st.cart.getTotalAmount ∧ o.lines = st.cart.lines ∧
      (c = 1 → o.paymentMethodName = "Cash") ∧
      (c = 2 → o.paymentMethodName = "Credit / Debit") ∧
      (c = 3 → o.paymentMethodName = "GCash") ∧
      st1.cart.lines = [] ∧ st1.cart.getItemCount = 0 := by
  rcases hc with h | h | h
  · obtain ⟨st1, o, h1, h2, h3, h4, h5, h6, h7, h8, h9⟩ :=
      checkout_valid st input logOpen .CashPayment (by rw [hparse, h]; rfl) hcart hwf hroom
    exact ⟨st1, o, h1, h2, h3, h4, h5, h6, fun _ => h7, fun h2 => by omega, fun h3 => by omega,
      h8, h9⟩
  · obtain ⟨st1, o, h1, h2, h3, h4, h5, h6, h7, h8, h9⟩ :=
      checkout_valid st input logOpen .CardPayment (by rw [hparse, h]; rfl) hcart hwf hroom
    exact ⟨st1, o, h1, h2, h3, h4, h5, h6, fun h2 => by omega, fun _ => h7, fun h3 => by omega,
      h8, h9⟩
  · obtain ⟨st1, o, h1, h2, h3, h4, h5, h6, h7, h8, h9⟩ :=
      checkout_valid st input logOpen .GCashPayment (by rw [hparse, h]; rfl) hcart hwf hroom
    exact ⟨st1, o, h1, h2, h3, h4, h5, h6, fun h2 => by omega, fun h3 => by omega, fun _ => h7,
      h8, h9⟩

/-- C1 at the scenario: the cart holds two units of "A" at 159 each, the ledger is empty, the
payment line is "1"; the order gets identifier 1, total 318, name "Cash", and the cart ends
empty. -/
theorem checkout_appends_order_witness :
    sampleState.cart.WF ∧ 1 ≤ sampleState.cart.getItemCount ∧
      sampleState.orderManager.orderCount < MAX_ORDERS ∧
      parseFirstInteger "1".toList = 1 ∧
      ∃ st1 o, checkout sampleState "1".toList true = .ok st1 ∧
        st1.orderManager.placed = [o] ∧ o.id = 1 ∧ o.totalAmount = 318 ∧
        o.lines = [⟨productA, 2⟩] ∧ o.paymentMethodName = "Cash" ∧ st1.cart.lines = [] := by
  obtain ⟨w1, w2, w3, w4, w5⟩ := sampleState_facts
  obtain ⟨st1, o, h1, h2, -, h4, h5, h6, h7, -, -, h8, -⟩ :=
    checkout_appends_order sampleState "1".toList true 1 w1 w2 w3
      (by rw [w4]; decide) (by decide) (Or.inl rfl)
  refine ⟨w1, w2, by rw [w4]; decide, by decide, st1, o, h1, ?_, ?_, ?_, ?_, h7 rfl, h8⟩
  · rw [h2, w5]; rfl
  · rw [h4, w4]
  · rw [h5]; exact sampleCart_total
  · rw [h6]; rfl

/-- C2. A sequence of `createOrder` calls starting from the empty ledger goes through when it
has at most `MAX_ORDERS` calls, and whenever all its calls return, the identifiers returned are
1, 2, ..., n in this order, the k-th call (counted from 0 here) returns k + 1 and the order at
ledger position k has identifier k + 1; so the identifiers in the ledger are exactly 1, ..., n,
strictly increasing and without repetition. -/
theorem order_ids_sequential (calls : List (Bool × ShoppingCart × PaymentStrategy)) :
    (calls.length ≤ MAX_ORDERS →
      ∃ r, createOrders OrderManager.getInstance [] calls = some r) ∧
    ∀ ids m log, createOrders OrderManager.getInstance [] calls = some (ids, m, log) →
      ids = List.range' 1 calls.length ∧
      m.orderCount = calls.length ∧
      m.placed.map Order.id = List.range' 1 calls.length ∧
      (∀ k, k < calls.length →
        ids[k]? = some (k + 1) ∧ (m.orders.getD k default).id = k + 1) ∧
      (m.placed.map Order.id).Pairwise (fun a b => a < b) ∧
      (m.placed.map Order.id).Nodup := by
  have hwf : OrderManager.getInstance.WF := by
    simp [OrderManager.WF, OrderManager.getInstance]
  obtain ⟨h1, h2⟩ := createOrders_spec calls OrderManager.getInstance [] hwf
  refine ⟨fun hlen => h1 (by simpa [OrderManager.getInstance] using hlen), ?_⟩
  intro ids m log h
  obtain ⟨i1, i2, i3, i4⟩ := h2 ids m log h
  have hc : OrderManager.getInstance.orderCount = 0 := rfl
  have hp : OrderManager.getInstance.placed = [] := rfl
  rw [hc, Nat.zero_add] at i1 i2 i3
  rw [hp, List.map_nil, List.nil_append] at i3
  refine ⟨i1, i2, i3, ?_, ?_, ?_⟩
  · intro k hk
    constructor
    · rw [i1, List.getElem?_range' 1 1 hk]; simp [Nat.add_comm]
    · have hk1 : (m.placed.map Order.id)[k]? = some (k + 1) := by
        rw [i3, List.getElem?_range' 1 1 hk]; simp [Nat.add_comm]
      rw [OrderManager.placed, List.getElem?_map, List.getElem?_take_of_lt (by omega)] at hk1
      rw [List.getD_eq_getElem?_getD]
      cases hget : m.orders[k]? with
      | none => rw [hget] at hk1; cases hk1
      | some o =>
        rw [hget] at hk1
        simpa using hk1
  · rw [i3]; exact List.pairwise_lt_range' 1 _
  · rw [i3]; exact List.nodup_range' 1 _

/-- C2 at two calls: both go through and return the identifiers 1 and 2. -/
theorem order_ids_sequential_witness :
    ∃ m log, createOrders OrderManager.getInstance []
        [(true, sampleCart, .CashPayment), (false, ShoppingCart.new, .GCashPayment)]
        = some ([1, 2], m, log) ∧ m.placed.map Order.id = [1, 2] := by
  obtain ⟨h1, h2⟩ := order_ids_sequential
    [(true, sampleCart, .CashPayment), (false, ShoppingCart.new, .GCashPayment)]
  obtain ⟨⟨ids, m, log⟩, hr⟩ := h1 (by decide)
  obtain ⟨i1, -, i3, -⟩ := h2 ids m log hr
  refine ⟨m, log, ?_, ?_⟩
  · rw [hr, i1]; rfl
  · rw [i3]; rfl

/-- C4. For every product `p` and every quantity `q > 0`, adding `(p, q)` to the empty cart
gives a cart whose total is `q` times the price of `p` and whose single line is `(p, q)`. -/
theorem add_to_empty_cart_total (p : Prod) (q : Int) (_hq : 0 < q) :
    (ShoppingCart.new.addProduct p q).getTotalAmount = q * p.price ∧
      (ShoppingCart.new.addProduct p q).lines = [⟨p, q⟩] :=
  ⟨(addProduct_new p q).2.1, (addProduct_new p q).1⟩

/-- C4 at the scenario: the seeded product "A" has price 159, and adding quantity 2 to the
empty cart gives the total 318. -/
theorem add_to_empty_cart_total_witness :
    ProductCatalog.getInstance.findProductById "A".toList = some productA ∧
      productA.price = 159 ∧ (0 : Int) < 2 ∧
      (ShoppingCart.new.addProduct productA 2).getTotalAmount = 318 ∧
      (ShoppingCart.new.addProduct productA 2).lines = [⟨productA, 2⟩] := by
  obtain ⟨h1, h2⟩ := add_to_empty_cart_total productA 2 (by decide)
  refine ⟨by decide, rfl, by decide, ?_, h2⟩
  rw [h1]; norm_num [productA]

/-- C5. For every cart state whatsoever, after `clear` the first `getItemCount()` entries of
`getItems()` form the empty sequence and `getTotalAmount()` is 0; `clear` is idempotent. -/
theorem clear_empties_cart (c : ShoppingCart) :
    (c.clear.getItems.take c.clear.getItemCount = [] ∧ c.clear.lines = []) ∧
      c.clear.getTotalAmount = 0 ∧ c.clear.clear = c.clear :=
  ⟨⟨rfl, rfl⟩, rfl, rfl⟩

/-- C6. For every cart, every ledger and every payment line whose parsed value is not 1, 2
or 3, `checkout` returns having created no order (the ledger and the log are unchanged), with
the cart as it was, after printing the message of the invalid selection; the program is back
at the main menu, so the payment is not asked again. -/
theorem invalid_payment_choice_aborts (st : AppState) (input : List Char) (logOpen : Bool)
    (h1 : parseFirstInteger input ≠ 1) (h2 : parseFirstInteger input ≠ 2)
    (h3 : parseFirstInteger input ≠ 3) :
    ∃ st1, checkout st input logOpen = .ok st1 ∧
      step ⟨.askPayment, st⟩ input logOpen = .ok ⟨.menu, st1⟩ ∧
      st1.orderManager = st.orderManager ∧ st1.cart = st.cart ∧ st1.log = st.log ∧
      st1.out = st.out ++ [.text "Error: Invalid payment method selected!"] := by
  have h := checkout_invalid_eq st input logOpen h1 h2 h3
  refine ⟨_, h, ?_, rfl, rfl, rfl, rfl⟩
  simp only [step, h]

/-- C6 at the lines "9", "0", "abc", "-1" and the empty line, which parse to 9, 0, -1, -1
and -1; for "9" on the sample state the checkout is aborted. -/
theorem invalid_payment_choice_aborts_witness :
    parseFirstInteger "9".toList = 9 ∧ parseFirstInteger "0".toList = 0 ∧
      parseFirstInteger "abc".toList = -1 ∧ parseFirstInteger "-1".toList = -1 ∧
      parseFirstInteger "".toList = -1 ∧
      ∃ st1, checkout sampleState "9".toList true = .ok st1 ∧
        step ⟨.askPayment, sampleState⟩ "9".toList true = .ok ⟨.menu, st1⟩ ∧
        st1.orderManager = sampleState.orderManager ∧ st1.cart = sampleState.cart ∧
        st1.log = sampleState.log ∧
        st1.out = sampleState.out ++ [.text "Error: Invalid payment method selected!"] :=
  ⟨by decide, by decide, by decide, by decide, by decide,
    invalid_payment_choice_aborts sampleState "9".toList true (by decide) (by decide)
      (by decide)⟩

/-- C7. On every reachable ledger `createOrder` throws if and only if the ledger holds
`MAX_ORDERS` orders; when it throws, the exception is the capacity error and the ledger, its
count and its orders are unchanged; the order count of every reachable ledger, before and
after the call, is between 0 and `MAX_ORDERS`. -/
theorem createOrder_capacity (m : OrderManager) (hm : m.Reachable) (log : List String)
    (logOpen : Bool) (cart : ShoppingCart) (p : PaymentStrategy) :
    ((∃ e, (m.createOrder log logOpen cart p).result = .error e) ↔
        m.orderCount = MAX_ORDERS) ∧
      ((∃ e, (m.createOrder log logOpen cart p).result = .error e) →
        (m.createOrder log logOpen cart p).result =
            .error (.runtime_error "Error: Maximum number of orders reached!") ∧
          (m.createOrder log logOpen cart p).manager = m ∧
          (m.createOrder log logOpen cart p).manager.orderCount = m.orderCount ∧
          (m.createOrder log logOpen cart p).manager.placed = m.placed) ∧
      0 ≤ m.orderCount ∧ m.orderCount ≤ MAX_ORDERS ∧
      (m.createOrder log logOpen cart p).manager.orderCount ≤ MAX_ORDERS := by
  obtain ⟨hwf, hle⟩ := reachable_inv m hm
  have hiff : (∃ e, (m.createOrder log logOpen cart p).result = .error e) ↔
      m.orderCount = MAX_ORDERS := by
    constructor
    · rintro ⟨e, he⟩
      by_contra hne
      have hroom : m.orderCount < MAX_ORDERS := Nat.lt_of_le_of_ne hle hne
      rw [(createOrder_ok m log logOpen cart p hwf hroom).1] at he
      cases he
    · intro heq
      rw [createOrder_full m log logOpen cart p (Nat.le_of_eq heq.symm)]
      exact ⟨_, rfl⟩
  refine ⟨hiff, ?_, Nat.zero_le _, hle,
    (reachable_inv _ (OrderManager.Reachable.create m log logOpen cart p hm)).2⟩
  intro he
  rw [createOrder_full m log logOpen cart p (Nat.le_of_eq (hiff.mp he).symm)]
  exact ⟨rfl, rfl, rfl, rfl⟩

/-- C7 at the ledger filled by `MAX_ORDERS` calls: it is reachable, one more call throws and
leaves it as it is. -/
theorem createOrder_capacity_witness :
    (filledLedger MAX_ORDERS).Reachable ∧
      (filledLedger MAX_ORDERS).orderCount = MAX_ORDERS ∧
      (∃ e, ((filledLedger MAX_ORDERS).createOrder [] true sampleCart .CashPayment).result
        = .error e) ∧
      ((filledLedger MAX_ORDERS).createOrder [] true sampleCart .CashPayment).manager
        = filledLedger MAX_ORDERS := by
  have hr := filledLedger_reachable MAX_ORDERS
  have hc := filledLedger_count MAX_ORDERS (Nat.le_refl _)
  have h := createOrder_capacity (filledLedger MAX_ORDERS) hr [] true sampleCart .CashPayment
  exact ⟨hr, hc, h.1.mpr hc, (h.2.1 (h.1.mpr hc)).2.1⟩

/-- C8, as the code has it. When a checkout with a valid payment choice is attempted while
the ledger holds `MAX_ORDERS` orders, the capacity error is taken by the handler inside
`checkout`: `checkout` returns after printing the message of the error, the ledger and the
cart are as before, and the program is back at the main menu; and on no input at all does
`main` end with the exit code 1. -/
theorem capacity_error_caught_in_checkout (st : AppState) (input : List Char)
    (logOpen : Bool) (c : Int) (hparse : parseFirstInteger input = c)
    (hc : c = 1 ∨ c = 2 ∨ c = 3) (hfull : st.orderManager.orderCount = MAX_ORDERS) :
    checkout st input logOpen =
        .ok (st.print (.text "Error: Maximum number of orders reached!")) ∧
      step ⟨.askPayment, st⟩ input logOpen =
        .ok ⟨.menu, st.print (.text "Error: Maximum number of orders reached!")⟩ ∧
      (st.print (.text "Error: Maximum number of orders reached!")).orderManager
        = st.orderManager ∧
      (st.print (.text "Error: Maximum number of orders reached!")).cart = st.cart ∧
      ∀ stdin : List (List Char), mainExit logOpen stdin ≠ some 1 := by
  have hp : ∃ p, paymentOfChoice (parseFirstInteger input) = some p := by
    rw [hparse]
    rcases hc with h | h | h <;> rw [h] <;> exact ⟨_, rfl⟩
  obtain ⟨p, hp⟩ := hp
  have h := checkout_full_eq st input logOpen p hp (Nat.le_of_eq hfull.symm)
  refine ⟨h, by simp only [step, h], rfl, rfl, ?_⟩
  intro stdin
  obtain ⟨cfg, hcfg⟩ := exec_returns logOpen stdin ⟨.menu, AppState.init⟩
  simp only [mainExit, hcfg]
  split_ifs <;> simp

/-- C8, as the code has it, at the full state with the payment line "1". -/
theorem capacity_error_caught_in_checkout_witness :
    fullState.orderManager.orderCount = MAX_ORDERS ∧ parseFirstInteger "1".toList = 1 ∧
      checkout fullState "1".toList true =
        .ok (fullState.print (.text "Error: Maximum number of orders reached!")) :=
  ⟨fullState_facts.2, by decide,
    (capacity_error_caught_in_checkout fullState "1".toList true 1 (by decide) (Or.inl rfl)
      fullState_facts.2).1⟩

/-- C8 as stated fails. With `MAX_ORDERS` orders in the ledger and the valid payment line
"1", no exception leaves `checkout` and the program is back at the main menu; and the program
run from its start on fifty purchases, a fifty-first attempt (which reaches the payment prompt
with fifty orders in the ledger) and the menu choice 4 ends with exit code 0. -/
theorem capacity_error_not_escalated :
    fullState.orderManager.orderCount = MAX_ORDERS ∧ parseFirstInteger "1".toList = 1 ∧
      (¬ ∃ e, checkout fullState "1".toList true = .error e) ∧
      step ⟨.askPayment, fullState⟩ "1".toList true =
        .ok ⟨.menu, fullState.print (.text "Error: Maximum number of orders reached!")⟩ ∧
      (match exec ⟨.menu, AppState.init⟩ true (purchaseScript 50 ++ purchaseLines.take 6) with
        | .ok cfg => decide (cfg.mode = .askPayment) && cfg.st.orderManager.orderCount == 50
        | .error _ => false) = true ∧
      mainExit true (purchaseScript 50 ++ purchaseLines ++ ["4".toList]) = some 0 := by
  have h := checkout_full_eq fullState "1".toList true .CashPayment (by decide)
    (Nat.le_of_eq fullState_facts.2.symm)
  refine ⟨fullState_facts.2, by decide, ?_, by simp only [step, h], by decide!, by decide!⟩
  rintro ⟨e, he⟩
  rw [h] at he
  cases he

/-! ## Auxiliary lemmas: the loops of `parseFirstInteger` -/

/-- A whitespace character is not the terminator. -/
theorem isWhitespace_ne_NUL (c : Char) (h : isWhitespace c = true) : c ≠ NUL := by
  intro hc; subst hc; revert h; decide

/-- A whitespace character is no digit. -/
theorem isWhitespace_not_digit (c : Char) (h : isWhitespace c = true) : isDigit c = false := by
  simp only [isWhitespace, Bool.or_eq_true, beq_iff_eq] at h
  rcases h with ((h | h) | h) | h <;> subst h <;> decide

/-- A digit is not the terminator. -/
theorem isDigit_ne_NUL (c : Char) (h : isDigit c = true) : c ≠ NUL := by
  intro hc; subst hc; revert h; decide

/-- A digit is no whitespace. -/
theorem isDigit_not_whitespace (c : Char) (h : isDigit c = true) : isWhitespace c = false := by
  cases hw : isWhitespace c with
  | false => rfl
  | true => rw [isWhitespace_not_digit c hw] at h; cases h

/-- Leading whitespace is skipped. -/
theorem skipWhitespace_append (ws rest : List Char) (h : ∀ c ∈ ws, isWhitespace c = true) :
    skipWhitespace (ws ++ rest) = skipWhitespace rest := by
  induction ws with
  | nil => rfl
  | cons c cs ih =>
    have hc := h c (List.mem_cons_self _ _)
    have hn : (c != NUL) = true := by simpa using isWhitespace_ne_NUL c hc
    simp only [List.cons_append, skipWhitespace, hn, hc, Bool.and_self, if_true]
    exact ih (fun d hd => h d (List.mem_cons_of_mem _ hd))

/-- Nothing is skipped in front of a character that is not whitespace. -/
theorem skipWhitespace_of_not_whitespace (c : Char) (cs : List Char)
    (h : isWhitespace c = false) : skipWhitespace (c :: cs) = c :: cs := by
  simp [skipWhitespace, h]

/-- The skipped part is whitespace. -/
theorem skipWhitespace_split (l : List Char) :
    ∃ ws, l = ws ++ skipWhitespace l ∧ ∀ c ∈ ws, isWhitespace c = true := by
  induction l with
  | nil => exact ⟨[], rfl, by simp⟩
  | cons c cs ih =>
    by_cases h : (c != NUL && isWhitespace c) = true
    · obtain ⟨ws, h1, h2⟩ := ih
      refine ⟨c :: ws, ?_, ?_⟩
      · simp only [skipWhitespace, h, if_true, List.cons_append]; rw [← h1]
      · intro d hd
        rcases List.mem_cons.mp hd with rfl | hd
        · simp only [Bool.and_eq_true] at h; exact h.2
        · exact h2 d hd
    · exact ⟨[], by simp only [skipWhitespace, h]; rfl, by simp⟩

/-- Where the skipping stops: at the end, at a NUL, or at a character that is not whitespace. -/
theorem skipWhitespace_head (l : List Char) :
    skipWhitespace l = [] ∨ ∃ c cs, skipWhitespace l = c :: cs ∧
      (c = NUL ∨ isWhitespace c = false) := by
  induction l with
  | nil => exact Or.inl rfl
  | cons c cs ih =>
    by_cases h : (c != NUL && isWhitespace c) = true
    · simp only [skipWhitespace, h, if_true]; exact ih
    · right
      refine ⟨c, cs, by simp only [skipWhitespace, h]; rfl, ?_⟩
      by_cases hc : c = NUL
      · exact Or.inl hc
      · right
        simp only [Bool.and_eq_true, bne_iff_ne, ne_eq, not_and, Bool.not_eq_true] at h
        exact h hc

/-- The digit loop runs through a string of digits. -/
theorem digitLoop_append (ds rest : List Char) (h : ∀ c ∈ ds, isDigit c = true) :
    ∀ r : Int, digitLoop r (ds ++ rest) = digitLoop (digitsValue r ds) rest := by
  induction ds with
  | nil => intro r; rfl
  | cons c cs ih =>
    intro r
    have hc := h c (List.mem_cons_self _ _)
    simp only [List.cons_append, digitLoop, hc, if_true, digitsValue, List.foldl_cons]
    exact ih (fun d hd => h d (List.mem_cons_of_mem _ hd)) _

/-- The digit loop stops at once at a character that is no digit. -/
theorem digitLoop_stop (r : Int) (rest : List Char)
    (h : isDigit (firstChar rest) = false) : digitLoop r rest = (r, rest) := by
  cases rest with
  | nil => rfl
  | cons c cs =>
    have hc : isDigit c = false := h
    simp [digitLoop, hc]

/-- The digit loop consumes a string of digits and stops at a character that is no digit. -/
theorem digitLoop_split (l : List Char) :
    ∀ r : Int, ∃ ds, l = ds ++ (digitLoop r l).2 ∧ (∀ c ∈ ds, isDigit c = true) ∧
      (digitLoop r l).1 = digitsValue r ds ∧ isDigit (firstChar (digitLoop r l).2) = false := by
  induction l with
  | nil =>
    intro r
    have h0 : isDigit NUL = false := by decide
    exact ⟨[], rfl, by simp, rfl, h0⟩
  | cons c cs ih =>
    intro r
    by_cases hc : isDigit c = true
    · obtain ⟨ds, h1, h2, h3, h4⟩ := ih (wrapInt (r * 10 + ((c.toNat : Int) - 48)))
      refine ⟨c :: ds, ?_, ?_, ?_, ?_⟩
      · simp only [digitLoop, hc, if_true, List.cons_append]; rw [← h1]
      · intro d hd
        rcases List.mem_cons.mp hd with rfl | hd
        · exact hc
        · exact h2 d hd
      · simp only [digitLoop, hc, if_true, digitsValue, List.foldl_cons]; exact h3
      · simp only [digitLoop, hc, if_true]; exact h4
    · have hc1 : isDigit c = false := by simpa using hc
      refine ⟨[], ?_, by simp, ?_, ?_⟩
      · simp [digitLoop, hc1]
      · simp [digitLoop, hc1, digitsValue]
      · simp [digitLoop, hc1, firstChar]

/-- The trailing loop accepts whitespace. -/
theorem trailingLoop_whitespace (r : Int) (ws : List Char)
    (h : ∀ c ∈ ws, isWhitespace c = true) : trailingLoop r ws = r := by
  induction ws with
  | nil => rfl
  | cons c cs ih =>
    have hc := h c (List.mem_cons_self _ _)
    have hn : c ≠ NUL := isWhitespace_ne_NUL c hc
    simp only [trailingLoop, hn, if_false, hc, Bool.not_true]
    exact ih (fun d hd => h d (List.mem_cons_of_mem _ hd))

/-- On a string without NUL the trailing loop returns -1 unless the string is whitespace. -/
theorem trailingLoop_not_whitespace (r : Int) (l : List Char) (hnul : NUL ∉ l)
    (h : ¬ ∀ c ∈ l, isWhitespace c = true) : trailingLoop r l = -1 := by
  induction l with
  | nil => exact absurd (by simp) h
  | cons c cs ih =>
    have hn : c ≠ NUL := fun hc => hnul (hc ▸ List.mem_cons_self _ _)
    by_cases hc : isWhitespace c = true
    · simp only [trailingLoop, hn, if_false, hc, Bool.not_true]
      apply ih (fun hm => hnul (List.mem_cons_of_mem _ hm))
      intro hall
      apply h
      intro d hd
      rcases List.mem_cons.mp hd with rfl | hd
      · exact hc
      · exact hall d hd
    · have hc1 : isWhitespace c = false := by simpa using hc
      simp [trailingLoop, hn, hc1]

/-- The code of a digit. -/
theorem isDigit_toNat (c : Char) (h : isDigit c = true) : 48 ≤ c.toNat ∧ c.toNat ≤ 57 := by
  simp only [isDigit, Bool.and_eq_true, decide_eq_true_eq] at h
  obtain ⟨h1, h2⟩ := h
  have h1' : ('0' : Char).val ≤ c.val := h1
  have h2' : c.val ≤ ('9' : Char).val := h2
  rw [UInt32.le_def] at h1' h2'
  exact ⟨h1', h2'⟩

/-- An `int` value in range is not changed by the wrap. -/
theorem wrapInt_of_range (x : Int) (h0 : 0 ≤ x) (h1 : x ≤ 2147483647) : wrapInt x = x := by
  unfold wrapInt; omega

/-- Reading further digits does not make the number smaller. -/
theorem decimal_foldl_ge (ds : List Char) :
    ∀ a : Nat, a ≤ ds.foldl (fun n c => 10 * n + (c.toNat - 48)) a := by
  induction ds with
  | nil => intro a; exact Nat.le_refl _
  | cons c cs ih =>
    intro a
    rw [List.foldl_cons]
    exact Nat.le_trans (by omega) (ih _)

/-- A string of `k` digits read after the number `a` gives less than `(a + 1) * 10 ^ k`. -/
theorem decimal_foldl_lt (ds : List Char) (h : ∀ c ∈ ds, isDigit c = true) :
    ∀ a : Nat, ds.foldl (fun n c => 10 * n + (c.toNat - 48)) a < (a + 1) * 10 ^ ds.length := by
  induction ds with
  | nil => intro a; simp
  | cons c cs ih =>
    intro a
    have hc := isDigit_toNat c (h c (List.mem_cons_self _ _))
    have h1 := ih (fun d hd => h d (List.mem_cons_of_mem _ hd)) (10 * a + (c.toNat - 48))
    rw [List.foldl_cons, List.length_cons, pow_succ]
    have h2 : (10 * a + (c.toNat - 48) + 1) * 10 ^ cs.length ≤ (a + 1) * (10 ^ cs.length * 10) := by
      have : 10 * a + (c.toNat - 48) + 1 ≤ (a + 1) * 10 := by omega
      calc (10 * a + (c.toNat - 48) + 1) * 10 ^ cs.length
          ≤ ((a + 1) * 10) * 10 ^ cs.length := Nat.mul_le_mul_right _ this
        _ = (a + 1) * (10 ^ cs.length * 10) := by ring
    exact Nat.lt_of_lt_of_le h1 h2

/-- As long as the number read fits an `int`, the digit loop computes it. -/
theorem digitsValue_eq (ds : List Char) (h : ∀ c ∈ ds, isDigit c = true) :
    ∀ a : Nat, ds.foldl (fun n c => 10 * n + (c.toNat - 48)) a ≤ 2147483647 →
      digitsValue (a : Int) ds = ((ds.foldl (fun n c => 10 * n + (c.toNat - 48)) a : Nat) : Int) := by
  induction ds with
  | nil => intro a _; rfl
  | cons c cs ih =>
    intro a hle
    have hc := isDigit_toNat c (h c (List.mem_cons_self _ _))
    rw [List.foldl_cons] at hle ⊢
    have hge := decimal_foldl_ge cs (10 * a + (c.toNat - 48))
    have hcast : (a : Int) * 10 + ((c.toNat : Int) - 48) = ((10 * a + (c.toNat - 48) : Nat) : Int) := by
      omega
    rw [digitsValue, List.foldl_cons, hcast, wrapInt_of_range _ (by omega) (by omega)]
    exact ih (fun d hd => h d (List.mem_cons_of_mem _ hd)) _ hle

/-- A string of digits whose number fits an `int` is read as that number. -/
theorem digitsValue_decimal (ds : List Char) (h : ∀ c ∈ ds, isDigit c = true)
    (hle : (decimalValue ds : Int) ≤ INT_MAX) : digitsValue 0 ds = decimalValue ds := by
  have h1 : decimalValue ds ≤ 2147483647 := by unfold INT_MAX at hle; omega
  exact digitsValue_eq ds h 0 h1

/-- A string of at most nine digits denotes a number that fits an `int`. -/
theorem decimalValue_short (ds : List Char) (h : ∀ c ∈ ds, isDigit c = true)
    (hlen : ds.length ≤ 9) : (decimalValue ds : Int) ≤ INT_MAX := by
  have h1 := decimal_foldl_lt ds h 0
  have h2 : (10 : Nat) ^ ds.length ≤ 10 ^ 9 := Nat.pow_le_pow_right (by decide) hlen
  have h3 : decimalValue ds < 10 ^ 9 := by
    unfold decimalValue
    calc _ < (0 + 1) * 10 ^ ds.length := h1
      _ ≤ 10 ^ 9 := by simpa using h2
  unfold INT_MAX
  omega

/-- What `parseFirstInteger` returns on whitespace, digits, whitespace. -/
theorem parse_numeral (ws1 ds ws2 : List Char) (h1 : ∀ c ∈ ws1, isWhitespace c = true)
    (hne : ds ≠ []) (h2 : ∀ c ∈ ds, isDigit c = true) (h3 : ∀ c ∈ ws2, isWhitespace c = true) :
    parseFirstInteger (ws1 ++ ds ++ ws2) = digitsValue 0 ds := by
  obtain ⟨d, ds1, rfl⟩ := List.exists_cons_of_ne_nil hne
  have hd := h2 d (List.mem_cons_self _ _)
  have hskip : skipWhitespace (ws1 ++ (d :: ds1) ++ ws2) = (d :: ds1) ++ ws2 := by
    rw [List.append_assoc, skipWhitespace_append ws1 _ h1]
    exact skipWhitespace_of_not_whitespace d _ (isDigit_not_whitespace d hd)
  have hstop : isDigit (firstChar ws2) = false := by
    cases ws2 with
    | nil => decide
    | cons w _ => exact isWhitespace_not_digit w (h3 w (List.mem_cons_self _ _))
  have hfirst : isDigit (firstChar ((d :: ds1) ++ ws2)) = true := hd
  simp only [parseFirstInteger, hskip, hfirst, if_true]
  rw [digitLoop_append (d :: ds1) ws2 h2 0, digitLoop_stop _ ws2 hstop]
  exact trailingLoop_whitespace _ ws2 h3

/-- On a line without NUL, `parseFirstInteger` returns -1 unless the line is whitespace,
digits, whitespace. -/
theorem parse_not_numeral (line : List Char) (hnul : NUL ∉ line) (h : ¬ IsNumeral line) :
    parseFirstInteger line = -1 := by
  obtain ⟨ws1, hl1, hws1⟩ := skipWhitespace_split line
  by_cases hfirst : isDigit (firstChar (skipWhitespace line)) = true
  · obtain ⟨ds, hl2, hds, -, hstop⟩ := digitLoop_split (skipWhitespace line) 0
    have hdsne : ds ≠ [] := by
      intro hnil
      rw [hnil, List.nil_append] at hl2
      rw [← hl2, hfirst] at hstop
      cases hstop
    have hnul2 : NUL ∉ (digitLoop 0 (skipWhitespace line)).2 := by
      intro hm
      apply hnul
      rw [hl1, hl2]
      exact List.mem_append_right _ (List.mem_append_right _ hm)
    simp only [parseFirstInteger, hfirst, if_true]
    apply trailingLoop_not_whitespace _ _ hnul2
    intro hall
    apply h
    refine ⟨ws1, ds, (digitLoop 0 (skipWhitespace line)).2, ?_, hws1, hdsne, hds, hall⟩
    rw [List.append_assoc, ← hl2, ← hl1]
  · simp only [parseFirstInteger, hfirst]
    rfl

/-! ## Auxiliary lemmas: `trimString` -/

/-- The scan of `trimString` cuts the string after its last character that is not whitespace. -/
theorem take_lastNonSpace (l : List Char) :
    ∀ (pre : List Char) (last : Nat),
      (pre ++ l).take (lastNonSpace l pre.length last + 1) =
        if trimEnd l = [] then (pre ++ l).take (last + 1) else pre ++ trimEnd l := by
  induction l with
  | nil => intro pre last; simp [lastNonSpace, trimEnd]
  | cons c cs ih =>
    intro pre last
    by_cases hc : c = NUL
    · simp [lastNonSpace, trimEnd, hc]
    · have hpre : pre ++ c :: cs = (pre ++ [c]) ++ cs := by simp
      have hlen : (pre ++ [c]).length = pre.length + 1 := by simp
      have h := ih (pre ++ [c]) (if !isWhitespace c then pre.length else last)
      rw [hlen, ← hpre] at h
      simp only [lastNonSpace, hc, if_false]
      rw [h]
      by_cases ht : trimEnd cs = []
      · by_cases hw : isWhitespace c = true
        · simp [trimEnd, hc, ht, hw]
        · have hw1 : isWhitespace c = false := by simpa using hw
          simp [trimEnd, hc, ht, hw1, List.take_append_eq_append_take]
      · simp [trimEnd, hc, ht]

/-- The string `trimString` leaves: the input without leading and trailing whitespace. -/
theorem trimString_eq (s : List Char) : trimString s = trimEnd (skipWhitespace s) := by
  unfold trimString
  rcases skipWhitespace_head s with h | ⟨c, cs, h, hc⟩
  · rw [h]; rfl
  · rw [h]
    by_cases hn : c = NUL
    · simp [firstChar, hn, trimEnd]
    · have hw : isWhitespace c = false := by
        rcases hc with hc | hc
        · exact absurd hc hn
        · exact hc
      have ht : trimEnd (c :: cs) ≠ [] := by simp [trimEnd, hn, hw]
      have h2 := take_lastNonSpace (c :: cs) [] 0
      simp only [List.nil_append, List.length_nil, ht, if_false] at h2
      simp only [firstChar, hn, if_false]
      exact h2

/-- The trailing loop does not see the removal of trailing whitespace. -/
theorem trailingLoop_trimEnd (r : Int) (l : List Char) :
    trailingLoop r (trimEnd l) = trailingLoop r l := by
  induction l with
  | nil => rfl
  | cons c cs ih =>
    by_cases hc : c = NUL
    · simp [trimEnd, trailingLoop, hc]
    · by_cases hw : isWhitespace c = true
      · by_cases ht : trimEnd cs = []
        · rw [ht] at ih
          simp only [trimEnd, trailingLoop, hc, ht, hw, if_false, and_self, if_true,
            Bool.not_true]
          exact ih
        · simp only [trimEnd, trailingLoop, hc, ht, hw, if_false, false_and, Bool.not_true]
          exact ih
      · have hw1 : isWhitespace c = false := by simpa using hw
        simp [trimEnd, trailingLoop, hc, hw1]

/-- The digit loop followed by the trailing loop does not see the removal of trailing
whitespace. -/
theorem loops_trimEnd (l : List Char) :
    ∀ r : Int, trailingLoop (digitLoop r (trimEnd l)).1 (digitLoop r (trimEnd l)).2 =
      trailingLoop (digitLoop r l).1 (digitLoop r l).2 := by
  induction l with
  | nil => intro r; rfl
  | cons c cs ih =>
    intro r
    by_cases hd : isDigit c = true
    · have hn : c ≠ NUL := isDigit_ne_NUL c hd
      have hw : isWhitespace c = false := isDigit_not_whitespace c hd
      have ht : trimEnd (c :: cs) = c :: trimEnd cs := by simp [trimEnd, hn, hw]
      rw [ht]
      simp only [digitLoop, hd, if_true]
      exact ih _
    · have hd1 : isDigit c = false := by simpa using hd
      have h1 : digitLoop r (c :: cs) = (r, c :: cs) := digitLoop_stop r _ hd1
      have h2 : digitLoop r (trimEnd (c :: cs)) = (r, trimEnd (c :: cs)) := by
        apply digitLoop_stop
        by_cases hn : c = NUL
        · simp [trimEnd, hn]; decide
        · by_cases ht : trimEnd cs = [] ∧ isWhitespace c = true
          · simp [trimEnd, hn, ht]; decide
          · simp only [trimEnd, hn, ht, if_false]
            exact hd1
      rw [h1, h2]
      exact trailingLoop_trimEnd r (c :: cs)

/-- The first character after trimming. -/
theorem firstChar_trimEnd_digit (l : List Char) :
    isDigit (firstChar (trimEnd l)) = isDigit (firstChar l) := by
  cases l with
  | nil => rfl
  | cons c cs =>
    by_cases hn : c = NUL
    · simp only [trimEnd, hn, if_true, firstChar]
    · by_cases ht : trimEnd cs = [] ∧ isWhitespace c = true
      · simp only [trimEnd, hn, ht, if_false, and_self, if_true, firstChar]
        rw [isWhitespace_not_digit c ht.2]; decide
      · simp only [trimEnd, hn, ht, if_false, firstChar]

/-- Skipping whitespace after trimming skips nothing. -/
theorem skipWhitespace_trimEnd (s : List Char) :
    skipWhitespace (trimEnd (skipWhitespace s)) = trimEnd (skipWhitespace s) := by
  rcases skipWhitespace_head s with h | ⟨c, cs, h, hc⟩
  · rw [h]; rfl
  · rw [h]
    by_cases hn : c = NUL
    · simp [trimEnd, hn, skipWhitespace]
    · have hw : isWhitespace c = false := by
        rcases hc with hc | hc
        · exact absurd hc hn
        · exact hc
      have ht : trimEnd (c :: cs) = c :: trimEnd cs := by simp [trimEnd, hn, hw]
      rw [ht]
      exact skipWhitespace_of_not_whitespace c _ hw

/-- Skipping whitespace twice is skipping it once. -/
theorem skipWhitespace_idem (s : List Char) :
    skipWhitespace (skipWhitespace s) = skipWhitespace s := by
  rcases skipWhitespace_head s with h | ⟨c, cs, h, hc⟩
  · rw [h]; rfl
  · rw [h]
    rcases hc with hc | hc
    · simp [skipWhitespace, hc]
    · exact skipWhitespace_of_not_whitespace c _ hc

/-- Trimming a line does not change what `parseFirstInteger` returns. -/
theorem parse_trimString (s : List Char) :
    parseFirstInteger (trimString s) = parseFirstInteger s := by
  rw [trimString_eq]
  simp only [parseFirstInteger, skipWhitespace_trimEnd, firstChar_trimEnd_digit]
  split_ifs
  · exact loops_trimEnd _ 0
  · rfl

/-! ## Auxiliary lemmas: numerals -/

/-- A line without a digit is no numeral. -/
theorem not_numeral_of_no_digit (line : List Char) (h : ∀ c ∈ line, isDigit c = false) :
    ¬ IsNumeral line := by
  rintro ⟨ws1, ds, ws2, hl, -, hne, hds, -⟩
  obtain ⟨d, ds1, rfl⟩ := List.exists_cons_of_ne_nil hne
  have hd := hds d (List.mem_cons_self _ _)
  have hm : d ∈ line := by
    rw [hl]
    exact List.mem_append_left _ (List.mem_append_right _ (List.mem_cons_self _ _))
  rw [h d hm] at hd
  cases hd

/-- A non-empty string of digits is a numeral. -/
theorem isNumeral_of_digits (ds : List Char) (hne : ds ≠ [])
    (h : ∀ c ∈ ds, isDigit c = true) : IsNumeral ds :=
  ⟨[], ds, [], by simp, by simp, hne, h, by simp⟩

/-- A line of more than nine characters without whitespace is no numeral of at most nine
digits. -/
theorem not_short_numeral (line : List Char) (h : ∀ c ∈ line, isWhitespace c = false)
    (hlen : 9 < line.length) : ¬ IsShortNumeral line := by
  rintro ⟨ws1, ds, ws2, hl, h1, -, h9, -, h3⟩
  have e1 : ws1 = [] := by
    apply List.eq_nil_iff_forall_not_mem.mpr
    intro c hc
    have hm : c ∈ line := by
      rw [hl]; exact List.mem_append_left _ (List.mem_append_left _ hc)
    have := h1 c hc
    rw [h c hm] at this
    cases this
  have e2 : ws2 = [] := by
    apply List.eq_nil_iff_forall_not_mem.mpr
    intro c hc
    have hm : c ∈ line := by
      rw [hl]; exact List.mem_append_right _ hc
    have := h3 c hc
    rw [h c hm] at this
    cases this
  rw [e1, e2, List.nil_append, List.append_nil] at hl
  rw [hl] at hlen
  omega

/-- The menu choice on whitespace, digits, whitespace when the number fits an `int`. -/
theorem menuChoice_numeral (ws1 ds ws2 : List Char) (h1 : ∀ c ∈ ws1, isWhitespace c = true)
    (hne : ds ≠ []) (h2 : ∀ c ∈ ds, isDigit c = true) (h3 : ∀ c ∈ ws2, isWhitespace c = true)
    (hle : (decimalValue ds : Int) ≤ INT_MAX) :
    menuChoice (ws1 ++ ds ++ ws2) = decimalValue ds := by
  rw [menuChoice, parse_trimString, parse_numeral ws1 ds ws2 h1 hne h2 h3,
    digitsValue_decimal ds h2 hle]

/-- A line accepted at the quantity prompt carries a quantity of at least 1. -/
theorem acceptedQuantity_some (line : List Char) (q : Int)
    (h : acceptedQuantity line = some q) : q = parseFirstInteger line ∧ 1 ≤ q := by
  unfold acceptedQuantity at h
  simp only at h
  split_ifs at h with hq
  cases h
  exact ⟨rfl, by omega⟩

/-- A line of at most 99 characters is stored whole by `cin.getline`. -/
theorem getline_short (line : List Char) (hlen : line.length ≤ 99) : getline line = line :=
  List.take_of_length_le hlen

/-- Of a longer line `cin.getline` stores the first 99 characters. -/
theorem getline_long (line : List Char) (hlen : 99 ≤ line.length) :
    (getline line).length = 99 ∧ getline line = line.take 99 :=
  ⟨by rw [getline, List.length_take]; exact Nat.min_eq_left hlen, rfl⟩

/-! ## The input lines: claims C9 and C10 -/

/-- C9, as the code has it. For every input line, the menu choice computed by `run` equals `n`
when the line is optional whitespace, then one or more decimal digits denoting a number `n`
of at most 2147483647 (every string of one to nine digits is such), then optional whitespace;
it equals -1 for every line without NUL that is not optional whitespace, digits, optional
whitespace; and trimming never changes the outcome. -/
theorem menu_choice_of_line (line : List Char) :
    (∀ ws1 ds ws2, line = ws1 ++ ds ++ ws2 → (∀ c ∈ ws1, isWhitespace c = true) → ds ≠ [] →
      (∀ c ∈ ds, isDigit c = true) → (∀ c ∈ ws2, isWhitespace c = true) →
      (decimalValue ds : Int) ≤ INT_MAX → menuChoice line = decimalValue ds) ∧
    (∀ ws1 ds ws2, line = ws1 ++ ds ++ ws2 → (∀ c ∈ ws1, isWhitespace c = true) → ds ≠ [] →
      ds.length ≤ 9 → (∀ c ∈ ds, isDigit c = true) → (∀ c ∈ ws2, isWhitespace c = true) →
      menuChoice line = decimalValue ds) ∧
    (NUL ∉ line → ¬ IsNumeral line → menuChoice line = -1) ∧
    parseFirstInteger (trimString line) = parseFirstInteger line := by
  refine ⟨?_, ?_, ?_, parse_trimString line⟩
  · intro ws1 ds ws2 hl h1 hne h2 h3 hle
    rw [hl]; exact menuChoice_numeral ws1 ds ws2 h1 hne h2 h3 hle
  · intro ws1 ds ws2 hl h1 hne h9 h2 h3
    rw [hl]; exact menuChoice_numeral ws1 ds ws2 h1 hne h2 h3 (decimalValue_short ds h2 h9)
  · intro hnul hnot
    rw [menuChoice, parse_trimString]
    exact parse_not_numeral line hnul hnot

/-- C9, as the code has it, at the line " 4 ": the choice is 4, which selects Exit; and at
the line "abc", which is no numeral: the choice is -1. -/
theorem menu_choice_of_line_witness :
    menuChoice " 4 ".toList = 4 ∧ (runStep AppState.init " 4 ".toList).mode = .finished ∧
      NUL ∉ "abc".toList ∧ ¬ IsNumeral "abc".toList ∧ menuChoice "abc".toList = -1 ∧
      menuChoice "".toList = -1 ∧ menuChoice "+1".toList = -1 ∧ menuChoice "-1".toList = -1 ∧
      menuChoice "12x".toList = -1 ∧ menuChoice "1 2".toList = -1 := by
  have h4 := (menu_choice_of_line " 4 ".toList).1 [' '] ['4'] [' '] rfl (by decide) (by decide)
    (by decide) (by decide) (by decide)
  have hn : ¬ IsNumeral "abc".toList := not_numeral_of_no_digit _ (by decide)
  have ha := (menu_choice_of_line "abc".toList).2.2.1 (by decide) hn
  exact ⟨h4, by decide, by decide, hn, ha, by decide, by decide, by decide, by decide,
    by decide⟩

/-- C9 as stated fails: the line "1234567890" is not optional whitespace, one to nine digits,
optional whitespace, and the menu choice computed from it is 1234567890, not -1. -/
theorem menu_choice_ten_digits :
    ¬ IsShortNumeral "1234567890".toList ∧ "1234567890".toList.length ≤ 99 ∧
      menuChoice "1234567890".toList = 1234567890 ∧ menuChoice "1234567890".toList ≠ -1 :=
  ⟨not_short_numeral _ (by decide) (by decide), by decide, by decide, by decide⟩

/-- C10, as the code has it. At the quantity prompt of `viewProducts`, for every input line of
at most 99 characters, which `cin.getline` stores whole: a line that is optional whitespace
around decimal digits whose number `n` is at least 1 and at most 2147483647 is accepted, and
the quantity passed to `cart.addProduct` is exactly `n`; a line of that shape whose number is
0, and every line without NUL that is not of that shape, is rejected and the quantity is asked
again with the cart unchanged; and whatever line is accepted, the quantity passed to
`cart.addProduct` is at least 1. -/
theorem quantity_prompt_of_line (st : AppState) (product : Prod) (line : List Char)
    (hlen : line.length ≤ 99) :
    (∀ ws1 ds ws2, line = ws1 ++ ds ++ ws2 → (∀ c ∈ ws1, isWhitespace c = true) → ds ≠ [] →
      (∀ c ∈ ds, isDigit c = true) → (∀ c ∈ ws2, isWhitespace c = true) →
      0 < decimalValue ds → (decimalValue ds : Int) ≤ INT_MAX →
      acceptedQuantity (getline line) = some (decimalValue ds : Int) ∧
      (quantityStep st product (getline line)).mode = .askAnother ∧
      (quantityStep st product (getline line)).st.cart
        = st.cart.addProduct product (decimalValue ds)) ∧
    (∀ ws1 ds ws2, line = ws1 ++ ds ++ ws2 → (∀ c ∈ ws1, isWhitespace c = true) → ds ≠ [] →
      (∀ c ∈ ds, isDigit c = true) → (∀ c ∈ ws2, isWhitespace c = true) →
      decimalValue ds = 0 → acceptedQuantity (getline line) = none) ∧
    (NUL ∉ line → ¬ IsNumeral line → acceptedQuantity (getline line) = none) ∧
    (acceptedQuantity (getline line) = none →
      quantityStep st product (getline line) =
        ⟨.askQuantity product, st.print (.text "Quantity must be a positive number.")⟩) ∧
    (∀ q, acceptedQuantity (getline line) = some q → 1 ≤ q ∧
      (quantityStep st product (getline line)).mode = .askAnother ∧
      (quantityStep st product (getline line)).st.cart = st.cart.addProduct product q) := by
  rw [getline_short line hlen]
  have hsome : ∀ q, acceptedQuantity line = some q → 1 ≤ q ∧
      (quantityStep st product line).mode = .askAnother ∧
      (quantityStep st product line).st.cart = st.cart.addProduct product q := by
    intro q hq
    refine ⟨(acceptedQuantity_some line q hq).2, ?_, ?_⟩
    · simp only [quantityStep, hq]
    · simp only [quantityStep, hq, AppState.print]
      split_ifs <;> rfl
  refine ⟨?_, ?_, ?_, ?_, hsome⟩
  · intro ws1 ds ws2 hl h1 hne h2 h3 hpos hle
    have hp : parseFirstInteger line = decimalValue ds := by
      rw [hl, parse_numeral ws1 ds ws2 h1 hne h2 h3, digitsValue_decimal ds h2 hle]
    have hq : acceptedQuantity line = some (decimalValue ds : Int) := by
      have hnot : ¬ ((decimalValue ds : Int) ≤ 0) := by omega
      simp only [acceptedQuantity, hp, hnot, if_false]
    exact ⟨hq, (hsome _ hq).2⟩
  · intro ws1 ds ws2 hl h1 hne h2 h3 hzero
    have hp : parseFirstInteger line = decimalValue ds := by
      rw [hl, parse_numeral ws1 ds ws2 h1 hne h2 h3,
        digitsValue_decimal ds h2 (by rw [hzero]; decide)]
    simp only [acceptedQuantity, hp, hzero]
    rfl
  · intro hnul hnot
    simp only [acceptedQuantity, parse_not_numeral line hnul hnot]
    rfl
  · intro hnone
    simp only [quantityStep, hnone]

/-- C10, as the code has it, at the line " 5 ", accepted with quantity 5, and at the lines
"-3", "abc", "0" and the empty line, which are rejected. -/
theorem quantity_prompt_of_line_witness :
    " 5 ".toList.length ≤ 99 ∧ acceptedQuantity (getline " 5 ".toList) = some 5 ∧
      (quantityStep sampleState productA (getline " 5 ".toList)).st.cart
        = sampleState.cart.addProduct productA 5 ∧
      acceptedQuantity (getline "-3".toList) = none ∧
      acceptedQuantity (getline "abc".toList) = none ∧
      acceptedQuantity (getline "0".toList) = none ∧
      acceptedQuantity (getline "".toList) = none := by
  have h := (quantity_prompt_of_line sampleState productA " 5 ".toList (by decide)).1 [' ']
    ['5'] [' '] rfl (by decide) (by decide) (by decide) (by decide) (by decide) (by decide)
  exact ⟨by decide, h.1, h.2.2, by decide, by decide, by decide, by decide⟩

/-- C10 as stated fails. The line "4294967297" is a string of decimal digits whose value is
the positive integer 4294967297, and it is accepted, but the quantity passed to
`cart.addProduct` is 1; the line "2147483648" is a string of decimal digits whose value is
positive, and it is rejected. -/
theorem quantity_prompt_overflow :
    IsNumeral "4294967297".toList ∧ decimalValue "4294967297".toList = 4294967297 ∧
      acceptedQuantity "4294967297".toList = some 1 ∧
      (quantityStep sampleState productA "4294967297".toList).st.cart
        = sampleState.cart.addProduct productA 1 ∧
      IsNumeral "2147483648".toList ∧ decimalValue "2147483648".toList = 2147483648 ∧
      acceptedQuantity "2147483648".toList = none := by
  refine ⟨isNumeral_of_digits _ (by decide) (by decide), by decide, by decide, ?_,
    isNumeral_of_digits _ (by decide) (by decide), by decide, by decide⟩
  have hq : acceptedQuantity "4294967297".toList = some 1 := by decide
  simp only [quantityStep, hq, AppState.print]
  split_ifs <;> rfl

/-- The bound of 99 characters in C10 is needed. The line of 100 blanks and the digit 5 is
optional whitespace around the digits of the number 5, but `cin.getline` stores only its first
99 characters, which are blanks, and the quantity is asked again. -/
theorem quantity_long_line :
    longQuantityLine.length = 101 ∧ IsNumeral longQuantityLine ∧
      getline longQuantityLine = List.replicate 99 ' ' ∧
      acceptedQuantity (getline longQuantityLine) = none ∧
      quantityStep sampleState productA (getline longQuantityLine) =
        ⟨.askQuantity productA,
          sampleState.print (.text "Quantity must be a positive number.")⟩ := by
  have hnone : acceptedQuantity (getline longQuantityLine) = none := by decide
  refine ⟨by decide, ⟨List.replicate 100 ' ', ['5'], [], by simp [longQuantityLine], ?_,
    by simp, by decide, by simp⟩, by decide, hnone, ?_⟩
  · intro c hc
    rw [List.eq_of_mem_replicate hc]
    decide
  · simp only [quantityStep, hnone]

/-! ## Auxiliary lemmas: `strcasecmp` -/

/-- Characters with the same code are the same. -/
theorem char_eq_of_toNat (a b : Char) (h : a.toNat = b.toNat) : a = b := by
  rw [← Char.ofNat_toNat a, ← Char.ofNat_toNat b, h]

/-- Only the terminator is lower-cased to the terminator. -/
theorem tolower_eq_NUL (c : Char) (h : tolower c = NUL) : c = NUL := by
  unfold tolower Char.toLower at h
  simp only at h
  split_ifs at h with hr
  · exfalso
    obtain ⟨h1, h2⟩ := hr
    have hc : c = Char.ofNat c.toNat := (Char.ofNat_toNat c).symm
    generalize c.toNat = n at h h1 h2 hc
    have h3 : 65 ≤ n := h1
    interval_cases n <;> revert h <;> decide
  · exact h

/-- The difference `strcasecmp` returns is 0 exactly for equal characters. -/
theorem char_diff_eq_zero (a b : Char) :
    ((a.toNat : Int) - (b.toNat : Int) = 0) ↔ a = b := by
  constructor
  · intro h; exact char_eq_of_toNat a b (by omega)
  · intro h; rw [h]; omega

/-- The key of the empty string. -/
theorem lowerKey_nil : lowerKey [] = [] := rfl

/-- The key of a string that starts with the terminator. -/
theorem lowerKey_cons_NUL (cs : List Char) : lowerKey (NUL :: cs) = [] := rfl

/-- The key of a string that starts with another character. -/
theorem lowerKey_cons (c : Char) (cs : List Char) (h : c ≠ NUL) :
    lowerKey (c :: cs) = tolower c :: lowerKey cs := by
  have hb : (c != NUL) = true := by simpa using h
  simp [lowerKey, List.takeWhile_cons, hb]

/-- `strcasecmp` returns 0 exactly when the two C strings agree after lower-casing. -/
theorem strcasecmp_eq_zero_iff (a : List Char) :
    ∀ b : List Char, strcasecmp a b = 0 ↔ lowerKey a = lowerKey b := by
  induction a with
  | nil =>
    intro b
    cases b with
    | nil => simp [strcasecmp, lowerKey_nil]
    | cons c cs =>
      simp only [strcasecmp, firstChar, char_diff_eq_zero, lowerKey_nil]
      by_cases hc : c = NUL
      · rw [hc, lowerKey_cons_NUL]
        exact ⟨fun _ => rfl, fun _ => by decide⟩
      · rw [lowerKey_cons c cs hc]
        constructor
        · intro h; exact absurd (tolower_eq_NUL c h.symm) hc
        · intro h; cases h
  | cons x xs ih =>
    intro b
    cases b with
    | nil =>
      simp only [strcasecmp, firstChar, char_diff_eq_zero, lowerKey_nil]
      by_cases hx : x = NUL
      · rw [hx, lowerKey_cons_NUL]
        exact ⟨fun _ => rfl, fun _ => by decide⟩
      · rw [lowerKey_cons x xs hx]
        constructor
        · intro h; exact absurd (tolower_eq_NUL x h) hx
        · intro h; cases h
    | cons c cs =>
      by_cases hx : x = NUL
      · have hn : ¬ (x ≠ NUL ∧ c ≠ NUL) := fun h => h.1 hx
        simp only [strcasecmp, hn, if_false, char_diff_eq_zero]
        rw [hx, lowerKey_cons_NUL]
        by_cases hc : c = NUL
        · rw [hc, lowerKey_cons_NUL]; exact ⟨fun _ => rfl, fun _ => rfl⟩
        · rw [lowerKey_cons c cs hc]
          constructor
          · intro h; exact absurd (tolower_eq_NUL c h.symm) hc
          · intro h; cases h
      · by_cases hc : c = NUL
        · have hn : ¬ (x ≠ NUL ∧ c ≠ NUL) := fun h => h.2 hc
          simp only [strcasecmp, hn, if_false, char_diff_eq_zero]
          rw [hc, lowerKey_cons_NUL, lowerKey_cons x xs hx]
          constructor
          · intro h; exact absurd (tolower_eq_NUL x h) hx
          · intro h; cases h
        · have hn : x ≠ NUL ∧ c ≠ NUL := ⟨hx, hc⟩
          rw [lowerKey_cons x xs hx, lowerKey_cons c cs hc]
          by_cases ht : tolower x = tolower c
          · simp only [strcasecmp, hn, and_self, if_true, ht, ne_eq, not_true_eq_false,
              if_false, List.cons.injEq, true_and]
            exact ih cs
          · simp only [strcasecmp, hn, and_self, if_true, ht, ne_eq, not_false_eq_true,
              char_diff_eq_zero, List.cons.injEq, false_and]

/-! ## Auxiliary lemmas: the cart -/

/-- The first index below `n` that satisfies a test. -/
theorem find_range (P : Nat → Bool) (n : Nat) :
    (∀ i, (List.range n).find? P = some i → i < n ∧ P i = true ∧ ∀ j, j < i → P j = false) ∧
    ((List.range n).find? P = none → ∀ j, j < n → P j = false) := by
  induction n with
  | zero =>
    refine ⟨fun i h => by simp at h, fun _ j hj => by omega⟩
  | succ k ih =>
    obtain ⟨ih1, ih2⟩ := ih
    rw [List.range_succ, List.find?_append]
    cases hf : (List.range k).find? P with
    | some i0 =>
      obtain ⟨a1, a2, a3⟩ := ih1 i0 hf
      refine ⟨?_, fun h => by simp [Option.or] at h⟩
      intro i hi
      have hi1 : i0 = i := by simpa [Option.or] using hi
      subst hi1
      exact ⟨by omega, a2, a3⟩
    | none =>
      have hnone := ih2 hf
      by_cases hk : P k = true
      · refine ⟨?_, fun h => by simp [Option.or, hk] at h⟩
        intro i hi
        have hi1 : k = i := by simpa [Option.or, List.find?_cons, hk] using hi
        subst hi1
        exact ⟨by omega, hk, hnone⟩
      · have hk1 : P k = false := by simpa using hk
        refine ⟨fun i hi => by simp [Option.or, hk1] at hi, ?_⟩
        intro _ j hj
        by_cases hjk : j = k
        · rw [hjk]; exact hk1
        · exact hnone j (by omega)

/-- Reading a slot below the count of a well-formed cart gives the line with that index. -/
theorem getD_lines (c : ShoppingCart) (hwf : c.WF) (i : Nat) (hi : i < c.itemCount) :
    c.lines[i]? = some (c.items.getD i default) := by
  have hlen : i < c.items.length := by rw [hwf.1]; exact Nat.lt_of_lt_of_le hi hwf.2
  rw [ShoppingCart.lines, ShoppingCart.getItems, ShoppingCart.getItemCount,
    List.getElem?_take_of_lt hi, List.getD_eq_getElem?_getD, List.getElem?_eq_getElem hlen]
  rfl

/-- The number of lines of a well-formed cart. -/
theorem lines_length (c : ShoppingCart) (hwf : c.WF) : c.lines.length = c.itemCount := by
  rw [ShoppingCart.lines, ShoppingCart.getItems, ShoppingCart.getItemCount, List.length_take,
    hwf.1]
  exact Nat.min_eq_left hwf.2

/-- Every line of a well-formed cart is a slot below the count. -/
theorem mem_lines (c : ShoppingCart) (hwf : c.WF) (it : CartItem) (h : it ∈ c.lines) :
    ∃ i, i < c.itemCount ∧ it = c.items.getD i default := by
  obtain ⟨i, hi, hget⟩ := List.getElem_of_mem h
  rw [lines_length c hwf] at hi
  have := getD_lines c hwf i hi
  rw [List.getElem?_eq_getElem (by rw [lines_length c hwf]; exact hi)] at this
  exact ⟨i, hi, by rw [← hget]; exact Option.some.inj this⟩

/-- Writing a slot and cutting at the count commute. -/
theorem take_set_comm {α : Type} (l : List α) (x : α) :
    ∀ (i n : Nat), (l.set i x).take n = (l.take n).set i x := by
  induction l with
  | nil => intro i n; simp
  | cons a as ih =>
    intro i n
    cases n with
    | zero => simp
    | succ m =>
      cases i with
      | zero => simp
      | succ j => simp [ih j m]

/-- Replacing an element by one with the same image does not change the images. -/
theorem map_set_same {α β : Type} (f : α → β) (l : List α) (x : α) :
    ∀ i : Nat, (∀ y, l[i]? = some y → f x = f y) → (l.set i x).map f = l.map f := by
  induction l with
  | nil => intro i _; rfl
  | cons a as ih =>
    intro i h
    cases i with
    | zero =>
      have := h a (by simp)
      simp [this]
    | succ j =>
      simp only [List.set_cons_succ, List.map_cons]
      rw [ih j (fun y hy => h y (by simpa using hy))]

/-- When the search loop of `addProduct` finds a line: the cart after the call. -/
theorem addProduct_found (c : ShoppingCart) (hwf : c.WF) (p : Prod) (q : Int) (i : Nat)
    (h : c.findLine p = some i) :
    i < c.itemCount ∧
      strcasecmp (c.items.getD i default).product.id.toList p.id.toList = 0 ∧
      (c.addProduct p q).itemCount = c.itemCount ∧
      (c.addProduct p q).lines = c.lines.set i
        { product := (c.items.getD i default).product,
          quantity := wrapInt ((c.items.getD i default).quantity + q) } ∧
      (c.addProduct p q).lines.map (fun it => it.product.id.toList) =
        c.lines.map (fun it => it.product.id.toList) ∧
      (c.addProduct p q).WF := by
  obtain ⟨a1, a2, -⟩ := (find_range _ c.itemCount).1 i h
  have hlines : (c.addProduct p q).lines = c.lines.set i
      { product := (c.items.getD i default).product,
        quantity := wrapInt ((c.items.getD i default).quantity + q) } := by
    simp only [ShoppingCart.addProduct, h, ShoppingCart.lines, ShoppingCart.getItems,
      ShoppingCart.getItemCount]
    exact take_set_comm _ _ _ _
  refine ⟨a1, by simpa using a2, by simp only [ShoppingCart.addProduct, h], hlines, ?_, ?_⟩
  · rw [hlines]
    apply map_set_same
    intro y hy
    rw [getD_lines c hwf i a1] at hy
    cases hy
    rfl
  · simp only [ShoppingCart.addProduct, h, ShoppingCart.WF, List.length_set]
    exact hwf

/-- When the search loop of `addProduct` finds no line and the cart has room: the cart after
the call. -/
theorem addProduct_appended (c : ShoppingCart) (hwf : c.WF) (p : Prod) (q : Int)
    (h : c.findLine p = none) (hroom : c.itemCount < MAX_CART_ITEMS) :
    (∀ it ∈ c.lines, strcasecmp it.product.id.toList p.id.toList ≠ 0) ∧
      (c.addProduct p q).itemCount = c.itemCount + 1 ∧
      (c.addProduct p q).lines = c.lines ++ [⟨p, q⟩] ∧
      (c.addProduct p q).WF := by
  have hnone := (find_range _ c.itemCount).2 h
  refine ⟨?_, by simp only [ShoppingCart.addProduct, h, hroom, if_true], ?_, ?_⟩
  · intro it hit
    obtain ⟨i, hi, rfl⟩ := mem_lines c hwf it hit
    simpa using hnone i hi
  · simp only [ShoppingCart.addProduct, h, hroom, if_true, ShoppingCart.lines,
      ShoppingCart.getItems, ShoppingCart.getItemCount]
    exact take_set_succ _ _ _ (by rw [hwf.1]; exact hroom)
  · simp only [ShoppingCart.addProduct, h, hroom, if_true, ShoppingCart.WF, List.length_set]
    exact ⟨hwf.1, hroom⟩

/-- When the search loop of `addProduct` finds no line and the cart is full, the cart is
unchanged. -/
theorem addProduct_rejected (c : ShoppingCart) (p : Prod) (q : Int)
    (h : c.findLine p = none) (hfull : ¬ c.itemCount < MAX_CART_ITEMS) :
    c.addProduct p q = c := by
  simp only [ShoppingCart.addProduct, h, hfull, if_false]

/-- Every reachable cart is well formed and has no two lines for one identifier. -/
theorem cart_reachable_inv (c : ShoppingCart) (h : c.Reachable) : c.WF ∧ c.Distinct := by
  induction h with
  | new =>
    refine ⟨⟨by simp [ShoppingCart.new], by decide⟩, ?_⟩
    show List.Pairwise _ (List.map _ [])
    exact List.Pairwise.nil
  | clear c _ ih =>
    refine ⟨⟨ih.1.1, Nat.zero_le _⟩, ?_⟩
    show List.Pairwise _ (List.map _ [])
    exact List.Pairwise.nil
  | addProduct c p q _ ih =>
    obtain ⟨hwf, hd⟩ := ih
    cases hf : c.findLine p with
    | some i =>
      obtain ⟨-, -, -, -, hids, hwf1⟩ := addProduct_found c hwf p q i hf
      exact ⟨hwf1, by unfold ShoppingCart.Distinct; rw [hids]; exact hd⟩
    | none =>
      by_cases hroom : c.itemCount < MAX_CART_ITEMS
      · obtain ⟨hno, -, hl, hwf1⟩ := addProduct_appended c hwf p q hf hroom
        refine ⟨hwf1, ?_⟩
        unfold ShoppingCart.Distinct
        rw [hl, List.map_append, List.pairwise_append]
        refine ⟨hd, by simp, ?_⟩
        intro a ha b hb
        simp only [List.map_cons, List.map_nil, List.mem_singleton] at hb
        obtain ⟨it, hit, rfl⟩ := List.mem_map.mp ha
        rw [hb]
        exact hno it hit
      · rw [addProduct_rejected c p q hf hroom]
        exact ⟨hwf, hd⟩

/-! ## Auxiliary lemmas: two additions of one product -/

/-- Identifiers that agree after lower-casing compare alike with every identifier. -/
theorem strcasecmp_congr_right (x a b : List Char) (h : lowerKey a = lowerKey b) :
    strcasecmp x a = 0 ↔ strcasecmp x b = 0 := by
  rw [strcasecmp_eq_zero_iff, strcasecmp_eq_zero_iff, h]

/-- Lines that compare equal to one identifier compare equal to each other. -/
theorem strcasecmp_of_common (a b id : List Char) (ha : strcasecmp a id = 0)
    (hb : strcasecmp b id = 0) : strcasecmp a b = 0 := by
  rw [strcasecmp_eq_zero_iff] at ha hb ⊢
  rw [ha, hb]

/-- Among lines with pairwise different identifiers at most one compares equal to a given
identifier. -/
theorem filter_distinct_le_one (id : List Char) (l : List CartItem)
    (h : (l.map (fun it => it.product.id.toList)).Pairwise (fun a b => strcasecmp a b ≠ 0)) :
    (l.filter (fun it => strcasecmp it.product.id.toList id == 0)).length ≤ 1 := by
  induction l with
  | nil => simp
  | cons a as ih =>
    rw [List.map_cons, List.pairwise_cons] at h
    obtain ⟨h1, h2⟩ := h
    by_cases ha : strcasecmp a.product.id.toList id = 0
    · have hnil : as.filter (fun it => strcasecmp it.product.id.toList id == 0) = [] := by
        rw [List.filter_eq_nil_iff]
        intro b hb hmatch
        have hb0 : strcasecmp b.product.id.toList id = 0 := by simpa using hmatch
        exact h1 _ (List.mem_map.mpr ⟨b, hb, rfl⟩) (strcasecmp_of_common _ _ id ha hb0)
      have hbeq : (strcasecmp a.product.id.toList id == 0) = true := by simpa using ha
      rw [List.filter_cons, if_pos hbeq, hnil]
      simp
    · have hbeq : ¬ (strcasecmp a.product.id.toList id == 0) = true := by simpa using ha
      rw [List.filter_cons, if_neg hbeq]
      exact ih h2

/-- A cart without two lines for one identifier that has a line for `id` has exactly one. -/
theorem linesFor_length_one (c : ShoppingCart) (hd : c.Distinct) (id : List Char)
    (it : CartItem) (hit : it ∈ c.lines) (hmatch : strcasecmp it.product.id.toList id = 0) :
    (c.linesFor id).length = 1 := by
  have h1 := filter_distinct_le_one id c.lines hd
  have h2 : it ∈ c.linesFor id := by
    unfold ShoppingCart.linesFor
    rw [List.mem_filter]
    exact ⟨hit, by simpa using hmatch⟩
  have h3 : 0 < (c.linesFor id).length := List.length_pos_of_mem h2
  unfold ShoppingCart.linesFor at h3 ⊢
  omega

/-- The cart has a line for the identifier of `p` exactly when the search loop finds one. -/
theorem linesFor_eq_nil_iff (c : ShoppingCart) (hwf : c.WF) (p : Prod) :
    c.linesFor p.id.toList = [] ↔ c.findLine p = none := by
  constructor
  · intro h
    cases hf : c.findLine p with
    | none => rfl
    | some i =>
      exfalso
      obtain ⟨a1, a2, -⟩ := (find_range _ c.itemCount).1 i hf
      have hm : c.items.getD i default ∈ c.lines :=
        List.getElem?_mem (getD_lines c hwf i a1)
      unfold ShoppingCart.linesFor at h
      rw [List.filter_eq_nil_iff] at h
      exact h _ hm a2
  · intro h
    have hnone := (find_range _ c.itemCount).2 h
    unfold ShoppingCart.linesFor
    rw [List.filter_eq_nil_iff]
    intro it hit
    obtain ⟨i, hi, rfl⟩ := mem_lines c hwf it hit
    simpa using hnone i hi

/-- Writing the slot after the last element of a list. -/
theorem set_append_last {α : Type} (l : List α) (a b : α) :
    (l ++ [a]).set l.length b = l ++ [b] := by
  induction l with
  | nil => rfl
  | cons x xs ih => simp [ih]

/-- Tests that agree on a list find the same element. -/
theorem find_congr {α : Type} (P Q : α → Bool) (l : List α) (h : ∀ x ∈ l, P x = Q x) :
    l.find? P = l.find? Q := by
  induction l with
  | nil => rfl
  | cons a as ih =>
    rw [List.find?_cons, List.find?_cons, h a (List.mem_cons_self _ _),
      ih (fun x hx => h x (List.mem_cons_of_mem _ hx))]

/-- The second of two additions of one product finds the line of the first. -/
theorem findLine_after_add (c : ShoppingCart) (hwf : c.WF) (p p' : Prod) (q1 : Int)
    (hid : lowerKey p'.id.toList = lowerKey p.id.toList)
    (hroom : c.itemCount < MAX_CART_ITEMS ∨ c.linesFor p.id.toList ≠ []) :
    ∃ k, (c.addProduct p q1).findLine p' = some k ∧
      (c.findLine p = none → k = c.itemCount ∧
        (c.addProduct p q1).items.getD k default = ⟨p, q1⟩) := by
  have hmatch : ∀ x : List Char,
      (strcasecmp x p'.id.toList == 0) = (strcasecmp x p.id.toList == 0) := by
    intro x
    rw [Bool.eq_iff_iff]
    simp only [beq_iff_eq]
    exact strcasecmp_congr_right x _ _ hid
  cases hf : c.findLine p with
  | some i =>
    refine ⟨i, ?_, fun h => by cases h⟩
    obtain ⟨a1, -, a3, -, -, -⟩ := addProduct_found c hwf p q1 i hf
    have hprod : ∀ j, ((c.addProduct p q1).items.getD j default).product
        = (c.items.getD j default).product := by
      intro j
      simp only [ShoppingCart.addProduct, hf, List.getD_eq_getElem?_getD, List.getElem?_set]
      split_ifs with h1 h2
      · rw [h1]; rfl
      · subst h1; rw [List.getElem?_eq_none (by omega)]
      · rfl
    unfold ShoppingCart.findLine
    rw [a3]
    rw [ShoppingCart.findLine] at hf
    rw [← hf]
    apply find_congr
    intro j _
    rw [hprod j, hmatch]
  | none =>
    have hroom1 : c.itemCount < MAX_CART_ITEMS := by
      rcases hroom with h | h
      · exact h
      · exact absurd ((linesFor_eq_nil_iff c hwf p).mpr hf) h
    have hnone := (find_range _ c.itemCount).2 hf
    have hlen : c.itemCount < c.items.length := by rw [hwf.1]; exact hroom1
    have hitems : (c.addProduct p q1).items = c.items.set c.itemCount ⟨p, q1⟩ := by
      simp only [ShoppingCart.addProduct, hf, hroom1, if_true]
    have hcount : (c.addProduct p q1).itemCount = c.itemCount + 1 := by
      simp only [ShoppingCart.addProduct, hf, hroom1, if_true]
    have hlast : (c.addProduct p q1).items.getD c.itemCount default = ⟨p, q1⟩ := by
      rw [hitems, List.getD_eq_getElem?_getD, List.getElem?_set_self hlen]; rfl
    have hbefore : ∀ j, j < c.itemCount →
        (c.addProduct p q1).items.getD j default = c.items.getD j default := by
      intro j hj
      rw [hitems, List.getD_eq_getElem?_getD, List.getD_eq_getElem?_getD,
        List.getElem?_set_ne (by omega)]
    have hself : strcasecmp p.id.toList p'.id.toList = 0 := by
      rw [strcasecmp_eq_zero_iff, hid]
    cases hf1 : (c.addProduct p q1).findLine p' with
    | none =>
      exfalso
      have h1 := (find_range _ (c.addProduct p q1).itemCount).2 hf1 c.itemCount
        (by rw [hcount]; omega)
      rw [hlast, hself] at h1
      exact absurd h1 (by decide)
    | some k =>
      obtain ⟨b1, b2, b3⟩ := (find_range _ (c.addProduct p q1).itemCount).1 k hf1
      rw [hcount] at b1
      have hk : k = c.itemCount := by
        by_contra hne
        have hklt : k < c.itemCount := by omega
        rw [hbefore k hklt, hmatch] at b2
        rw [hnone k hklt] at b2
        cases b2
      refine ⟨k, rfl, fun _ => ⟨hk, by rw [hk]; exact hlast⟩⟩

/-! ## Adding one product twice: claim C3 -/

/-- C3, as the code has it. For every reachable cart that has room for one more line or
already holds the product, every product `p` and all quantities `q1 > 0` and `q2 > 0`:
`addProduct(p, q1)` followed by `addProduct(p', q2)`, where the identifier of `p'` agrees with
that of `p` up to ASCII letter case, leaves exactly one line for that identifier; when the
identifier was absent beforehand and `q1 + q2` is at most 2147483647, that line is appended
after the former lines and its quantity is `q1 + q2`; and the number of lines grows by at
most one. -/
theorem add_same_product_twice (c : ShoppingCart) (hc : c.Reachable) (p p' : Prod)
    (q1 q2 : Int) (_hq1 : 0 < q1) (_hq2 : 0 < q2)
    (hid : lowerKey p'.id.toList = lowerKey p.id.toList)
    (hroom : c.itemCount < MAX_CART_ITEMS ∨ c.linesFor p.id.toList ≠ []) :
    (((c.addProduct p q1).addProduct p' q2).linesFor p.id.toList).length = 1 ∧
      (((c.addProduct p q1).addProduct p' q2).linesFor p'.id.toList).length = 1 ∧
      (c.linesFor p.id.toList = [] → q1 + q2 ≤ INT_MAX →
        ((c.addProduct p q1).addProduct p' q2).lines = c.lines ++ [⟨p, q1 + q2⟩]) ∧
      c.lines.length ≤ ((c.addProduct p q1).addProduct p' q2).lines.length ∧
      ((c.addProduct p q1).addProduct p' q2).lines.length ≤ c.lines.length + 1 := by
  obtain ⟨hwf, -⟩ := cart_reachable_inv c hc
  have hc1 := ShoppingCart.Reachable.addProduct c p q1 hc
  have hc2 := ShoppingCart.Reachable.addProduct _ p' q2 hc1
  obtain ⟨hwf1, -⟩ := cart_reachable_inv _ hc1
  obtain ⟨hwf2, hd2⟩ := cart_reachable_inv _ hc2
  obtain ⟨k, hk, hknone⟩ := findLine_after_add c hwf p p' q1 hid hroom
  obtain ⟨f1, f2, f3, f4, -, -⟩ := addProduct_found (c.addProduct p q1) hwf1 p' q2 k hk
  -- the line written by the second call
  have hmem : (⟨((c.addProduct p q1).items.getD k default).product,
      wrapInt (((c.addProduct p q1).items.getD k default).quantity + q2)⟩ : CartItem)
      ∈ ((c.addProduct p q1).addProduct p' q2).lines := by
    rw [f4]
    exact List.mem_set _ _ (by rw [lines_length _ hwf1]; exact f1) _
  have hcount1 : (c.addProduct p q1).itemCount = c.itemCount ∨
      (c.addProduct p q1).itemCount = c.itemCount + 1 := by
    cases hf : c.findLine p with
    | some i => exact Or.inl (addProduct_found c hwf p q1 i hf).2.2.1
    | none =>
      have hroom1 : c.itemCount < MAX_CART_ITEMS := by
        rcases hroom with h | h
        · exact h
        · exact absurd ((linesFor_eq_nil_iff c hwf p).mpr hf) h
      exact Or.inr (addProduct_appended c hwf p q1 hf hroom1).2.1
  refine ⟨?_, ?_, ?_, ?_, ?_⟩
  · exact linesFor_length_one _ hd2 _ _ hmem ((strcasecmp_congr_right _ _ _ hid).mp f2)
  · exact linesFor_length_one _ hd2 _ _ hmem f2
  · intro habsent hsum
    have hf : c.findLine p = none := (linesFor_eq_nil_iff c hwf p).mp habsent
    have hroom1 : c.itemCount < MAX_CART_ITEMS := by
      rcases hroom with h | h
      · exact h
      · exact absurd habsent h
    obtain ⟨hk1, hk2⟩ := hknone hf
    obtain ⟨-, -, hl1, -⟩ := addProduct_appended c hwf p q1 hf hroom1
    have hw : wrapInt (q1 + q2) = q1 + q2 := by
      unfold INT_MAX at hsum
      exact wrapInt_of_range _ (by omega) hsum
    rw [f4, hk2, hl1, hk1, ← lines_length c hwf, set_append_last]
    simp only [hw]
  · rw [lines_length _ hwf2, lines_length c hwf, f3]; omega
  · rw [lines_length _ hwf2, lines_length c hwf, f3]; omega

/-- C3, as the code has it, at the empty cart with "A" in quantity 2 and then "a" in
quantity 3: one line for "A" with quantity 5. -/
theorem add_same_product_twice_witness :
    ShoppingCart.new.Reachable ∧ lowerKey productALower.id.toList = lowerKey productA.id.toList ∧
      (((ShoppingCart.new.addProduct productA 2).addProduct productALower 3).linesFor
        productA.id.toList).length = 1 ∧
      ((ShoppingCart.new.addProduct productA 2).addProduct productALower 3).lines
        = [⟨productA, 5⟩] := by
  have h := add_same_product_twice ShoppingCart.new ShoppingCart.Reachable.new productA
    productALower 2 3 (by decide) (by decide) (by decide) (Or.inl (by decide))
  exact ⟨ShoppingCart.Reachable.new, by decide, h.1, h.2.2.1 rfl (by decide)⟩

/-- C3 as stated fails. On the empty cart, which has room and no line for "A", adding "A" in
quantity 2147483647 and then in quantity 1 leaves one line whose quantity is -2147483648, not
the sum 2147483648. -/
theorem quantity_sum_overflow :
    (0 : Int) < 2147483647 ∧ (0 : Int) < 1 ∧
      ShoppingCart.new.itemCount < MAX_CART_ITEMS ∧
      ShoppingCart.new.linesFor productA.id.toList = [] ∧
      ((ShoppingCart.new.addProduct productA 2147483647).addProduct productA 1).lines.map
        CartItem.quantity = [-2147483648] ∧
      ((ShoppingCart.new.addProduct productA 2147483647).addProduct productA 1).lines.map
        CartItem.quantity ≠ [2147483647 + 1] := by
  decide

/-! ## Auxiliary lemmas: letters -/

/-- The order of characters is the order of their codes. -/
theorem char_le_iff (a b : Char) : a ≤ b ↔ a.toNat ≤ b.toNat := by
  constructor
  · intro h
    have h1 : a.val ≤ b.val := h
    rw [UInt32.le_def] at h1
    exact h1
  · intro h
    show a.val ≤ b.val
    rw [UInt32.le_def]
    exact h

/-- `toupper` brings exactly the letters A..J and a..j into the range A..J. -/
theorem toupper_range (c : Char) :
    (decide ('A' ≤ toupper c) && decide (toupper c ≤ 'J')) = isLetterAJ c := by
  by_cases hr : 97 ≤ c.toNat ∧ c.toNat ≤ 122
  · obtain ⟨h1, h2⟩ := hr
    have hc : c = Char.ofNat c.toNat := (Char.ofNat_toNat c).symm
    generalize c.toNat = n at h1 h2 hc
    subst hc
    interval_cases n <;> decide
  · have ht : toupper c = c := by
      unfold toupper Char.toUpper
      simp only
      rw [if_neg]
      intro h
      exact hr h
    have hlow : (decide ('a' ≤ c) && decide (c ≤ 'j')) = false := by
      rw [Bool.and_eq_false_iff]
      by_cases h1 : 'a' ≤ c
      · right
        have h1' := (char_le_iff _ _).mp h1
        have h97 : ('a' : Char).toNat = 97 := rfl
        have : ¬ c ≤ 'j' := by
          intro h2
          have h2' := (char_le_iff _ _).mp h2
          have h106 : ('j' : Char).toNat = 106 := rfl
          omega
        simpa using this
      · left; simpa using h1
    rw [ht, isLetterAJ, hlow, Bool.or_false]

/-- `toupper` gives 'Y' exactly for 'y' and 'Y'. -/
theorem toupper_eq_Y (c : Char) : toupper c = 'Y' ↔ c = 'y' ∨ c = 'Y' := by
  by_cases hr : 97 ≤ c.toNat ∧ c.toNat ≤ 122
  · obtain ⟨h1, h2⟩ := hr
    have hc : c = Char.ofNat c.toNat := (Char.ofNat_toNat c).symm
    generalize c.toNat = n at h1 h2 hc
    subst hc
    interval_cases n <;> decide
  · have ht : toupper c = c := by
      unfold toupper Char.toUpper
      simp only
      rw [if_neg]
      intro h
      exact hr h
    rw [ht]
    constructor
    · intro h; exact Or.inr h
    · rintro (h | h)
      · exfalso; apply hr; rw [h]; decide
      · exact h

/-! ## Auxiliary lemmas: trimmed lines of one character -/

/-- Whitespace alone is trimmed to nothing. -/
theorem trimEnd_whitespace (ws : List Char) (h : ∀ c ∈ ws, isWhitespace c = true) :
    trimEnd ws = [] := by
  induction ws with
  | nil => rfl
  | cons c cs ih =>
    have hc := h c (List.mem_cons_self _ _)
    have ht := ih (fun d hd => h d (List.mem_cons_of_mem _ hd))
    simp only [trimEnd, ht, hc, and_self, if_true, ite_self]

/-- The trimmed string holds no terminator. -/
theorem trimEnd_no_NUL (l : List Char) : NUL ∉ trimEnd l := by
  induction l with
  | nil => simp [trimEnd]
  | cons c cs ih =>
    by_cases hc : c = NUL
    · simp [trimEnd, hc]
    · by_cases ht : trimEnd cs = [] ∧ isWhitespace c = true
      · simp only [trimEnd, hc, ht, if_false, and_self, if_true]
        simp
      · simp only [trimEnd, hc, ht, if_false, List.mem_cons, not_or]
        exact ⟨fun h => hc h.symm, ih⟩

/-- What trimming removes at the end of a string without NUL is whitespace. -/
theorem trimEnd_split (l : List Char) (hnul : NUL ∉ l) :
    ∃ ws, l = trimEnd l ++ ws ∧ ∀ c ∈ ws, isWhitespace c = true := by
  induction l with
  | nil => exact ⟨[], rfl, by simp⟩
  | cons c cs ih =>
    have hc : c ≠ NUL := fun h => hnul (h ▸ List.mem_cons_self _ _)
    obtain ⟨ws, h1, h2⟩ := ih (fun hm => hnul (List.mem_cons_of_mem _ hm))
    by_cases ht : trimEnd cs = [] ∧ isWhitespace c = true
    · refine ⟨c :: cs, by simp only [trimEnd, hc, ht, if_false, and_self, if_true,
        List.nil_append], ?_⟩
      intro d hd
      rcases List.mem_cons.mp hd with rfl | hd
      · exact ht.2
      · rw [h1, ht.1, List.nil_append] at hd
        exact h2 d hd
    · refine ⟨ws, ?_, h2⟩
      simp only [trimEnd, hc, ht, if_false, List.cons_append]
      rw [← h1]

/-- On a string without NUL `strlen` is the length. -/
theorem strlen_of_no_NUL (l : List Char) (hnul : NUL ∉ l) : strlen l = l.length := by
  unfold strlen
  have : l.takeWhile (fun c => c != NUL) = l := by
    rw [List.takeWhile_eq_self_iff]
    intro c hc
    have : c ≠ NUL := fun h => hnul (h ▸ hc)
    simpa using this
  rw [this]

/-- A line without NUL of at most `n` characters is copied whole by `strncpy`. -/
theorem strncpy_of_no_NUL (l : List Char) (n : Nat) (hnul : NUL ∉ l) (hlen : l.length ≤ n) :
    strncpy l n = l := by
  unfold strncpy
  have : l.takeWhile (fun c => c != NUL) = l := by
    rw [List.takeWhile_eq_self_iff]
    intro c hc
    have : c ≠ NUL := fun h => hnul (h ▸ hc)
    simpa using this
  rw [this, List.take_of_length_le hlen]

/-- A letter of A..J or a..j is neither whitespace nor the terminator. -/
theorem isLetterAJ_plain (c : Char) (h : isLetterAJ c = true) :
    isWhitespace c = false ∧ c ≠ NUL := by
  constructor
  · cases hw : isWhitespace c with
    | false => rfl
    | true =>
      exfalso
      simp only [isWhitespace, Bool.or_eq_true, beq_iff_eq] at hw
      rcases hw with ((hw | hw) | hw) | hw <;> subst hw <;> revert h <;> decide
  · intro hc; subst hc; revert h; decide

/-- The trimmed form of whitespace, one character that is no whitespace, whitespace. -/
theorem trimString_single (ws1 ws2 : List Char) (c : Char)
    (h1 : ∀ d ∈ ws1, isWhitespace d = true) (hc : isWhitespace c = false) (hn : c ≠ NUL)
    (h2 : ∀ d ∈ ws2, isWhitespace d = true) :
    trimString (ws1 ++ [c] ++ ws2) = [c] := by
  rw [trimString_eq, List.append_assoc, skipWhitespace_append ws1 _ h1, List.singleton_append,
    skipWhitespace_of_not_whitespace c ws2 hc]
  simp only [trimEnd, hn, if_false, trimEnd_whitespace ws2 h2, hc, true_and,
    Bool.false_eq_true]

/-- A line without NUL whose trimmed form is one character is whitespace around that
character. -/
theorem single_of_trimString (line : List Char) (hnul : NUL ∉ line) (c : Char)
    (h : trimString line = [c]) : IsSingle line c := by
  obtain ⟨ws1, hl1, hws1⟩ := skipWhitespace_split line
  have hnul2 : NUL ∉ skipWhitespace line := by
    intro hm; apply hnul; rw [hl1]; exact List.mem_append_right _ hm
  obtain ⟨ws2, hl2, hws2⟩ := trimEnd_split (skipWhitespace line) hnul2
  rw [trimString_eq] at h
  rw [h] at hl2
  have hcw : isWhitespace c = false := by
    rcases skipWhitespace_head line with he | ⟨d, ds, he, hd⟩
    · rw [he] at hl2; cases hl2
    · rw [he] at hl2
      simp only [List.singleton_append, List.cons.injEq] at hl2
      rw [← hl2.1]
      rcases hd with hd | hd
      · exfalso; apply hnul2; rw [he, hd]; exact List.mem_cons_self _ _
      · exact hd
  refine ⟨ws1, ws2, ?_, hws1, hcw, hws2⟩
  rw [List.append_assoc, ← hl2, ← hl1]

/-! ## Auxiliary lemmas: the catalog -/

/-- `tolower` brings exactly the letters A..J and a..j into the range a..j. -/
theorem tolower_range (c : Char) :
    (decide ('a' ≤ tolower c) && decide (tolower c ≤ 'j')) = isLetterAJ c := by
  by_cases hr : 65 ≤ c.toNat ∧ c.toNat ≤ 90
  · obtain ⟨h1, h2⟩ := hr
    have hc : c = Char.ofNat c.toNat := (Char.ofNat_toNat c).symm
    generalize c.toNat = n at h1 h2 hc
    subst hc
    interval_cases n <;> decide
  · have ht : tolower c = c := by
      unfold tolower Char.toLower
      simp only
      rw [if_neg]
      intro h
      exact hr h
    have hup : (decide ('A' ≤ c) && decide (c ≤ 'J')) = false := by
      rw [Bool.and_eq_false_iff]
      by_cases h1 : 'A' ≤ c
      · right
        have h1' := (char_le_iff _ _).mp h1
        have h65 : ('A' : Char).toNat = 65 := rfl
        have : ¬ c ≤ 'J' := by
          intro h2
          have h2' := (char_le_iff _ _).mp h2
          have h74 : ('J' : Char).toNat = 74 := rfl
          omega
        simpa using this
      · left; simpa using h1
    rw [ht, isLetterAJ, hup, Bool.false_or]

/-- The key of a string without NUL is the string lower-cased. -/
theorem lowerKey_of_no_NUL (s : List Char) (hnul : NUL ∉ s) : lowerKey s = s.map tolower := by
  unfold lowerKey
  have : s.takeWhile (fun c => c != NUL) = s := by
    rw [List.takeWhile_eq_self_iff]
    intro c hc
    have : c ≠ NUL := fun h => hnul (h ▸ hc)
    simpa using this
  rw [this]

/-- On strings without NUL `strcasecmp` returns 0 exactly when the strings have the same length
and agree character by character after lower-casing. -/
theorem strcasecmp_zero_no_NUL (a b : List Char) (ha : NUL ∉ a) (hb : NUL ∉ b) :
    strcasecmp a b = 0 ↔ a.length = b.length ∧ a.map tolower = b.map tolower := by
  rw [strcasecmp_eq_zero_iff, lowerKey_of_no_NUL a ha, lowerKey_of_no_NUL b hb]
  constructor
  · intro h
    refine ⟨?_, h⟩
    have := congrArg List.length h
    simpa using this
  · intro h; exact h.2

/-- What `findProductById` returns: the first slot below the count whose identifier compares
equal. -/
theorem findProductById_spec (c : ProductCatalog) (id : List Char) :
    (∀ p, c.findProductById id = some p ↔
      ∃ i, i < c.productCount ∧ p = c.products.getD i default ∧
        strcasecmp p.id.toList id = 0 ∧
        ∀ j, j < i → strcasecmp (c.products.getD j default).id.toList id ≠ 0) ∧
    (c.findProductById id = none ↔
      ∀ i, i < c.productCount → strcasecmp (c.products.getD i default).id.toList id ≠ 0) := by
  obtain ⟨f1, f2⟩ := find_range
    (fun i => strcasecmp (c.products.getD i default).id.toList id == 0) c.productCount
  constructor
  · intro p
    constructor
    · intro h
      unfold ProductCatalog.findProductById at h
      rw [Option.map_eq_some'] at h
      obtain ⟨i, hi, rfl⟩ := h
      obtain ⟨a1, a2, a3⟩ := f1 i hi
      refine ⟨i, a1, rfl, by simpa using a2, ?_⟩
      intro j hj
      simpa using a3 j hj
    · rintro ⟨i, hi, rfl, hm, hfirst⟩
      unfold ProductCatalog.findProductById
      cases hf : (List.range c.productCount).find?
          (fun i => strcasecmp (c.products.getD i default).id.toList id == 0) with
      | none =>
        exfalso
        have := f2 hf i hi
        rw [hm] at this
        exact absurd this (by decide)
      | some k =>
        obtain ⟨a1, a2, a3⟩ := f1 k hf
        have hk : k = i := by
          rcases Nat.lt_trichotomy k i with h | h | h
          · exact absurd (by simpa using a2) (hfirst k h)
          · exact h
          · have := a3 i h
            rw [hm] at this
            exact absurd this (by decide)
        rw [hk]; rfl
  · constructor
    · intro h i hi
      unfold ProductCatalog.findProductById at h
      rw [Option.map_eq_none'] at h
      simpa using f2 h i hi
    · intro h
      unfold ProductCatalog.findProductById
      rw [Option.map_eq_none']
      cases hf : (List.range c.productCount).find?
          (fun i => strcasecmp (c.products.getD i default).id.toList id == 0) with
      | none => rfl
      | some k =>
        exfalso
        obtain ⟨a1, a2, -⟩ := f1 k hf
        exact h k a1 (by simpa using a2)

/-- The letters A..J and a..j, one by one. -/
theorem isLetterAJ_cases (c : Char) (h : isLetterAJ c = true) :
    c ∈ "ABCDEFGHIJabcdefghij".toList := by
  have hc : c = Char.ofNat c.toNat := (Char.ofNat_toNat c).symm
  simp only [isLetterAJ, Bool.or_eq_true, Bool.and_eq_true, decide_eq_true_eq,
    char_le_iff] at h
  have hA : ('A' : Char).toNat = 65 := rfl
  have hJ : ('J' : Char).toNat = 74 := rfl
  have ha : ('a' : Char).toNat = 97 := rfl
  have hj : ('j' : Char).toNat = 106 := rfl
  rw [hA, hJ, ha, hj] at h
  generalize c.toNat = n at h hc
  subst hc
  rcases h with ⟨h1, h2⟩ | ⟨h1, h2⟩ <;> interval_cases n <;> decide

/-- On the seeded catalog each letter of A..J and a..j finds the product with that letter. -/
theorem seeded_letter_found (c : Char) (h : isLetterAJ c = true) :
    (ProductCatalog.getInstance.findProductById [c]).map (fun p => p.id.toList)
      = some [toupper c] := by
  have hall : ∀ d ∈ "ABCDEFGHIJabcdefghij".toList,
      (ProductCatalog.getInstance.findProductById [d]).map (fun p => p.id.toList)
        = some [toupper d] := by decide
  exact hall c (isLetterAJ_cases c h)

/-- The identifiers of the seeded catalog are single letters of a..j after lower-casing. -/
theorem seeded_keys :
    ProductCatalog.getInstance.productCount = 10 ∧
    ∀ i, i < 10 →
      (lowerKey (ProductCatalog.getInstance.products.getD i default).id.toList).length = 1 ∧
      (decide ('a' ≤ firstChar (lowerKey
          (ProductCatalog.getInstance.products.getD i default).id.toList)) &&
        decide (firstChar (lowerKey
          (ProductCatalog.getInstance.products.getD i default).id.toList) ≤ 'j')) = true := by
  refine ⟨rfl, ?_⟩
  decide

/-- On the seeded catalog only a single letter of A..J or a..j is found. -/
theorem seeded_other_not_found (id : List Char) (hnul : NUL ∉ id)
    (h : ¬ ∃ c, id = [c] ∧ isLetterAJ c = true) :
    ProductCatalog.getInstance.findProductById id = none := by
  rw [(findProductById_spec ProductCatalog.getInstance id).2]
  intro i hi hmatch
  rw [seeded_keys.1] at hi
  obtain ⟨k1, k2⟩ := seeded_keys.2 i hi
  rw [strcasecmp_eq_zero_iff, lowerKey_of_no_NUL id hnul] at hmatch
  rw [hmatch] at k1 k2
  rw [List.length_map] at k1
  obtain ⟨c, hc⟩ := List.length_eq_one.mp k1
  apply h
  refine ⟨c, hc, ?_⟩
  rw [hc] at k2
  rw [← tolower_range c]
  exact k2

/-- The product-identifier prompt on a valid line: the product looked up is the one for the
upper-cased first character of the line as typed. -/
theorem productIdStep_valid (st : AppState) (line : List Char)
    (hv : isValidProductId line = true) :
    productIdStep st line =
      match ProductCatalog.getInstance.findProductById [toupper (firstChar line)] with
      | none => ⟨.askProductId, st.print (.text ("Product with ID '" ++
          String.mk [toupper (firstChar line)] ++ "' not found."))⟩
      | some product => ⟨.askQuantity product, st⟩ := by
  unfold productIdStep
  rw [hv, if_neg (by decide)]

/-! ## Auxiliary lemmas: the answers -/

/-- The response to a line whose first character that is no whitespace is `c`. -/
theorem getYesNoResponse_first (line : List Char) (hnul : NUL ∉ line) (c : Char)
    (h : FirstNonSpace line c) : getYesNoResponse line = toupper c := by
  obtain ⟨ws, rest, hl, hws, hc⟩ := h
  have hn : c ≠ NUL := by
    intro hc0; apply hnul; rw [hl, ← hc0]
    exact List.mem_append_right _ (List.mem_cons_self _ _)
  have hs : skipWhitespace line = c :: rest := by
    rw [hl, skipWhitespace_append ws _ hws]
    exact skipWhitespace_of_not_whitespace c rest hc
  simp only [getYesNoResponse, hs, firstChar, ne_eq, hn, not_false_eq_true, if_true]

/-- The response to a blank line. -/
theorem getYesNoResponse_blank (line : List Char)
    (h : ∀ c ∈ line, isWhitespace c = true) : getYesNoResponse line = 'N' := by
  have hs : skipWhitespace line = [] := by
    have := skipWhitespace_append line [] h
    rw [List.append_nil] at this
    rw [this]; rfl
  simp only [getYesNoResponse, hs, firstChar, ne_eq, not_true_eq_false, if_false]

/-- A line without NUL is blank or has a first character that is no whitespace. -/
theorem blank_or_first (line : List Char) (hnul : NUL ∉ line) :
    (∀ c ∈ line, isWhitespace c = true) ∨ ∃ c, FirstNonSpace line c := by
  obtain ⟨ws, hl, hws⟩ := skipWhitespace_split line
  rcases skipWhitespace_head line with he | ⟨c, cs, he, hc⟩
  · left
    rw [he, List.append_nil] at hl
    rw [hl]; exact hws
  · right
    rcases hc with hc | hc
    · exfalso; apply hnul; rw [hl, he, hc]
      exact List.mem_append_right _ (List.mem_cons_self _ _)
    · exact ⟨c, ws, cs, by rw [← he]; exact hl, hws, hc⟩

/-! ## The product identifier and the answers: claims C11 to C14 -/

/-- C11. For every input line of at most 99 characters (and without NUL), `isValidProductId`
returns true if and only if the line with its leading and trailing whitespace removed is
exactly one character and that character is one of the letters A..J or a..j. -/
theorem valid_product_id_iff (line : List Char) (hnul : NUL ∉ line)
    (hlen : line.length ≤ 99) :
    isValidProductId line = true ↔ ∃ c, IsSingle line c ∧ isLetterAJ c = true := by
  have hcopy : strncpy line (MAX_INPUT_LENGTH - 1) = line :=
    strncpy_of_no_NUL line _ hnul (by simpa [MAX_INPUT_LENGTH] using hlen)
  constructor
  · intro h
    unfold isValidProductId at h
    simp only [hcopy] at h
    have hlen1 : strlen (trimString line) = 1 := by
      by_contra hne
      rw [if_pos hne] at h
      cases h
    rw [if_neg (by rw [hlen1]; exact fun h => h rfl)] at h
    have hno : NUL ∉ trimString line := by rw [trimString_eq]; exact trimEnd_no_NUL _
    rw [strlen_of_no_NUL _ hno] at hlen1
    obtain ⟨c, hc⟩ := List.length_eq_one.mp hlen1
    rw [hc] at h
    refine ⟨c, single_of_trimString line hnul c hc, ?_⟩
    rw [← toupper_range c]
    exact h
  · rintro ⟨c, ⟨ws1, ws2, hl, h1, hcw, h2⟩, hletter⟩
    have hn : c ≠ NUL := (isLetterAJ_plain c hletter).2
    have ht : trimString line = [c] := by rw [hl]; exact trimString_single ws1 ws2 c h1 hcw hn h2
    have hs : strlen [c] = 1 := strlen_of_no_NUL [c] (by simpa using fun h => hn h.symm)
    unfold isValidProductId
    simp only [hcopy, ht, hs, ne_eq, not_true_eq_false, if_false, firstChar]
    rw [toupper_range c]
    exact hletter

/-- C11 at the line " b ", which is accepted, and at the empty line, a blank line, two
letters, "K", a digit and "A B", which are not. -/
theorem valid_product_id_iff_witness :
    isValidProductId " b ".toList = true ∧ IsSingle " b ".toList 'b' ∧
      isValidProductId "A".toList = true ∧ isValidProductId "j".toList = true ∧
      isValidProductId "".toList = false ∧ isValidProductId "   ".toList = false ∧
      isValidProductId "AB".toList = false ∧ isValidProductId "K".toList = false ∧
      isValidProductId "7".toList = false ∧ isValidProductId "A B".toList = false := by
  have hs : IsSingle " b ".toList 'b' := ⟨[' '], [' '], rfl, by decide, by decide, by decide⟩
  have h := (valid_product_id_iff " b ".toList (by decide) (by decide)).mpr
    ⟨'b', hs, by decide⟩
  exact ⟨h, hs, by decide, by decide, by decide, by decide, by decide, by decide, by decide,
    by decide⟩

/-- C12 at the line " b": the line is accepted by `isValidProductId` and its trimmed form is
the one letter b, but the identifier looked up is the blank the line starts with, no product
is found and the identifier is asked again; the lines "b" and "b " go on to the quantity
prompt for the product "B". -/
theorem product_id_leading_space (st : AppState) :
    isValidProductId " b".toList = true ∧ IsSingle " b".toList 'b' ∧
      productIdStep st " b".toList =
        ⟨.askProductId, st.print (.text "Product with ID ' ' not found.")⟩ ∧
      productIdStep st "b".toList = ⟨.askQuantity productB, st⟩ ∧
      productIdStep st "b ".toList = ⟨.askQuantity productB, st⟩ := by
  have h1 : isValidProductId " b".toList = true := by decide
  have h2 : isValidProductId "b".toList = true := by decide
  have h3 : isValidProductId "b ".toList = true := by decide
  have f1 : ProductCatalog.getInstance.findProductById [toupper (firstChar " b".toList)]
      = none := by decide
  have f2 : ProductCatalog.getInstance.findProductById [toupper (firstChar "b".toList)]
      = some productB := by decide
  have f3 : ProductCatalog.getInstance.findProductById [toupper (firstChar "b ".toList)]
      = some productB := by decide
  refine ⟨h1, ⟨[' '], [], rfl, by decide, by decide, by simp⟩, ?_, ?_, ?_⟩
  · rw [productIdStep_valid st _ h1, f1]; rfl
  · rw [productIdStep_valid st _ h2, f2]
  · rw [productIdStep_valid st _ h3, f3]

/-- C13. For every catalog and every identifier `id`, `findProductById` returns the first
product in catalog order whose identifier compares equal to `id` with `strcasecmp`, which on
strings without NUL returns 0 exactly when the two strings have the same length and agree
character by character after lower-casing, and it returns not-found if and only if no product
compares equal. On the seeded catalog every letter of A..J and a..j finds the product whose
identifier is that letter in upper case, every other string without NUL finds nothing, and the
seeded identifiers are pairwise distinct. -/
theorem find_product_by_id (c : ProductCatalog) (id : List Char) :
    (∀ a b : List Char, NUL ∉ a → NUL ∉ b →
      (strcasecmp a b = 0 ↔ a.length = b.length ∧ a.map tolower = b.map tolower)) ∧
    (∀ p, c.findProductById id = some p ↔
      ∃ i, i < c.productCount ∧ p = c.products.getD i default ∧
        strcasecmp p.id.toList id = 0 ∧
        ∀ j, j < i → strcasecmp (c.products.getD j default).id.toList id ≠ 0) ∧
    (c.findProductById id = none ↔
      ∀ i, i < c.productCount → strcasecmp (c.products.getD i default).id.toList id ≠ 0) ∧
    (∀ ch, isLetterAJ ch = true →
      (ProductCatalog.getInstance.findProductById [ch]).map (fun p => p.id.toList)
        = some [toupper ch]) ∧
    (NUL ∉ id → (¬ ∃ ch, id = [ch] ∧ isLetterAJ ch = true) →
      ProductCatalog.getInstance.findProductById id = none) ∧
    ((ProductCatalog.getInstance.products.take
      ProductCatalog.getInstance.productCount).map (fun p => p.id)).Nodup :=
  ⟨strcasecmp_zero_no_NUL, (findProductById_spec c id).1, (findProductById_spec c id).2,
    seeded_letter_found, seeded_other_not_found id, by decide⟩

/-- C13 on the seeded catalog: "A" and "a" find the product "A", "j" finds the product "J",
and the empty string, "K" and "AB" find nothing. -/
theorem find_product_by_id_witness :
    ProductCatalog.getInstance.findProductById "A".toList = some productA ∧
      ProductCatalog.getInstance.findProductById "a".toList = some productA ∧
      ProductCatalog.getInstance.findProductById "j".toList
        = some ⟨"J", "Foundation Liquid", 599⟩ ∧
      ProductCatalog.getInstance.findProductById "".toList = none ∧
      ProductCatalog.getInstance.findProductById "K".toList = none ∧
      ProductCatalog.getInstance.findProductById "AB".toList = none := by
  have h := find_product_by_id ProductCatalog.getInstance "AB".toList
  refine ⟨by decide, by decide, by decide, by decide, by decide, ?_⟩
  apply h.2.2.2.2.1 (by decide)
  rintro ⟨ch, hch, -⟩
  cases hch

/-- C14, as the code has it. For every input line of at most 99 characters (and without NUL),
which `cin.getline` stores whole, the Yes/No reader returns the upper-cased first character of
the line that is no whitespace, and 'N' when the line is empty or all whitespace; so it
returns 'Y' if and only if that first character is 'y' or 'Y'; and the answer counts as Yes,
at the question for another product and at the question for the checkout, exactly when the
reader returns 'Y', every other line counting as No. -/
theorem yes_no_response (line : List Char) (hnul : NUL ∉ line) (hlen : line.length ≤ 99)
    (st : AppState) (logOpen : Bool) :
    (∀ c, FirstNonSpace line c → getYesNoResponse (getline line) = toupper c) ∧
    ((∀ c ∈ line, isWhitespace c = true) → getYesNoResponse (getline line) = 'N') ∧
    (getYesNoResponse (getline line) = 'Y' ↔
      FirstNonSpace line 'y' ∨ FirstNonSpace line 'Y') ∧
    step ⟨.askAnother, st⟩ (getline line) logOpen =
      .ok ⟨if getYesNoResponse (getline line) = 'Y' then .askProductId else .menu, st⟩ ∧
    step ⟨.askCheckout, st⟩ (getline line) logOpen =
      .ok (if getYesNoResponse (getline line) = 'Y' then ⟨.askPayment, checkoutPrompt st⟩
        else ⟨.menu, st⟩) := by
  rw [getline_short line hlen]
  refine ⟨getYesNoResponse_first line hnul, getYesNoResponse_blank line, ?_, ?_, ?_⟩
  · constructor
    · intro h
      rcases blank_or_first line hnul with hb | ⟨c, hc⟩
      · rw [getYesNoResponse_blank line hb] at h
        exact absurd h (by decide)
      · rw [getYesNoResponse_first line hnul c hc] at h
        rcases (toupper_eq_Y c).mp h with rfl | rfl
        · exact Or.inl hc
        · exact Or.inr hc
    · rintro (h | h)
      · rw [getYesNoResponse_first line hnul _ h]; decide
      · rw [getYesNoResponse_first line hnul _ h]; decide
  · simp only [step]
    split_ifs <;> rfl
  · simp only [step]
    split_ifs <;> rfl

/-- C14, as the code has it, at the lines "  yes" and "Y", which count as Yes, and at the
empty line, a blank line, "no" and "x", which count as No. -/
theorem yes_no_response_witness :
    getYesNoResponse (getline "  yes".toList) = 'Y' ∧
      getYesNoResponse (getline "Y".toList) = 'Y' ∧
      getYesNoResponse (getline "".toList) = 'N' ∧
      getYesNoResponse (getline "   ".toList) = 'N' ∧
      getYesNoResponse (getline "no".toList) = 'N' ∧
      getYesNoResponse (getline "x".toList) = 'X' ∧
      step ⟨.askAnother, sampleState⟩ (getline "  yes".toList) true
        = .ok ⟨.askProductId, sampleState⟩ ∧
      step ⟨.askAnother, sampleState⟩ (getline "".toList) true = .ok ⟨.menu, sampleState⟩ := by
  have h := yes_no_response "  yes".toList (by decide) (by decide) sampleState true
  have hy : getYesNoResponse (getline "  yes".toList) = 'Y' :=
    h.2.2.1.mpr (Or.inl ⟨[' ', ' '], "es".toList, rfl, by decide, by decide⟩)
  have h0 := yes_no_response "".toList (by decide) (by decide) sampleState true
  have hn : getYesNoResponse (getline "".toList) = 'N' := h0.2.1 (by simp)
  refine ⟨hy, by decide, hn, by decide, by decide, by decide, ?_, ?_⟩
  · rw [h.2.2.2.1, if_pos hy]
  · rw [h0.2.2.2.1, if_neg (by rw [hn]; decide)]

/-- C14 as stated fails. The line of 99 blanks and the letter y has no NUL and its first
character that is no whitespace is 'y', but `cin.getline` stores only the 99 blanks: the
Yes/No reader returns 'N', not 'Y', and the answer counts as No at both questions. -/
theorem yes_no_long_line :
    longYesLine.length = 100 ∧ NUL ∉ longYesLine ∧ FirstNonSpace longYesLine 'y' ∧
      getline longYesLine = List.replicate 99 ' ' ∧
      getYesNoResponse (getline longYesLine) = 'N' ∧
      getYesNoResponse (getline longYesLine) ≠ toupper 'y' ∧
      step ⟨.askAnother, sampleState⟩ (getline longYesLine) true = .ok ⟨.menu, sampleState⟩ ∧
      step ⟨.askCheckout, sampleState⟩ (getline longYesLine) true
        = .ok ⟨.menu, sampleState⟩ := by
  have hn : getYesNoResponse (getline longYesLine) = 'N' := by decide
  refine ⟨by decide, by decide, ⟨List.replicate 99 ' ', [], rfl, ?_, by decide⟩, by decide, hn,
    by rw [hn]; decide, ?_, ?_⟩
  · intro c hc
    rw [List.eq_of_mem_replicate hc]
    decide
  · simp only [step, hn]
    rfl
  · simp only [step, hn]
    rfl

/-! ## Auxiliary lemmas: the invariant and the capacity of the cart -/

/-- `addProduct` keeps the array of the cart and its count within the declared size. -/
theorem addProduct_WF (c : ShoppingCart) (hwf : c.WF) (p : Prod) (q : Int) :
    (c.addProduct p q).WF := by
  cases hf : c.findLine p with
  | some i => exact (addProduct_found c hwf p q i hf).2.2.2.2.2
  | none =>
    by_cases hroom : c.itemCount < MAX_CART_ITEMS
    · exact (addProduct_appended c hwf p q hf hroom).2.2.2
    · rw [addProduct_rejected c p q hf hroom]; exact hwf

/-- `addProduct` keeps the lines of the cart free of two lines for one identifier. -/
theorem addProduct_distinct (c : ShoppingCart) (hwf : c.WF) (hd : c.Distinct) (p : Prod)
    (q : Int) : (c.addProduct p q).Distinct := by
  cases hf : c.findLine p with
  | some i =>
    obtain ⟨-, -, -, -, hids, -⟩ := addProduct_found c hwf p q i hf
    unfold ShoppingCart.Distinct
    rw [hids]
    exact hd
  | none =>
    by_cases hroom : c.itemCount < MAX_CART_ITEMS
    · obtain ⟨hno, -, hl, -⟩ := addProduct_appended c hwf p q hf hroom
      unfold ShoppingCart.Distinct
      rw [hl, List.map_append, List.pairwise_append]
      refine ⟨hd, by simp, ?_⟩
      intro a ha b hb
      simp only [List.map_cons, List.map_nil, List.mem_singleton] at hb
      obtain ⟨it, hit, rfl⟩ := List.mem_map.mp ha
      rw [hb]
      exact hno it hit
    · rw [addProduct_rejected c p q hf hroom]; exact hd

/-- Having no two lines whose identifiers compare equal is having no two lines whose
identifiers agree after lower-casing. -/
theorem distinct_iff_keys (c : ShoppingCart) :
    c.Distinct ↔ (c.lines.map (fun it => lowerKey it.product.id.toList)).Nodup := by
  unfold ShoppingCart.Distinct List.Nodup
  rw [List.pairwise_map, List.pairwise_map]
  constructor
  · intro h
    exact h.imp (fun hab heq => hab ((strcasecmp_eq_zero_iff _ _).mpr heq))
  · intro h
    exact h.imp (fun hab heq => hab ((strcasecmp_eq_zero_iff _ _).mp heq))

/-- The crowded carts are reachable. -/
theorem crowdedCart_reachable (n : Nat) : (crowdedCart n).Reachable := by
  induction n with
  | zero => exact ShoppingCart.Reachable.new
  | succ k ih =>
    unfold crowdedCart
    rw [List.range_succ, List.foldl_append]
    exact ShoppingCart.Reachable.addProduct _ _ _ ih

/-- The cart crowded with a hundred products is full and has no line for "A". -/
theorem crowdedCart_full :
    (crowdedCart 100).getItemCount = MAX_CART_ITEMS ∧
      (crowdedCart 100).linesFor productA.id.toList = [] ∧
      (crowdedCart 100).addProductFull productA = true := by
  decide!

/-! ## The invariant and the capacity of the cart: claims C15 and C16 -/

/-- C15. In every cart reachable from the empty cart by `addProduct` and `clear`, no two
lines have product identifiers that agree after lower-casing, that is, that compare equal
with `strcasecmp`; so for every identifier the cart has at most one line; and on every
well-formed cart `addProduct` and `clear` preserve this predicate. -/
theorem cart_one_line_per_identifier (c : ShoppingCart) (hc : c.Reachable) :
    (c.lines.map (fun it => lowerKey it.product.id.toList)).Nodup ∧
    c.lines.Pairwise (fun a b => strcasecmp a.product.id.toList b.product.id.toList ≠ 0) ∧
    (∀ id, (c.linesFor id).length ≤ 1) ∧
    (∀ (c0 : ShoppingCart) (p : Prod) (q : Int), c0.WF →
      (c0.lines.map (fun it => lowerKey it.product.id.toList)).Nodup →
      ((c0.addProduct p q).lines.map (fun it => lowerKey it.product.id.toList)).Nodup ∧
      (c0.clear.lines.map (fun it => lowerKey it.product.id.toList)).Nodup) := by
  obtain ⟨-, hd⟩ := cart_reachable_inv c hc
  refine ⟨(distinct_iff_keys c).mp hd, ?_, fun id => filter_distinct_le_one id c.lines hd, ?_⟩
  · have := hd
    unfold ShoppingCart.Distinct at this
    rw [List.pairwise_map] at this
    exact this
  · intro c0 p q hwf hk
    refine ⟨(distinct_iff_keys _).mp
      (addProduct_distinct c0 hwf ((distinct_iff_keys c0).mpr hk) p q), ?_⟩
    show List.Nodup (List.map _ [])
    exact List.nodup_nil

/-- C15 at the cart reached by adding "A" and then "a": one line. -/
theorem cart_one_line_per_identifier_witness :
    ((ShoppingCart.new.addProduct productA 2).addProduct productALower 3).Reachable ∧
      (((ShoppingCart.new.addProduct productA 2).addProduct productALower 3).lines.map
        (fun it => lowerKey it.product.id.toList)).Nodup ∧
      ((ShoppingCart.new.addProduct productA 2).addProduct productALower 3).lines.length = 1 := by
  have hr : ((ShoppingCart.new.addProduct productA 2).addProduct productALower 3).Reachable :=
    ShoppingCart.Reachable.addProduct _ _ _
      (ShoppingCart.Reachable.addProduct _ _ _ ShoppingCart.Reachable.new)
  exact ⟨hr, (cart_one_line_per_identifier _ hr).1, by decide⟩

/-- C16. For every well-formed cart that holds `MAX_CART_ITEMS` lines and every product whose
identifier compares equal to none of them, `addProduct` prints the message of the full cart
and leaves the cart unchanged: same lines, same count, same total; and the line count of
every reachable cart is at most `MAX_CART_ITEMS`. -/
theorem full_cart_rejects (c : ShoppingCart) (hwf : c.WF)
    (hfull : c.getItemCount = MAX_CART_ITEMS) (p : Prod) (q : Int)
    (hnone : c.linesFor p.id.toList = []) :
    c.addProduct p q = c ∧ c.addProductFull p = true ∧
      (c.addProduct p q).lines = c.lines ∧
      (c.addProduct p q).getItemCount = c.getItemCount ∧
      (c.addProduct p q).getTotalAmount = c.getTotalAmount ∧
      ∀ c1 : ShoppingCart, c1.Reachable →
        c1.getItemCount ≤ MAX_CART_ITEMS ∧ c1.lines.length ≤ MAX_CART_ITEMS := by
  have hf : c.findLine p = none := (linesFor_eq_nil_iff c hwf p).mp hnone
  have hno : ¬ c.itemCount < MAX_CART_ITEMS := by
    have : c.itemCount = MAX_CART_ITEMS := hfull
    omega
  have heq := addProduct_rejected c p q hf hno
  refine ⟨heq, ?_, by rw [heq], by rw [heq], by rw [heq], ?_⟩
  · simp only [ShoppingCart.addProductFull, hf, Option.isNone_none, hno, decide_False,
      Bool.not_false, Bool.and_self]
  · intro c1 hc1
    obtain ⟨hwf1, -⟩ := cart_reachable_inv c1 hc1
    exact ⟨hwf1.2, by rw [lines_length c1 hwf1]; exact hwf1.2⟩

/-- C16 at the cart crowded with a hundred products, to which "A" is not added. -/
theorem full_cart_rejects_witness :
    (crowdedCart 100).Reachable ∧ (crowdedCart 100).getItemCount = MAX_CART_ITEMS ∧
      (crowdedCart 100).linesFor productA.id.toList = [] ∧
      (crowdedCart 100).addProduct productA 2 = crowdedCart 100 ∧
      (crowdedCart 100).addProductFull productA = true := by
  have hr := crowdedCart_reachable 100
  obtain ⟨f1, f2, -⟩ := crowdedCart_full
  have h := full_cart_rejects (crowdedCart 100) (cart_reachable_inv _ hr).1 f1 productA 2 f2
  exact ⟨hr, f1, f2, h.1, h.2.1⟩

/-! ## Auxiliary lemmas: the orders of the ledger stay as they are -/

/-- Every ledger extends itself. -/
theorem Extends_refl (m : OrderManager) : m.Extends m :=
  ⟨Nat.le_refl _, fun _ _ => rfl⟩

/-- Extension of ledgers is transitive. -/
theorem Extends_trans (m1 m2 m3 : OrderManager) (h12 : m1.Extends m2) (h23 : m2.Extends m3) :
    m1.Extends m3 :=
  ⟨Nat.le_trans h12.1 h23.1, fun k hk =>
    (h23.2 k (Nat.lt_of_lt_of_le hk h12.1)).trans (h12.2 k hk)⟩

/-- `createOrder`, whether it returns or throws, leaves every order of the ledger as it is. -/
theorem createOrder_extends (m : OrderManager) (log : List String) (logOpen : Bool)
    (cart : ShoppingCart) (p : PaymentStrategy) :
    m.Extends (m.createOrder log logOpen cart p).manager := by
  by_cases hfull : MAX_ORDERS ≤ m.orderCount
  · rw [createOrder_full m log logOpen cart p hfull]
    exact Extends_refl m
  · have hn : ¬ m.orderCount ≥ MAX_ORDERS := hfull
    simp only [OrderManager.createOrder, hn, if_false]
    refine ⟨Nat.le_succ _, ?_⟩
    intro k hk
    simp only [List.getD_eq_getElem?_getD]
    rw [List.getElem?_set_ne (by omega)]

/-- On a ledger that is not full `createOrder` returns the next identifier. -/
theorem createOrder_result (m : OrderManager) (log : List String) (logOpen : Bool)
    (cart : ShoppingCart) (p : PaymentStrategy) (hroom : m.orderCount < MAX_ORDERS) :
    (m.createOrder log logOpen cart p).result = .ok (m.orderCount + 1) := by
  have hn : ¬ m.orderCount ≥ MAX_ORDERS := Nat.not_le.mpr hroom
  simp only [OrderManager.createOrder, hn, if_false]

/-- What `checkout` leaves: either the ledger and the cart as they were, or the ledger after
a `createOrder` that returned and the cart cleared. -/
theorem checkout_state (st : AppState) (input : List Char) (logOpen : Bool) :
    ∃ st1, checkout st input logOpen = .ok st1 ∧
      ((st1.orderManager = st.orderManager ∧ st1.cart = st.cart) ∨
        ∃ p id, (st.orderManager.createOrder st.log logOpen st.cart p).result = .ok id ∧
          st1.orderManager = (st.orderManager.createOrder st.log logOpen st.cart p).manager ∧
          st1.cart = st.cart.clear) := by
  by_cases hrange : parseFirstInteger input < 1 ∨ parseFirstInteger input > 3
  · refine ⟨st.print (.text "Error: Invalid payment method selected!"), ?_, Or.inl ⟨rfl, rfl⟩⟩
    simp only [checkout, checkoutTry, hrange, if_true, Exn.what]
  · cases hp : paymentOfChoice (parseFirstInteger input) with
    | none =>
      refine ⟨st, ?_, Or.inl ⟨rfl, rfl⟩⟩
      simp only [checkout, checkoutTry, hrange, if_false, hp]
    | some p =>
      by_cases hfull : MAX_ORDERS ≤ st.orderManager.orderCount
      · exact ⟨_, checkout_full_eq st input logOpen p hp hfull, Or.inl ⟨rfl, rfl⟩⟩
      · have hr := createOrder_result st.orderManager st.log logOpen st.cart p
          (Nat.lt_of_not_le hfull)
        refine ⟨AppState.mk st.cart.clear
            (st.orderManager.createOrder st.log logOpen st.cart p).manager
            (st.orderManager.createOrder st.log logOpen st.cart p).log
            (st.out ++ [p.pay st.cart.getTotalAmount] ++
              [.text "You have successfully checked out the products!"] ++
              [.orderId (st.orderManager.orderCount + 1)])
            (st.err ++ (st.orderManager.createOrder st.log logOpen st.cart p).warnings), ?_,
          Or.inr ⟨p, _, hr, rfl, rfl⟩⟩
        simp only [checkout, checkoutTry, checkoutStages, hrange, if_false, hp, hr, AppState.print]

/-- A step of the program leaves every order of the ledger as it is. -/
theorem step_extends (cfg cfg1 : Config) (input : List Char) (logOpen : Bool)
    (h : step cfg input logOpen = .ok cfg1) :
    cfg.st.orderManager.Extends cfg1.st.orderManager := by
  obtain ⟨mode, st⟩ := cfg
  cases mode with
  | menu =>
    simp only [step, Except.ok.injEq] at h
    subst h
    have : (runStep st input).st.orderManager = st.orderManager := by
      unfold runStep
      simp only
      split_ifs <;> rfl
    rw [this]; exact Extends_refl _
  | askProductId =>
    simp only [step, Except.ok.injEq] at h
    subst h
    have : (productIdStep st input).st.orderManager = st.orderManager := by
      unfold productIdStep
      simp only
      split_ifs
      · rfl
      · cases ProductCatalog.getInstance.findProductById [toupper (firstChar input)] <;> rfl
    rw [this]; exact Extends_refl _
  | askQuantity product =>
    simp only [step, Except.ok.injEq] at h
    subst h
    have : (quantityStep st product input).st.orderManager = st.orderManager := by
      unfold quantityStep
      cases acceptedQuantity input with
      | none => rfl
      | some q =>
        simp only [AppState.print]
        split_ifs <;> rfl
    rw [this]; exact Extends_refl _
  | askAnother =>
    simp only [step] at h
    split_ifs at h <;> cases h <;> exact Extends_refl _
  | askCheckout =>
    simp only [step] at h
    split_ifs at h <;> cases h <;> exact Extends_refl _
  | askPayment =>
    obtain ⟨st1, hc, hcases⟩ := checkout_state st input logOpen
    simp only [step, hc, Except.ok.injEq] at h
    subst h
    rcases hcases with ⟨hm, -⟩ | ⟨p, id, -, hm, -⟩
    · show st.orderManager.Extends st1.orderManager
      rw [hm]; exact Extends_refl _
    · show st.orderManager.Extends st1.orderManager
      rw [hm]; exact createOrder_extends _ _ _ _ _
  | finished =>
    simp only [step, Except.ok.injEq] at h
    subst h
    exact Extends_refl _

/-- A run of the program leaves every order of the ledger as it is. -/
theorem exec_extends (logOpen : Bool) (stdin : List (List Char)) :
    ∀ cfg cfg1 : Config, exec cfg logOpen stdin = .ok cfg1 →
      cfg.st.orderManager.Extends cfg1.st.orderManager := by
  induction stdin with
  | nil =>
    intro cfg cfg1 h
    simp only [exec, Except.ok.injEq] at h
    subst h
    exact Extends_refl _
  | cons input rest ih =>
    intro cfg cfg1 h
    obtain ⟨cfg2, h2⟩ := step_returns cfg input logOpen
    simp only [exec, h2] at h
    exact Extends_trans _ _ _ (step_extends cfg cfg2 input logOpen h2) (ih cfg2 cfg1 h)

/-! ## Auxiliary lemmas: the stages of the checkout and the invariant of the program -/

/-- The stages of a checkout with a valid payment method on a ledger that is not full. -/
theorem checkoutStages_eq (st : AppState) (p : PaymentStrategy) (logOpen : Bool)
    (hroom : st.orderManager.orderCount < MAX_ORDERS) :
    checkoutStages st p logOpen = .ok
      ⟨{ st with
          orderManager := (st.orderManager.createOrder st.log logOpen st.cart p).manager
          log := (st.orderManager.createOrder st.log logOpen st.cart p).log
          err := st.err ++ (st.orderManager.createOrder st.log logOpen st.cart p).warnings },
        st.orderManager.orderCount + 1,
        st.cart.getTotalAmount,
        { st with
          orderManager := (st.orderManager.createOrder st.log logOpen st.cart p).manager
          log := (st.orderManager.createOrder st.log logOpen st.cart p).log
          err := st.err ++ (st.orderManager.createOrder st.log logOpen st.cart p).warnings
          out := st.out ++ [p.pay st.cart.getTotalAmount] },
        { st with
          orderManager := (st.orderManager.createOrder st.log logOpen st.cart p).manager
          log := (st.orderManager.createOrder st.log logOpen st.cart p).log
          err := st.err ++ (st.orderManager.createOrder st.log logOpen st.cart p).warnings
          out := st.out ++ [p.pay st.cart.getTotalAmount] ++
            [.text "You have successfully checked out the products!"] ++
            [.orderId (st.orderManager.orderCount + 1)] },
        { cart := st.cart.clear
          orderManager := (st.orderManager.createOrder st.log logOpen st.cart p).manager
          log := (st.orderManager.createOrder st.log logOpen st.cart p).log
          err := st.err ++ (st.orderManager.createOrder st.log logOpen st.cart p).warnings
          out := st.out ++ [p.pay st.cart.getTotalAmount] ++
            [.text "You have successfully checked out the products!"] ++
            [.orderId (st.orderManager.orderCount + 1)] }⟩ := by
  have hr := createOrder_result st.orderManager st.log logOpen st.cart p hroom
  simp only [checkoutStages, hr, AppState.print]

/-- The menu step changes neither the cart nor the ledger, and it asks for the checkout only
when the cart is not empty. -/
theorem runStep_state (st : AppState) (input : List Char) :
    (runStep st input).st.cart = st.cart ∧
      (runStep st input).st.orderManager = st.orderManager ∧
      ((runStep st input).mode = .askCheckout → 1 ≤ st.cart.itemCount) ∧
      (runStep st input).mode ≠ .askPayment := by
  refine ⟨?_, ?_, ?_, ?_⟩
  · unfold runStep; simp only; split_ifs <;> rfl
  · unfold runStep; simp only; split_ifs <;> rfl
  · intro h
    by_contra hlt
    have hz : st.cart.getItemCount = 0 := by
      unfold ShoppingCart.getItemCount; omega
    unfold runStep at h
    simp only [hz, if_true] at h
    split_ifs at h
  · intro h
    unfold runStep at h
    simp only at h
    split_ifs at h

/-- The product-identifier step changes neither the cart nor the ledger. -/
theorem productIdStep_state (st : AppState) (input : List Char) :
    (productIdStep st input).st.cart = st.cart ∧
      (productIdStep st input).st.orderManager = st.orderManager ∧
      (productIdStep st input).mode ≠ .askCheckout ∧
      (productIdStep st input).mode ≠ .askPayment := by
  have hcases : (productIdStep st input).st.cart = st.cart ∧
      (productIdStep st input).st.orderManager = st.orderManager ∧
      ((productIdStep st input).mode = .askProductId ∨
        ∃ p, (productIdStep st input).mode = .askQuantity p) := by
    unfold productIdStep
    by_cases hv : (!isValidProductId input) = true
    · rw [if_pos hv]
      exact ⟨rfl, rfl, Or.inl rfl⟩
    · rw [if_neg hv]
      dsimp only
      cases ProductCatalog.getInstance.findProductById [toupper (firstChar input)] with
      | none => exact ⟨rfl, rfl, Or.inl rfl⟩
      | some p => exact ⟨rfl, rfl, Or.inr ⟨p, rfl⟩⟩
  obtain ⟨h1, h2, h3⟩ := hcases
  refine ⟨h1, h2, ?_, ?_⟩
  · intro h
    rcases h3 with h3 | ⟨p, h3⟩ <;> rw [h3] at h <;> cases h
  · intro h
    rcases h3 with h3 | ⟨p, h3⟩ <;> rw [h3] at h <;> cases h

/-- The quantity step changes the cart by `addProduct` at most and leaves the ledger. -/
theorem quantityStep_state (st : AppState) (product : Prod) (input : List Char) :
    ((quantityStep st product input).st.cart = st.cart ∨
        ∃ q, (quantityStep st product input).st.cart = st.cart.addProduct product q) ∧
      (quantityStep st product input).st.orderManager = st.orderManager ∧
      (quantityStep st product input).mode ≠ .askCheckout ∧
      (quantityStep st product input).mode ≠ .askPayment := by
  have hcases : ((quantityStep st product input).st.cart = st.cart ∨
        ∃ q, (quantityStep st product input).st.cart = st.cart.addProduct product q) ∧
      (quantityStep st product input).st.orderManager = st.orderManager ∧
      ((quantityStep st product input).mode = .askQuantity product ∨
        (quantityStep st product input).mode = .askAnother) := by
    unfold quantityStep
    cases acceptedQuantity input with
    | none => exact ⟨Or.inl rfl, rfl, Or.inl rfl⟩
    | some q =>
      refine ⟨Or.inr ⟨q, ?_⟩, ?_, Or.inr rfl⟩
      · dsimp only [AppState.print]
        split_ifs <;> rfl
      · dsimp only [AppState.print]
        split_ifs <;> rfl
  obtain ⟨h1, h2, h3⟩ := hcases
  refine ⟨h1, h2, ?_, ?_⟩
  · intro h
    rcases h3 with h3 | h3 <;> rw [h3] at h <;> cases h
  · intro h
    rcases h3 with h3 | h3 <;> rw [h3] at h <;> cases h

/-- The initial configuration satisfies the invariant. -/
theorem init_inv : Config.Inv ⟨.menu, AppState.init⟩ := by
  refine ⟨⟨by simp [AppState.init, ShoppingCart.new], by decide⟩,
    by simp [OrderManager.WF, AppState.init, OrderManager.getInstance], ?_, ?_⟩
  · intro o ho
    have : AppState.init.orderManager.placed = [] := rfl
    rw [this] at ho
    cases ho
  · rintro (h | h) <;> cases h

/-- Every step of the program preserves the invariant. -/
theorem step_inv (cfg cfg1 : Config) (input : List Char) (logOpen : Bool)
    (hinv : cfg.Inv) (h : step cfg input logOpen = .ok cfg1) : cfg1.Inv := by
  obtain ⟨mode, st⟩ := cfg
  obtain ⟨hcart, hwf, hord, hne⟩ := hinv
  cases mode with
  | menu =>
    simp only [step, Except.ok.injEq] at h
    subst h
    obtain ⟨a1, a2, a3, a4⟩ := runStep_state st input
    refine ⟨by rw [a1]; exact hcart, by rw [a2]; exact hwf, by rw [a2]; exact hord, ?_⟩
    rintro (hm | hm)
    · rw [a1]; exact a3 hm
    · exact absurd hm a4
  | askProductId =>
    simp only [step, Except.ok.injEq] at h
    subst h
    obtain ⟨a1, a2, a3, a4⟩ := productIdStep_state st input
    refine ⟨by rw [a1]; exact hcart, by rw [a2]; exact hwf, by rw [a2]; exact hord, ?_⟩
    rintro (hm | hm)
    · exact absurd hm a3
    · exact absurd hm a4
  | askQuantity product =>
    simp only [step, Except.ok.injEq] at h
    subst h
    obtain ⟨a1, a2, a3, a4⟩ := quantityStep_state st product input
    refine ⟨?_, by rw [a2]; exact hwf, by rw [a2]; exact hord, ?_⟩
    · rcases a1 with a1 | ⟨q, a1⟩
      · rw [a1]; exact hcart
      · rw [a1]; exact addProduct_WF st.cart hcart product q
    · rintro (hm | hm)
      · exact absurd hm a3
      · exact absurd hm a4
  | askAnother =>
    simp only [step] at h
    split_ifs at h <;> cases h <;>
      exact ⟨hcart, hwf, hord, fun hm => by rcases hm with hm | hm <;> cases hm⟩
  | askCheckout =>
    have hone : 1 ≤ st.cart.itemCount := hne (Or.inl rfl)
    simp only [step] at h
    split_ifs at h <;> cases h
    · exact ⟨hcart, hwf, hord, fun _ => hone⟩
    · exact ⟨hcart, hwf, hord, fun hm => by rcases hm with hm | hm <;> cases hm⟩
  | askPayment =>
    have hone : 1 ≤ st.cart.itemCount := hne (Or.inr rfl)
    obtain ⟨st1, hc, hcases⟩ := checkout_state st input logOpen
    simp only [step, hc, Except.ok.injEq] at h
    subst h
    rcases hcases with ⟨hm, hct⟩ | ⟨p, id, hres, hm, hct⟩
    · refine ⟨?_, ?_, ?_, fun hmode => by rcases hmode with hmode | hmode <;> cases hmode⟩
      · show st1.cart.WF
        rw [hct]; exact hcart
      · show st1.orderManager.WF
        rw [hm]; exact hwf
      · show ∀ o ∈ st1.orderManager.placed, _
        rw [hm]; exact hord
    · have hroom : st.orderManager.orderCount < MAX_ORDERS := by
        by_contra hfull
        rw [createOrder_full st.orderManager st.log logOpen st.cart p
          (Nat.le_of_not_lt hfull)] at hres
        cases hres
      obtain ⟨-, -, r3, r4⟩ := createOrder_ok st.orderManager st.log logOpen st.cart p hwf hroom
      obtain ⟨-, o2, -, -, o5⟩ :=
        Order_new_spec (st.orderManager.orderCount + 1) st.cart hcart p
      refine ⟨?_, ?_, ?_, fun hmode => by rcases hmode with hmode | hmode <;> cases hmode⟩
      · show st1.cart.WF
        rw [hct]; exact ⟨hcart.1, Nat.zero_le _⟩
      · show st1.orderManager.WF
        rw [hm]; exact r4
      · show ∀ o ∈ st1.orderManager.placed, _
        rw [hm, r3]
        intro o ho
        rcases List.mem_append.mp ho with ho | ho
        · exact hord o ho
        · rw [List.mem_singleton] at ho
          rw [ho]
          refine ⟨by rw [o5]; exact hone, ?_⟩
          rw [o2]
          intro hnil
          have := lines_length st.cart hcart
          rw [hnil] at this
          simp at this
          omega
  | finished =>
    simp only [step, Except.ok.injEq] at h
    subst h
    exact ⟨hcart, hwf, hord, hne⟩

/-- Every run of the program preserves the invariant. -/
theorem exec_inv (logOpen : Bool) (stdin : List (List Char)) :
    ∀ cfg cfg1 : Config, cfg.Inv → exec cfg logOpen stdin = .ok cfg1 → cfg1.Inv := by
  induction stdin with
  | nil =>
    intro cfg cfg1 hinv h
    simp only [exec, Except.ok.injEq] at h
    subst h
    exact hinv
  | cons input rest ih =>
    intro cfg cfg1 hinv h
    obtain ⟨cfg2, h2⟩ := step_returns cfg input logOpen
    simp only [exec, h2] at h
    exact ih cfg2 cfg1 (step_inv cfg cfg2 input logOpen hinv h2) h

/-! ## The ledger, the log and the order of the checkout: claims C17 to C20 -/

/-- C17. Orders are write-once. Whatever lines the program reads from a configuration on,
every order that was in the ledger is afterwards at the same position with the same
identifier, line items, total and payment-method name, and the ledger has not shrunk; the same
holds for a single `createOrder`, whether it returns or throws, and for a single `checkout`;
and adding to the cart at the quantity prompt does not touch the ledger. -/
theorem orders_write_once (cfg cfg1 : Config) (logOpen : Bool) (stdin : List (List Char))
    (h : exec cfg logOpen stdin = .ok cfg1) :
    cfg.st.orderManager.Extends cfg1.st.orderManager ∧
    (∀ k, k < cfg.st.orderManager.orderCount →
      (cfg1.st.orderManager.orders.getD k default).id
          = (cfg.st.orderManager.orders.getD k default).id ∧
        (cfg1.st.orderManager.orders.getD k default).lines
          = (cfg.st.orderManager.orders.getD k default).lines ∧
        (cfg1.st.orderManager.orders.getD k default).totalAmount
          = (cfg.st.orderManager.orders.getD k default).totalAmount ∧
        (cfg1.st.orderManager.orders.getD k default).paymentMethodName
          = (cfg.st.orderManager.orders.getD k default).paymentMethodName) ∧
    (∀ (m : OrderManager) (log : List String) (lo : Bool) (cart : ShoppingCart)
      (p : PaymentStrategy), m.Extends (m.createOrder log lo cart p).manager) ∧
    (∀ (st : AppState) (input : List Char) (lo : Bool),
      ∃ st1, checkout st input lo = .ok st1 ∧ st.orderManager.Extends st1.orderManager) ∧
    (∀ (st : AppState) (product : Prod) (input : List Char),
      (quantityStep st product input).st.orderManager = st.orderManager) := by
  have hext := exec_extends logOpen stdin cfg cfg1 h
  refine ⟨hext, ?_, createOrder_extends, ?_, ?_⟩
  · intro k hk
    rw [hext.2 k hk]
    exact ⟨rfl, rfl, rfl, rfl⟩
  · intro st input lo
    obtain ⟨st1, hc⟩ := checkout_returns st input lo
    refine ⟨st1, hc, ?_⟩
    have hs : step ⟨.askPayment, st⟩ input lo = .ok ⟨.menu, st1⟩ := by
      simp only [step, hc]
    exact step_extends _ _ input lo hs
  · intro st product input
    unfold quantityStep
    cases acceptedQuantity input with
    | none => rfl
    | some q =>
      simp only [AppState.print]
      split_ifs <;> rfl

/-- C17 at two purchases in a row: the order of the first purchase is untouched by the
second, which refills and clears the cart and creates a further order. -/
theorem orders_write_once_witness :
    ∃ cfg0 cfg1, exec ⟨.menu, AppState.init⟩ true purchaseLines = .ok cfg0 ∧
      exec cfg0 true purchaseLines = .ok cfg1 ∧
      cfg0.st.orderManager.orderCount = 1 ∧
      cfg1.st.orderManager.orders.getD 0 default = cfg0.st.orderManager.orders.getD 0 default := by
  obtain ⟨cfg0, h0⟩ := exec_returns true purchaseLines ⟨.menu, AppState.init⟩
  obtain ⟨cfg1, h1⟩ := exec_returns true purchaseLines cfg0
  have hcount : (match exec ⟨.menu, AppState.init⟩ true purchaseLines with
      | .ok cfg => cfg.st.orderManager.orderCount
      | .error _ => 0) = 1 := by decide!
  rw [h0] at hcount
  have hc : cfg0.st.orderManager.orderCount = 1 := hcount
  have h := orders_write_once cfg0 cfg1 true purchaseLines h1
  exact ⟨cfg0, cfg1, h0, h1, hc, h.1.2 0 (by rw [hc]; decide)⟩

/-- C18. For every ledger below capacity, every cart and every payment method, `createOrder`
returns the same identifier and produces the same ledger whether or not the log file can be
opened; when it can, exactly one line is appended to the log, and that line contains the
identifier of the new order and the display name of the payment method; when it cannot, the
log is unchanged, a warning is written, and the order is created all the same. -/
theorem log_does_not_block_order (m : OrderManager) (log : List String)
    (cart : ShoppingCart) (p : PaymentStrategy) (hroom : m.orderCount < MAX_ORDERS) :
    (m.createOrder log true cart p).result = .ok (m.orderCount + 1) ∧
    (m.createOrder log false cart p).result = .ok (m.orderCount + 1) ∧
    (m.createOrder log true cart p).manager = (m.createOrder log false cart p).manager ∧
    (m.createOrder log false cart p).manager.orderCount = m.orderCount + 1 ∧
    (m.createOrder log true cart p).log = log ++ [logLine (m.orderCount + 1) p] ∧
    (∃ pre mid post : String, logLine (m.orderCount + 1) p =
      pre ++ toString (m.orderCount + 1) ++ mid ++ p.getMethodName ++ post) ∧
    (m.createOrder log false cart p).log = log ∧
    (m.createOrder log true cart p).warnings = [] ∧
    (m.createOrder log false cart p).warnings = ["Warning: Could not open log file!"] := by
  have hn : ¬ m.orderCount ≥ MAX_ORDERS := Nat.not_le.mpr hroom
  refine ⟨createOrder_result m log true cart p hroom, createOrder_result m log false cart p hroom,
    ?_, ?_, ?_, ⟨"[LOG] -> Order ID: ", " has been successfully checked out and paid using ",
      ".", rfl⟩, ?_, ?_, ?_⟩ <;>
    simp only [OrderManager.createOrder, hn, if_false, if_true, Bool.false_eq_true]

/-- C18 at the first order of the scenario, paid in cash. -/
theorem log_does_not_block_order_witness :
    OrderManager.getInstance.orderCount < MAX_ORDERS ∧
      (OrderManager.getInstance.createOrder [] true sampleCart .CashPayment).log =
        ["[LOG] -> Order ID: 1 has been successfully checked out and paid using Cash."] ∧
      (OrderManager.getInstance.createOrder [] false sampleCart .CashPayment).log = [] ∧
      (OrderManager.getInstance.createOrder [] false sampleCart .CashPayment).result = .ok 1 ∧
      (OrderManager.getInstance.createOrder [] true sampleCart .CashPayment).manager =
        (OrderManager.getInstance.createOrder [] false sampleCart .CashPayment).manager := by
  have h := log_does_not_block_order OrderManager.getInstance [] sampleCart .CashPayment
    (by decide)
  refine ⟨by decide, ?_, h.2.2.2.2.2.2.1, h.2.1, h.2.2.1⟩
  rw [h.2.2.2.2.1]
  decide

/-- C19. In every successful checkout (well-formed cart, ledger below capacity, payment
choice 1, 2 or 3) the `try` block runs through the stages of `checkoutStages` and ends in the
last of them, and the steps happen in the order: create the order in the ledger, invoke `pay`,
report the order identifier, clear the cart. At the moment `pay` is invoked the new order is
already the last order of the ledger, the cart is still as it was, nothing has been reported
yet, and the amount passed to `pay` equals the total stored in the new order; the identifier
is reported after the payment message; the cart is cleared last. And the creation of the
order does come first: when it fails because the ledger is full, the block stops there, in
the state it started in, so `pay` is not invoked, nothing is reported and the cart is not
cleared. -/
theorem checkout_step_order (st : AppState) (input : List Char) (logOpen : Bool) (c : Int)
    (hcart : st.cart.WF) (hwf : st.orderManager.WF)
    (hparse : parseFirstInteger input = c) (hc : c = 1 ∨ c = 2 ∨ c = 3) :
    (st.orderManager.orderCount < MAX_ORDERS →
      ∃ p stages o, paymentOfChoice c = some p ∧ checkoutStages st p logOpen = .ok stages ∧
        checkoutTry st c logOpen = (.ok (), stages.afterClear) ∧
        checkout st input logOpen = .ok stages.afterClear ∧
        -- when `pay` is invoked
        stages.atPay.orderManager.placed = st.orderManager.placed ++ [o] ∧
        o.id = stages.orderId ∧
        stages.atPay.cart = st.cart ∧ stages.atPay.out = st.out ∧
        stages.payAmount = o.totalAmount ∧
        -- after `pay`
        stages.afterPay.out = st.out ++ [p.pay o.totalAmount] ∧
        stages.afterPay.cart = st.cart ∧
        stages.afterPay.orderManager = stages.atPay.orderManager ∧
        -- after the report of the identifier
        stages.afterReport.out = stages.afterPay.out ++
          [.text "You have successfully checked out the products!", .orderId o.id] ∧
        stages.afterReport.cart = st.cart ∧
        -- after `cart.clear()`
        stages.afterClear.cart = st.cart.clear ∧ stages.afterClear.cart.lines = [] ∧
        stages.afterClear.out = stages.afterReport.out ∧
        stages.afterClear.orderManager = stages.atPay.orderManager) ∧
    (MAX_ORDERS ≤ st.orderManager.orderCount →
      ∃ p, paymentOfChoice c = some p ∧
        checkoutStages st p logOpen =
          .error (.runtime_error "Error: Maximum number of orders reached!", st) ∧
        checkoutTry st c logOpen =
          (.error (.runtime_error "Error: Maximum number of orders reached!"), st) ∧
        checkout st input logOpen =
          .ok (st.print (.text "Error: Maximum number of orders reached!"))) := by
  have hp : ∃ p, paymentOfChoice c = some p := by
    rcases hc with h | h | h <;> rw [h] <;> exact ⟨_, rfl⟩
  obtain ⟨p, hp⟩ := hp
  have hp' : paymentOfChoice (parseFirstInteger input) = some p := by rw [hparse]; exact hp
  have hrange : ¬ (c < 1 ∨ c > 3) := by omega
  constructor
  · intro hroom
    obtain ⟨-, -, r3, -⟩ := createOrder_ok st.orderManager st.log logOpen st.cart p hwf hroom
    obtain ⟨o1, -, o3, -, -⟩ := Order_new_spec (st.orderManager.orderCount + 1) st.cart hcart p
    refine ⟨p, _, Order.new (st.orderManager.orderCount + 1) st.cart.getItems
      st.cart.getItemCount (some p), hp, checkoutStages_eq st p logOpen hroom, ?_, ?_, r3, o1,
      rfl, rfl, o3.symm, ?_, rfl, rfl, ?_, rfl, rfl, rfl, ?_, rfl⟩
    · simp only [checkoutTry, hrange, if_false, hp, checkoutStages_eq st p logOpen hroom]
    · rw [checkout_valid_eq st input logOpen p hp' hwf hroom]
    · show st.out ++ [p.pay st.cart.getTotalAmount] = _
      rw [o3]
    · show st.out ++ [p.pay st.cart.getTotalAmount] ++ _ ++ _ = _
      rw [o1]
      simp
    · show st.out ++ [p.pay st.cart.getTotalAmount] ++ _ ++ _ = _
      rfl
  · intro hfull
    have hr := createOrder_full st.orderManager st.log logOpen st.cart p hfull
    have hs : checkoutStages st p logOpen =
        .error (.runtime_error "Error: Maximum number of orders reached!", st) := by
      simp only [checkoutStages, hr, List.append_nil]
    refine ⟨p, hp, hs, ?_, checkout_full_eq st input logOpen p hp' hfull⟩
    simp only [checkoutTry, hrange, if_false, hp, hs]

/-- C19 at the scenario: when `pay` is invoked the order is in the ledger and the cart still
holds its line; the cart is empty at the end. -/
theorem checkout_step_order_witness :
    ∃ stages o, checkoutStages sampleState .CashPayment true = .ok stages ∧
      checkout sampleState "1".toList true = .ok stages.afterClear ∧
      stages.atPay.orderManager.placed = [o] ∧ stages.atPay.cart = sampleCart ∧
      stages.payAmount = o.totalAmount ∧ stages.afterClear.cart.lines = [] := by
  obtain ⟨w1, -, w3, w4, w5⟩ := sampleState_facts
  obtain ⟨p, stages, o, hp, h1, -, h2, h3, -, h5, -, h7, -, -, -, -, -, -, h14, -, -⟩ :=
    (checkout_step_order sampleState "1".toList true 1 w1 w3 (by decide) (Or.inl rfl)).1
      (by rw [w4]; decide)
  have hp1 : paymentOfChoice 1 = some .CashPayment := rfl
  rw [hp1] at hp
  cases hp
  refine ⟨stages, o, h1, h2, ?_, h5, h7, h14⟩
  rw [h3, w5]; rfl

/-- C20. In every state the program reaches from its initial state (empty cart, empty ledger)
on any sequence of input lines, every order in the ledger has at least one line item: the menu
step offers the checkout only when the cart is not empty, so no empty order is ever
recorded. -/
theorem no_empty_order (logOpen : Bool) (stdin : List (List Char)) :
    (∃ cfg, exec ⟨.menu, AppState.init⟩ logOpen stdin = .ok cfg ∧
      ∀ o ∈ cfg.st.orderManager.placed, 1 ≤ o.itemCount ∧ o.lines ≠ []) ∧
    (∀ (st : AppState) (input : List Char), st.cart.getItemCount = 0 →
      (runStep st input).mode ≠ .askCheckout) := by
  constructor
  · obtain ⟨cfg, h⟩ := exec_returns logOpen stdin ⟨.menu, AppState.init⟩
    exact ⟨cfg, h, (exec_inv logOpen stdin _ cfg init_inv h).2.2.1⟩
  · intro st input hz hmode
    have := (runStep_state st input).2.2.1 hmode
    have hz1 : st.cart.itemCount = 0 := hz
    omega

/-- C20 at one purchase followed by an attempt to check out the cart it has emptied: the
ledger holds one order, which has one line item. -/
theorem no_empty_order_witness :
    ∃ cfg, exec ⟨.menu, AppState.init⟩ true (purchaseLines ++ ["2".toList, "Y".toList, "1".toList])
        = .ok cfg ∧
      cfg.st.orderManager.orderCount = 1 ∧
      ∀ o ∈ cfg.st.orderManager.placed, 1 ≤ o.itemCount ∧ o.lines ≠ [] := by
  obtain ⟨⟨cfg, h, hall⟩, -⟩ :=
    no_empty_order true (purchaseLines ++ ["2".toList, "Y".toList, "1".toList])
  have hcount : (match exec ⟨.menu, AppState.init⟩ true
      (purchaseLines ++ ["2".toList, "Y".toList, "1".toList]) with
      | .ok cfg => cfg.st.orderManager.orderCount
      | .error _ => 0) = 1 := by decide!
  rw [h] at hcount
  exact ⟨cfg, h, hcount, hall⟩

/-! ## Auxiliary lemmas: the total of the cart -/

/-- The ten products of the seeded catalog. -/
theorem listed_eq :
    ProductCatalog.getInstance.listed =
      [⟨"A", "Lipstick", 159⟩, ⟨"B", "Blush", 299⟩, ⟨"C", "Mascara", 149⟩,
        ⟨"D", "Eye Shadow Palette", 399⟩, ⟨"E", "Brush for Blush", 79⟩, ⟨"F", "Lip Gloss", 88⟩,
        ⟨"G", "Highligter", 115⟩, ⟨"H", "Eyebrow Pencil", 129⟩, ⟨"I", "Eyeliner", 69⟩,
        ⟨"J", "Foundation Liquid", 599⟩] := rfl

/-- What `findProductById` returns is a product of the catalog. -/
theorem findProductById_listed (c : ProductCatalog) (hlen : c.productCount ≤ c.products.length)
    (id : List Char) (p : Prod) (h : c.findProductById id = some p) : p ∈ c.listed := by
  obtain ⟨i, hi, rfl, -, -⟩ := ((findProductById_spec c id).1 p).mp h
  have hlt : i < c.products.length := Nat.lt_of_lt_of_le hi hlen
  rw [List.getD_eq_getElem?_getD, List.getElem?_eq_getElem hlt]
  exact List.mem_take_iff_getElem.mpr ⟨i, by omega, rfl⟩

/-- Two products of the seeded catalog whose identifiers compare equal are one product. -/
theorem listed_same_key (p : Prod) (hp : p ∈ ProductCatalog.getInstance.listed) (p' : Prod)
    (hp' : p' ∈ ProductCatalog.getInstance.listed)
    (h : strcasecmp p.id.toList p'.id.toList = 0) : p = p' := by
  rw [listed_eq] at hp hp'
  simp only [List.mem_cons, List.mem_singleton, List.mem_nil_iff, or_false] at hp hp'
  rcases hp with rfl | rfl | rfl | rfl | rfl | rfl | rfl | rfl | rfl | rfl <;>
    rcases hp' with rfl | rfl | rfl | rfl | rfl | rfl | rfl | rfl | rfl | rfl <;>
    first
    | rfl
    | exact absurd h (by decide)

/-- A value an `int` holds is not below the least `int`. -/
theorem wrapInt_ge (x : Int) : -2147483648 ≤ wrapInt x := by
  unfold wrapInt; omega

/-- A sum that stays within the `int` range is not changed by the reduction. -/
theorem wrapInt_of_bounds (x : Int) (h0 : -2147483648 ≤ x) (h1 : x ≤ 2147483647) :
    wrapInt x = x := by
  unfold wrapInt; omega

/-- The sum over a list one of whose elements is replaced. -/
theorem sum_map_set (f : CartItem → ℚ) (l : List CartItem) (b : CartItem) :
    ∀ (i : Nat) (a : CartItem), l[i]? = some a →
      ((l.set i b).map f).sum = (l.map f).sum - f a + f b := by
  induction l with
  | nil => intro i a h; simp at h
  | cons x xs ih =>
    intro i a h
    cases i with
    | zero =>
      simp only [List.getElem?_cons_zero, Option.some.injEq] at h
      subst h
      simp only [List.set_cons_zero, List.map_cons, List.sum_cons]
      ring
    | succ j =>
      simp only [List.getElem?_cons_succ] at h
      simp only [List.set_cons_succ, List.map_cons, List.sum_cons, ih j a h]
      ring
/-- A cart built from products of the seeded catalog is a reachable cart; each of its lines
holds a product of the catalog, and no quantity is below the least `int`. -/
theorem seeded_inv (c : ShoppingCart) (h : c.Seeded) :
    c.Reachable ∧
      ∀ it ∈ c.lines, it.product ∈ ProductCatalog.getInstance.listed ∧
        -2147483648 ≤ it.quantity := by
  induction h with
  | new => exact ⟨ShoppingCart.Reachable.new, fun it hit => by cases hit⟩
  | clear c _ ih => exact ⟨ShoppingCart.Reachable.clear c ih.1, fun it hit => by cases hit⟩
  | addProduct c p q hp hq _ ih =>
    obtain ⟨hr, hl⟩ := ih
    refine ⟨ShoppingCart.Reachable.addProduct c p q hr, ?_⟩
    obtain ⟨hwf, -⟩ := cart_reachable_inv c hr
    cases hf : c.findLine p with
    | some i =>
      obtain ⟨hi, -, -, hlines, -, -⟩ := addProduct_found c hwf p q i hf
      have hmem : c.items.getD i default ∈ c.lines :=
        List.getElem?_mem (getD_lines c hwf i hi)
      intro it hit
      rw [hlines] at hit
      rcases List.mem_or_eq_of_mem_set hit with h1 | rfl
      · exact hl it h1
      · exact ⟨(hl _ hmem).1, wrapInt_ge _⟩
    | none =>
      by_cases hroom : c.itemCount < MAX_CART_ITEMS
      · obtain ⟨-, -, hlines, -⟩ := addProduct_appended c hwf p q hf hroom
        intro it hit
        rw [hlines, List.mem_append, List.mem_singleton] at hit
        rcases hit with h1 | rfl
        · exact hl it h1
        · exact ⟨hp, by show (-2147483648 : Int) ≤ q; omega⟩
      · rw [addProduct_rejected c p q hf hroom]
        exact hl

/-- A cart built from products of the seeded catalog has at most ten lines, so it always has
room for one more. -/
theorem seeded_room (c : ShoppingCart) (h : c.Seeded) :
    c.itemCount ≤ 10 ∧ c.itemCount < MAX_CART_ITEMS := by
  obtain ⟨hr, hl⟩ := seeded_inv c h
  obtain ⟨hwf, hd⟩ := cart_reachable_inv c hr
  have hnodup : (c.lines.map CartItem.product).Nodup := by
    unfold ShoppingCart.Distinct at hd
    rw [List.pairwise_map] at hd
    unfold List.Nodup
    rw [List.pairwise_map]
    refine hd.imp ?_
    intro a b hab heq
    apply hab
    rw [heq]
    exact (strcasecmp_eq_zero_iff _ _).mpr rfl
  have hsub : c.lines.map CartItem.product ⊆ ProductCatalog.getInstance.listed := by
    intro x hx
    obtain ⟨it, hit, rfl⟩ := List.mem_map.mp hx
    exact (hl it hit).1
  have hlen := (List.subperm_of_subset hnodup hsub).length_le
  rw [List.length_map, lines_length c hwf, listed_eq] at hlen
  have h10 : c.itemCount ≤ 10 := hlen
  refine ⟨h10, ?_⟩
  show c.itemCount < 100
  omega
/-! ## The total of the cart: claim C21 -/

/-- C21, as the code has it. For every cart built from the empty cart by adding products of
the seeded catalog in positive quantities (and by clearing), every product `p` of the catalog
and every quantity `q > 0` such that a line the cart already has for `p` keeps a quantity of
at most 2147483647 when `q` is added: `getTotalAmount()` after `addProduct(p, q)` is
`getTotalAmount()` before plus `q` times the price of `p`; and the call either replaces the
one line `(p, n)` of the product by `(p, n + q)` in its place or, when the cart has no line
for `p`, appends the line `(p, q)`, all other lines and their order being unchanged. The
cart is never too full for the new line. -/
theorem total_additive (c : ShoppingCart) (hc : c.Seeded) (p : Prod)
    (hp : p ∈ ProductCatalog.getInstance.listed) (q : Int) (hq : 0 < q)
    (hfit : ∀ it ∈ c.linesFor p.id.toList, it.quantity + q ≤ INT_MAX) :
    (c.addProduct p q).getTotalAmount = c.getTotalAmount + q * p.price ∧
      ((∃ i n, c.lines[i]? = some ⟨p, n⟩ ∧
          (c.addProduct p q).lines = c.lines.set i ⟨p, n + q⟩) ∨
        (c.linesFor p.id.toList = [] ∧ (c.addProduct p q).lines = c.lines ++ [⟨p, q⟩])) := by
  obtain ⟨hr, hl⟩ := seeded_inv c hc
  obtain ⟨hwf, -⟩ := cart_reachable_inv c hr
  have hwf1 : (c.addProduct p q).WF := addProduct_WF c hwf p q
  rw [getTotalAmount_eq_sum _ hwf1, getTotalAmount_eq_sum c hwf]
  cases hf : c.findLine p with
  | some i =>
    obtain ⟨hi, hcmp, -, hlines, -, -⟩ := addProduct_found c hwf p q i hf
    have hget := getD_lines c hwf i hi
    have hmem : c.items.getD i default ∈ c.lines := List.getElem?_mem hget
    obtain ⟨hlisted, hlow⟩ := hl _ hmem
    have hprod : (c.items.getD i default).product = p := listed_same_key _ hlisted p hp hcmp
    have hfor : c.items.getD i default ∈ c.linesFor p.id.toList := by
      unfold ShoppingCart.linesFor
      rw [List.mem_filter]
      exact ⟨hmem, by rw [hcmp]; rfl⟩
    have hhigh := hfit _ hfor
    unfold INT_MAX at hhigh
    have hw : wrapInt ((c.items.getD i default).quantity + q)
        = (c.items.getD i default).quantity + q :=
      wrapInt_of_bounds _ (by omega) hhigh
    rw [hw, hprod] at hlines
    have hitem : c.items.getD i default = ⟨p, (c.items.getD i default).quantity⟩ := by
      rw [← hprod]
    constructor
    · rw [hlines, sum_map_set CartItem.getTotalPrice c.lines _ i _ hget]
      simp only [CartItem.getTotalPrice, hprod]
      push_cast
      ring
    · exact Or.inl ⟨i, (c.items.getD i default).quantity, by rw [hget, ← hitem], hlines⟩
  | none =>
    obtain ⟨-, -, hlines, -⟩ := addProduct_appended c hwf p q hf (seeded_room c hc).2
    constructor
    · rw [hlines, List.map_append, List.sum_append]
      simp only [List.map_cons, List.map_nil, List.sum_cons, List.sum_nil,
        CartItem.getTotalPrice, add_zero]
      ring
    · exact Or.inr ⟨(linesFor_eq_nil_iff c hwf p).mpr hf, hlines⟩

/-- C21, as the code has it, at the cart with the line "A" in quantity 2 and a further
addition of "A" in quantity 3: the total grows from 318 by 3 times 159. -/
theorem total_additive_witness :
    sampleCart.Seeded ∧ productA ∈ ProductCatalog.getInstance.listed ∧
      (sampleCart.addProduct productA 3).getTotalAmount
        = sampleCart.getTotalAmount + (3 : Int) * productA.price := by
  have hA : productA ∈ ProductCatalog.getInstance.listed := by
    rw [listed_eq]; exact List.mem_cons_self _ _
  have hs : sampleCart.Seeded :=
    ShoppingCart.Seeded.addProduct _ productA 2 hA (by decide) ShoppingCart.Seeded.new
  exact ⟨hs, hA, (total_additive sampleCart hs productA hA 3 (by decide) (by decide)).1⟩

/-- C21 as stated fails. The cart with the line "A" in quantity 2147483647 is built from the
empty cart by adding a product of the seeded catalog; its total is 341449899873. After adding
"A" in quantity 1 the line has quantity -2147483648 and the total is -341449900032, not the
former total plus 159. -/
theorem total_overflow :
    largestCart.Seeded ∧ productA ∈ ProductCatalog.getInstance.listed ∧ (0 : Int) < 1 ∧
      largestCart.getTotalAmount = 341449899873 ∧
      (largestCart.addProduct productA 1).lines = [⟨productA, -2147483648⟩] ∧
      (largestCart.addProduct productA 1).getTotalAmount = -341449900032 ∧
      (largestCart.addProduct productA 1).getTotalAmount
        ≠ largestCart.getTotalAmount + (1 : Int) * productA.price := by
  have hA : productA ∈ ProductCatalog.getInstance.listed := by
    rw [listed_eq]; exact List.mem_cons_self _ _
  have hs : largestCart.Seeded :=
    ShoppingCart.Seeded.addProduct _ productA 2147483647 hA (by decide) ShoppingCart.Seeded.new
  have hbefore : largestCart.getTotalAmount = 341449899873 := by
    rw [largestCart, (addProduct_new productA 2147483647).2.1]
    norm_num [productA]
  have hlines : (largestCart.addProduct productA 1).lines = [⟨productA, -2147483648⟩] := by
    decide
  have hafter : (largestCart.addProduct productA 1).getTotalAmount = -341449900032 := by
    have hwf : (largestCart.addProduct productA 1).WF :=
      addProduct_WF largestCart (addProduct_new productA 2147483647).2.2 productA 1
    rw [getTotalAmount_eq_sum _ hwf, hlines]
    norm_num [CartItem.getTotalPrice, productA]
  refine ⟨hs, hA, by decide, hbefore, hlines, hafter, ?_⟩
  rw [hafter, hbefore]
  norm_num [productA]

end Shopping
